import Mathlib

/-! # Board engine of the 2k48 game (`games/2k48/game.js`)

A shallow embedding of the tile-merge board transformation.  Cells are
integers, the board is a list of cells (length 16 in every state the
program reaches), and the ambient variables `board`, `score`,
`currentLevel` and `highScore` become the fields of `GameState`.
`Math.random()` is an explicit argument: a draw `num / den` in `[0, 1)`.

The validation of the signup form (`templates/signup.js`) and the reminder
check of the medication page (`medicine remainder/medication-reminder.js`)
follow in namespaces of their own.
-/

namespace Game2k48

/-! ## Data model -/

/-- The ambient variables of `game.js`: `board`, `score`, `currentLevel`, `highScore`. -/
structure GameState where
  board : List Int
  score : Int
  currentLevel : Int
  highScore : Int
deriving DecidableEq, Repr

/-- One outcome of `Math.random()`: the fraction `num / den`, in `[0, 1)` when `num < den`. -/
structure Draw where
  num : Nat
  den : Nat
deriving DecidableEq, Repr

/-- The state of the three loop-carried variables of `move`: `board`, `score`, `moved`. -/
structure Sweep where
  board : List Int
  score : Int
  moved : Bool
deriving DecidableEq, Repr

/-- The state of the merge loop over one line: `filtered`, `score`, `moved`. -/
structure LineState where
  filtered : List Int
  score : Int
  moved : Bool
deriving DecidableEq, Repr

/-! ## `move`: lines 47-93 -/

/-- The index expression of lines 54-56 and 79-81:
`direction === "left" || direction === "right" ? i * 4 + j : j * 4 + i`. -/
def lineIndex (direction : String) (i j : Nat) : Nat :=
  if direction = "left" ∨ direction = "right" then i * 4 + j else j * 4 + i

/-- The test of lines 60 and 76: `direction === "right" || direction === "down"`. -/
def reversed (direction : String) : Bool :=
  decide (direction = "right" ∨ direction = "down")

/-- Lines 51-58: `row.push(board[index])` for `j = 0..3`.  On a board of
sixteen cells every index is in range, so the default of `getD` is never read. -/
def readLine (direction : String) (board : List Int) (i : Nat) : List Int :=
  (List.range 4).map (fun j => board.getD (lineIndex direction i j) 0)

/-- The filter of lines 62 and 73: `filter(v => v !== 0)`. -/
def compact (row : List Int) : List Int :=
  row.filter (fun v => v ≠ 0)

/-- The body of the loop of lines 64-71 at index `k`. -/
def mergeAt (st : LineState) (k : Nat) : LineState :=
  if st.filtered.getD k 0 = st.filtered.getD (k + 1) 0 then
    let doubled := st.filtered.getD k 0 * 2
    { filtered := (st.filtered.set k doubled).set (k + 1) 0
      score := st.score + doubled
      moved := true }
  else st

/-- Lines 64-71: `for (let k = 0; k < filtered.length - 1; k++)`. -/
def mergePass (st : LineState) : LineState :=
  (List.range (st.filtered.length - 1)).foldl mergeAt st

/-- The loop of line 74 run `n` times: `filtered.push(0)`. -/
def pushZeros : Nat → List Int → List Int
  | 0, filtered => filtered
  | n + 1, filtered => pushZeros n (filtered ++ [0])

/-- Line 74: `while (filtered.length < 4) filtered.push(0)`; the loop runs
`4 - filtered.length` times, the length growing by one each time. -/
def padFour (filtered : List Int) : List Int :=
  pushZeros (4 - filtered.length) filtered

/-- Lines 62-74 on one line: filter, merge pass, filter, padding. -/
def lineCore (row : List Int) (score : Int) (moved : Bool) : LineState :=
  let st := mergePass { filtered := compact row, score := score, moved := moved }
  { st with filtered := padFour (compact st.filtered) }

/-- Lines 60-76 on one line that has been read: the reversal of line 60,
lines 62-74, and the reversal of line 76. -/
def lineStep (direction : String) (row : List Int) (score : Int) (moved : Bool) : LineState :=
  let st := lineCore (if reversed direction then row.reverse else row) score moved
  { st with filtered := if reversed direction then st.filtered.reverse else st.filtered }

/-- The body of the loop of lines 78-85 at index `j`: the comparison of line 83
and the assignment of line 84.  The padded line has four cells and the board
sixteen, so both reads and the write are in range. -/
def writeCell (direction : String) (i : Nat) (filtered : List Int) (sw : Sweep) (j : Nat) : Sweep :=
  let index := lineIndex direction i j
  { sw with
    moved := if sw.board.getD index 0 ≠ filtered.getD j 0 then true else sw.moved
    board := sw.board.set index (filtered.getD j 0) }

/-- Lines 78-85: the writeback of one line. -/
def writeBack (direction : String) (i : Nat) (filtered : List Int) (sw : Sweep) : Sweep :=
  (List.range 4).foldl (writeCell direction i filtered) sw

/-- The body of the outer loop of lines 50-86 at index `i`. -/
def moveLine (direction : String) (sw : Sweep) (i : Nat) : Sweep :=
  let st := lineStep direction (readLine direction sw.board i) sw.score sw.moved
  writeBack direction i st.filtered { sw with score := st.score, moved := st.moved }

/-- Lines 48-86: the slide-and-merge step, before any spawn. -/
def slide (direction : String) (board : List Int) (score : Int) : Sweep :=
  (List.range 4).foldl (moveLine direction) { board := board, score := score, moved := false }

/-! ## `addNumber`, `updateScore`, `checkLevel`: lines 30-45 and 95-104 -/

/-- Line 31: the indices of the empty cells, in increasing order. -/
def emptyCells (board : List Int) : List Nat :=
  (List.range board.length).filter (fun i => board.getD i 0 = 0)

/-- Lines 30-35.  `r1` is the draw of line 33, `r2` the draw of line 34;
`Math.floor(r1 * empty.length)` is `r1.num * empty.length / r1.den` and
`r2 < 0.9` is `r2.num * 10 < r2.den * 9`. -/
def addNumber (board : List Int) (r1 r2 : Draw) : List Int :=
  let empty := emptyCells board
  if empty.length = 0 then board
  else
    match empty[r1.num * empty.length / r1.den]? with
    | some index => board.set index (if r2.num * 10 < r2.den * 9 then 2 else 4)
    | none => board

/-- Lines 40-44: the high score follows the score when the score exceeds it. -/
def updateScore (s : GameState) : GameState :=
  if s.score > s.highScore then { s with highScore := s.score } else s

/-- Line 98: the table `{128:1,256:2,512:3,1024:4,2048:5}`. -/
def levels (tile : Int) : Option Int :=
  if tile = 128 then some 1
  else if tile = 256 then some 2
  else if tile = 512 then some 3
  else if tile = 1024 then some 4
  else if tile = 2048 then some 5
  else none

/-- Line 96: `Math.max(...board)`; `none` stands for the `-Infinity` of an empty board. -/
def maxTile (board : List Int) : Option Int :=
  match board with
  | [] => none
  | x :: rest => some (rest.foldl max x)

/-- Lines 95-104. -/
def checkLevel (s : GameState) : GameState :=
  match (maxTile s.board).bind levels with
  | some l => if l > s.currentLevel then { s with currentLevel := l } else s
  | none => s

/-- Lines 12-28 restricted to the state: `createBoard` renders and calls `checkLevel`. -/
def createBoard (s : GameState) : GameState :=
  checkLevel s

/-- Lines 47-93. -/
def move (direction : String) (s : GameState) (r1 r2 : Draw) : GameState :=
  let sw := slide direction s.board s.score
  let s1 : GameState := { s with board := sw.board, score := sw.score }
  if sw.moved then
    updateScore (createBoard { s1 with board := addNumber s1.board r1 r2 })
  else s1

/-- Lines 120-128. -/
def restartGame (s : GameState) (r1 r2 r3 r4 : Draw) : GameState :=
  let s1 : GameState := updateScore { s with board := List.replicate 16 0, score := 0, currentLevel := 0 }
  let s2 : GameState := { s1 with board := addNumber s1.board r1 r2 }
  let s3 : GameState := { s2 with board := addNumber s2.board r3 r4 }
  createBoard s3

/-! ## Reference definitions, following the specification -/

/-- The merge of a zero-free line as the specification words it: equal
neighbours become one doubled tile, which is not merged again. -/
def mergeRef : List Int → List Int
  | [] => []
  | [a] => [a]
  | a :: b :: r => if a = b then (2 * a) :: mergeRef r else a :: mergeRef (b :: r)

/-- The score gained by `mergeRef`: the sum of the doubled tiles. -/
def gainRef : List Int → Int
  | [] => 0
  | [_] => 0
  | a :: b :: r => if a = b then 2 * a + gainRef r else gainRef (b :: r)

/-- Zero padding to length four, as the specification words it. -/
def padRef (l : List Int) : List Int :=
  l ++ List.replicate (4 - l.length) 0

/-- Whether `mergeRef` merges at least one pair. -/
def mergesRef : List Int → Bool
  | [] => false
  | [_] => false
  | a :: b :: r => if a = b then true else mergesRef (b :: r)

/-! ## Definitions used in the statements and proofs -/

/-- The part of `mergeRef` that is still open when the loop stands at a cell
holding `x` with `rest` behind it: a zero cell is one consumed by a merge. -/
def pendingRef (x : Int) (rest : List Int) : List Int :=
  if x = 0 then mergeRef rest else mergeRef (x :: rest)

/-- The gain counterpart of `pendingRef`. -/
def pendingGain (x : Int) (rest : List Int) : Int :=
  if x = 0 then gainRef rest else gainRef (x :: rest)

/-- The flag counterpart of `pendingRef`. -/
def pendingMerges (x : Int) (rest : List Int) : Bool :=
  if x = 0 then mergesRef rest else mergesRef (x :: rest)

/-- Blocks of one tile or of two equal tiles. -/
def IsBlock (b : List Int) : Prop :=
  ∃ x : Int, b = [x] ∨ b = [x, x]

/-- The reversal of lines 60 and 76. -/
def oriented (direction : String) (row : List Int) : List Int :=
  if reversed direction then row.reverse else row

/-- The cells `lineStep` returns. -/
def lineOut (direction : String) (row : List Int) : List Int :=
  oriented direction (padRef (mergeRef (compact (oriented direction row))))

/-- The score `lineStep` adds. -/
def lineGain (direction : String) (row : List Int) : Int :=
  gainRef (compact (oriented direction row))

/-- Whether `lineStep` merges a pair. -/
def lineMerged (direction : String) (row : List Int) : Bool :=
  mergesRef (compact (oriented direction row))

/-- Whether the written line differs from the line read, cell by cell (line 83). -/
def cellsDiffer (b0 b1 b2 b3 x0 x1 x2 x3 : Int) : Bool :=
  decide (b0 ≠ x0) || decide (b1 ≠ x1) || decide (b2 ≠ x2) || decide (b3 ≠ x3)

/-- Whether line `i` of the board merges or comes back different. -/
def lineChanged (direction : String) (board : List Int) (i : Nat) : Bool :=
  lineMerged direction (readLine direction board i) ||
    decide (lineOut direction (readLine direction board i) ≠ readLine direction board i)

/-- The four directions `move` is called with (lines 135-138). -/
def IsDirection (direction : String) : Prop :=
  direction = "left" ∨ direction = "right" ∨ direction = "up" ∨ direction = "down"

instance (direction : String) : Decidable (IsDirection direction) :=
  inferInstanceAs (Decidable
    (direction = "left" ∨ direction = "right" ∨ direction = "up" ∨ direction = "down"))

/-- The board of the scenario: a pair of twos in the first row. -/
def pairBoard : List Int := [2, 2, 0, 0, 0, 0, 0, 0, 0, 0, 0, 0, 0, 0, 0, 0]

/-- The board whose four rows are `[2, 4, 2, 4]`. -/
def stripedBoard : List Int := [2, 4, 2, 4, 2, 4, 2, 4, 2, 4, 2, 4, 2, 4, 2, 4]

/-- No two adjacent cells of the line are equal. -/
def noEqualNeighbours : List Int → Bool
  | [] => true
  | [_] => true
  | a :: b :: r => decide (a ≠ b) && noEqualNeighbours (b :: r)

/-- A line with no empty cell and no two equal neighbours. -/
def Packed (row : List Int) : Prop :=
  (∀ v ∈ row, v ≠ 0) ∧ noEqualNeighbours row = true

instance (row : List Int) : Decidable (Packed row) :=
  inferInstanceAs (Decidable ((∀ v ∈ row, v ≠ 0) ∧ noEqualNeighbours row = true))

/-- A cell value the data model allows: 0 or a power of two `2 ^ k` with `k ≥ 1`. -/
def IsTile (x : Int) : Prop :=
  x = 0 ∨ ∃ k : Nat, 1 ≤ k ∧ x = 2 ^ k

/-- The board invariant: sixteen cells, each 0 or a power of two from 2 upward. -/
def BoardOK (board : List Int) : Prop :=
  board.length = 16 ∧ ∀ x ∈ board, IsTile x

/-- The states the program reaches: `restartGame` runs at load (line 141), and
each key press calls `move` with one of the four directions (lines 134-139). -/
inductive Reachable : GameState → Prop
  | restart (s : GameState) (r1 r2 r3 r4 : Draw) (h1 : r1.num < r1.den) (h3 : r3.num < r3.den) :
      Reachable (restartGame s r1 r2 r3 r4)
  | step (s : GameState) (direction : String) (r1 r2 : Draw) (hd : IsDirection direction)
      (h1 : r1.num < r1.den) (hs : Reachable s) : Reachable (move direction s r1 r2)

/-- One key press: the direction and the two draws `move` may consume. -/
structure Press where
  direction : String
  r1 : Draw
  r2 : Draw

/-- A sequence of key presses, each handled by `move` (lines 134-139). -/
def runMoves (s : GameState) (presses : List Press) : GameState :=
  presses.foldl (fun st p => move p.direction st p.r1 p.r2) s

/-- The scenario board as a state with score, level and high score 0. -/
def pairState : GameState :=
  { board := pairBoard, score := 0, currentLevel := 0, highScore := 0 }

/-- The state after lines 5-9: an empty board, score 0, level 0 and the high
score loaded from storage. -/
def initialState (loaded : Int) : GameState :=
  { board := List.replicate 16 0, score := 0, currentLevel := 0, highScore := loaded }

/-- What the page does to the game: `restartGame` (line 141 and the restart
button) or a key press handled by `move`. -/
inductive Action where
  | restart (r1 r2 r3 r4 : Draw)
  | press (direction : String) (r1 r2 : Draw)

/-- A key press carries one of the four directions. -/
def Action.Valid : Action → Prop
  | .restart _ _ _ _ => True
  | .press direction _ _ => IsDirection direction

instance (a : Action) : Decidable a.Valid :=
  match a with
  | .restart _ _ _ _ => isTrue trivial
  | .press direction _ _ => inferInstanceAs (Decidable (IsDirection direction))

/-- One action on the state. -/
def perform (s : GameState) : Action → GameState
  | .restart r1 r2 r3 r4 => restartGame s r1 r2 r3 r4
  | .press direction r1 r2 => move direction s r1 r2

/-- A sequence of actions on the state. -/
def runActions (s : GameState) (acts : List Action) : GameState :=
  acts.foldl perform s

/-- The scores the state passes through, one after each action. -/
def scoresReached : GameState → List Action → List Int
  | _, [] => []
  | s, a :: rest => (perform s a).score :: scoresReached (perform s a) rest

/-- A board with a pair of twos in the first column. -/
def columnBoard : List Int := [2, 0, 0, 0, 2, 0, 0, 0, 0, 0, 0, 0, 0, 0, 0, 0]

/-- The column board as a state with score, level and high score 0. -/
def columnState : GameState :=
  { board := columnBoard, score := 0, currentLevel := 0, highScore := 0 }

/-- Every row of the board mirrored: cell `(i, j)` holds what `(i, 3 - j)` held. -/
def mirrorRows (board : List Int) : List Int :=
  (List.range 16).map (fun k => board.getD (k / 4 * 4 + (3 - k % 4)) 0)

/-- The board transposed: cell `(i, j)` holds what `(j, i)` held. -/
def transpose (board : List Int) : List Int :=
  (List.range 16).map (fun k => board.getD (k % 4 * 4 + k / 4) 0)

/-! ## `move` with every array access checked

The same loops as above, with `none` returned as soon as an index read or
written lies outside its array. -/

/-- The cells read, or `none` when one of the reads was out of range. -/
def collectCells : List (Option Int) → Option (List Int)
  | [] => some []
  | none :: _ => none
  | some a :: rest => (collectCells rest).map (fun cells => a :: cells)

/-- Lines 51-58 with `board[index]` checked. -/
def readLineChecked (direction : String) (board : List Int) (i : Nat) : Option (List Int) :=
  collectCells ((List.range 4).map (fun j => board[lineIndex direction i j]?))

/-- The body of the loop of lines 64-71 with `filtered[k]` and `filtered[k + 1]` checked. -/
def mergeAtChecked (st : LineState) (k : Nat) : Option LineState :=
  match st.filtered[k]?, st.filtered[k + 1]? with
  | some a, some b =>
    if a = b then
      some { filtered := (st.filtered.set k (a * 2)).set (k + 1) 0
             score := st.score + a * 2
             moved := true }
    else some st
  | _, _ => none

/-- Lines 64-71 with every access checked. -/
def mergePassChecked (st : LineState) : Option LineState :=
  (List.range (st.filtered.length - 1)).foldlM mergeAtChecked st

/-- Lines 62-74 with every access checked. -/
def lineCoreChecked (row : List Int) (score : Int) (moved : Bool) : Option LineState :=
  (mergePassChecked { filtered := compact row, score := score, moved := moved }).map
    (fun st => { st with filtered := padFour (compact st.filtered) })

/-- Lines 60-76 with every access checked. -/
def lineStepChecked (direction : String) (row : List Int) (score : Int) (moved : Bool) :
    Option LineState :=
  (lineCoreChecked (if reversed direction then row.reverse else row) score moved).map
    (fun st =>
      { st with filtered := if reversed direction then st.filtered.reverse else st.filtered })

/-- The body of the loop of lines 78-85 with `board[index]` and `filtered[j]` checked. -/
def writeCellChecked (direction : String) (i : Nat) (filtered : List Int) (sw : Sweep)
    (j : Nat) : Option Sweep :=
  match sw.board[lineIndex direction i j]?, filtered[j]? with
  | some old, some new =>
    some { sw with
           moved := if old ≠ new then true else sw.moved
           board := sw.board.set (lineIndex direction i j) new }
  | _, _ => none

/-- Lines 78-85 with every access checked. -/
def writeBackChecked (direction : String) (i : Nat) (filtered : List Int) (sw : Sweep) :
    Option Sweep :=
  (List.range 4).foldlM (writeCellChecked direction i filtered) sw

/-- The body of the outer loop of lines 50-86 with every access checked. -/
def moveLineChecked (direction : String) (sw : Sweep) (i : Nat) : Option Sweep :=
  (readLineChecked direction sw.board i).bind fun row =>
    (lineStepChecked direction row sw.score sw.moved).bind fun st =>
      writeBackChecked direction i st.filtered { sw with score := st.score, moved := st.moved }

/-- Lines 48-86 with every access checked. -/
def slideChecked (direction : String) (board : List Int) (score : Int) : Option Sweep :=
  (List.range 4).foldlM (moveLineChecked direction)
    { board := board, score := score, moved := false }

/-- The indices line 84 assigns, in the order of the loops of lines 50 and 78. -/
def writtenIndices (direction : String) : List Nat :=
  (List.range 4).flatMap (fun i => (List.range 4).map (fun j => lineIndex direction i j))

/-- The thresholds of the level table of line 98. -/
def thresholds : List Int := [128, 256, 512, 1024, 2048]

/-- The number of thresholds that are at most `m`, as the specification words the level. -/
def levelOf (m : Int) : Int :=
  ((thresholds.filter (fun t => t ≤ m)).length : Int)

/-- `m` is the largest cell of the board. -/
def IsMax (board : List Int) (m : Int) : Prop :=
  m ∈ board ∧ ∀ x ∈ board, x ≤ m

/-- A restart followed by a key press to the left. -/
def sampleRun : List Action :=
  [Action.restart ⟨0, 1⟩ ⟨0, 1⟩ ⟨0, 1⟩ ⟨0, 1⟩, Action.press "left" ⟨0, 1⟩ ⟨0, 1⟩]

end Game2k48

/-! # Signup form (`templates/signup.js`) -/

namespace Signup

/-- A JavaScript string: its UTF-16 code units, so that `length` is the
`length` property of the string. -/
abbrev JsString := List Nat

/-- The code units `String.prototype.trim` strips: white space and line terminators. -/
def isTrimSpace (c : Nat) : Bool :=
  c = 0x09 || c = 0x0A || c = 0x0B || c = 0x0C || c = 0x0D || c = 0x20 || c = 0xA0 ||
  c = 0x1680 || (0x2000 ≤ c && c ≤ 0x200A) || c = 0x2028 || c = 0x2029 || c = 0x202F ||
  c = 0x205F || c = 0x3000 || c = 0xFEFF

/-- `String.prototype.trim`. -/
def jsTrim (s : JsString) : JsString :=
  ((s.dropWhile isTrimSpace).reverse.dropWhile isTrimSpace).reverse

/-- The elements `get` looks up (line 119), by their `name` attribute; `none`
when the element or its `value` is missing. -/
structure SignupForm where
  email : Option JsString
  password : Option JsString
  name : Option JsString
  phone : Option JsString
deriving DecidableEq, Repr

/-- The fields of the record of lines 160-186 that `get` fills before the
validation; the remaining fields are read from the page after it. -/
structure FormData where
  name : JsString
  email : JsString
  password : JsString
  phone : JsString
deriving DecidableEq, Repr

/-- Line 119: `document.querySelector(...)?.value?.trim() || ''`. -/
def get (field : Option JsString) : JsString :=
  match field with
  | some value => jsTrim value
  | none => []

/-- Lines 118-187: `null` (here `none`) after one of the four toasts of lines
127-130, the record otherwise. -/
def collectFormData (form : SignupForm) : Option FormData :=
  let email := get form.email
  let password := get form.password
  let name := get form.name
  let phone := get form.phone
  if name = [] then none
  else if email = [] then none
  else if password = [] then none
  else if password.length < 6 then none
  else some { name := name, email := email, password := password, phone := phone }

/-- Lines 36-42 of `handleSignup`: whether the handler goes on to the sign-up
call of line 45 (`true`) or returns at line 41 (`false`). -/
def handleSignupProceeds (form : SignupForm) : Bool :=
  match collectFormData form with
  | some _ => true
  | none => false

/-- A form with every required field filled and a password of six code units. -/
def sampleForm : SignupForm :=
  { email := some [0x20, 97, 64, 98], password := some [49, 50, 51, 52, 53, 54, 0x20],
    name := some [65], phone := none }

/-- The form with a password of five code units after trimming. -/
def shortPasswordForm : SignupForm :=
  { sampleForm with password := some [0x20, 49, 50, 51, 52, 53, 0x0A] }

/-- The form with a name made of white space only. -/
def blankNameForm : SignupForm :=
  { sampleForm with name := some [0x20, 0x09] }

/-- What trimming means, in the words of the specification of `trim`: `t` is
`v` without a leading and a trailing run of white space, and `t` neither
starts nor ends with white space. -/
def IsTrim (v t : JsString) : Prop :=
  ∃ pre post : JsString, v = pre ++ t ++ post ∧
    (∀ c ∈ pre, isTrimSpace c = true) ∧ (∀ c ∈ post, isTrimSpace c = true) ∧
    (∀ c, t.head? = some c → isTrimSpace c = false) ∧
    (∀ c, t.getLast? = some c → isTrimSpace c = false)

/-- The trimmed value of a field of the form: empty for a missing field. -/
def IsTrimOf (field : Option JsString) (t : JsString) : Prop :=
  match field with
  | some v => IsTrim v t
  | none => t = []

end Signup

/-! # Medication reminder (`medicine remainder/medication-reminder.js`) -/

namespace Reminder

/-- One dose of the stored `medicationReminderData`. -/
structure Dose where
  time : String
  name : String
  dosage : String
  notes : String
  taken : Bool
  notified : Bool
deriving DecidableEq, Repr

/-- One `.med-item` of the page: the values of its inputs and its checkbox. -/
structure MedItem where
  time : String
  name : String
  dosage : String
  notes : String
  taken : Bool
deriving DecidableEq, Repr

/-- The object stored under `medicationReminderData`. -/
structure StoredData where
  patientName : String
  morning : List Dose
  afternoon : List Dose
  evening : List Dose
  bedtime : List Dose
deriving DecidableEq, Repr

/-- The object held in `currentAlarm` (lines 173-177). -/
structure Alarm where
  name : String
  dosage : String
  notes : String
  patientName : String
  snoozed : Bool
  snoozeUntil : Option Nat
deriving DecidableEq, Repr

/-- The state the reminder functions read and write: the page, the storage,
`currentAlarm`, and the names of the alarms shown so far. -/
structure Page where
  patientName : String
  morningList : List MedItem
  afternoonList : List MedItem
  eveningList : List MedItem
  bedtimeList : List MedItem
  stored : Option StoredData
  currentAlarm : Option Alarm
  fired : List String
deriving DecidableEq, Repr

/-- Lines 491-516: the doses of one section as read from the page; line 511
writes `notified: false` for every dose. -/
def getSectionData (items : List MedItem) : List Dose :=
  items.map (fun item =>
    { time := item.time, name := item.name, dosage := item.dosage, notes := item.notes,
      taken := item.taken, notified := false })

/-- Lines 463-477: the stored data rebuilt from the page. -/
def saveAllData (p : Page) : Page :=
  { p with
    stored := some
      { patientName := p.patientName
        morning := getSectionData p.morningList
        afternoon := getSectionData p.afternoonList
        evening := getSectionData p.eveningList
        bedtime := getSectionData p.bedtimeList } }

/-- Lines 640-643. -/
def getStoredData (p : Page) : Option StoredData :=
  p.stored

/-- Lines 171-177: `currentAlarm` is set and the alarm is shown. -/
def showVisibleAlarm (name dosage notes patientName : String) (p : Page) : Page :=
  { p with
    currentAlarm := some
      { name := name, dosage := dosage, notes := notes, patientName := patientName,
        snoozed := false, snoozeUntil := none }
    fired := p.fired ++ [name] }

/-- The callback of lines 133-166 for one dose.  The second component is the
local `data` as the loop leaves it: line 161 sets `notified` on it, and
line 162 stores what `saveAllData` reads from the page. -/
def remindDose (currentTime patientName : String) (acc : Page × List Dose) (dose : Dose) :
    Page × List Dose :=
  if dose.time = currentTime ∧ dose.taken = false ∧ dose.notified = false then
    if (match acc.1.currentAlarm with
        | some alarm => decide (alarm.name = dose.name)
        | none => false) then
      (acc.1, acc.2 ++ [dose])
    else
      let shown := showVisibleAlarm (if dose.name = "" then "Medication" else dose.name)
        dose.dosage dose.notes patientName acc.1
      (saveAllData shown, acc.2 ++ [{ dose with notified := true }])
  else (acc.1, acc.2 ++ [dose])

/-- Lines 100-167, with `new Date()` as the number `now` and its `HH:MM` form
as `currentTime`. -/
def checkReminders (now : Nat) (currentTime : String) (p : Page) : Page :=
  let afterSnooze : Option Page :=
    match p.currentAlarm with
    | some alarm =>
      match alarm.snoozed, alarm.snoozeUntil with
      | true, some snoozeUntil =>
        if now < snoozeUntil then none else some { p with currentAlarm := none }
      | _, _ => some p
    | none => some p
  match afterSnooze with
  | none => p
  | some p1 =>
    if (match p1.currentAlarm with
        | some alarm => !alarm.snoozed
        | none => false) then p1
    else
      match getStoredData p1 with
      | none => p1
      | some data =>
        let allDoses := data.morning ++ data.afternoon ++ data.evening ++ data.bedtime
        let patientName := if data.patientName = "" then "Patient" else data.patientName
        (allDoses.foldl (remindDose currentTime patientName) (p1, [])).1

/-- The callback of lines 263-269 on one stored dose. -/
def markTaken (medicationName : String) (med : Dose) : Dose :=
  if med.name = medicationName ∧ med.taken = false then
    { med with taken := true, notified := true }
  else med

/-- Lines 283-300: the checkbox of every item with that name. -/
def updateMedicationCheckboxInUI (medicationName : String) (checked : Bool)
    (items : List MedItem) : List MedItem :=
  items.map (fun item => if item.name = medicationName then { item with taken := checked } else item)

/-- Lines 254-281. -/
def markMedicationAsTakenInData (medicationName : String) (p : Page) : Page :=
  match getStoredData p with
  | none => p
  | some data =>
    let found := (data.morning ++ data.afternoon ++ data.evening ++ data.bedtime).any
      (fun med => decide (med.name = medicationName ∧ med.taken = false))
    if found then
      { p with
        stored := some
          { data with
            morning := data.morning.map (markTaken medicationName)
            afternoon := data.afternoon.map (markTaken medicationName)
            evening := data.evening.map (markTaken medicationName)
            bedtime := data.bedtime.map (markTaken medicationName) }
        morningList := updateMedicationCheckboxInUI medicationName true p.morningList
        afternoonList := updateMedicationCheckboxInUI medicationName true p.afternoonList
        eveningList := updateMedicationCheckboxInUI medicationName true p.eveningList
        bedtimeList := updateMedicationCheckboxInUI medicationName true p.bedtimeList }
    else p

/-- Lines 234-252. -/
def dismissAlarm (p : Page) : Page :=
  let p1 :=
    match p.currentAlarm with
    | some alarm => if alarm.name = "" then p else markMedicationAsTakenInData alarm.name p
    | none => p
  { p1 with currentAlarm := none }

/-- A page with two morning doses at 08:00, saved, with no alarm showing. -/
def twoDosePage : Page :=
  { patientName := "Asha"
    morningList :=
      [{ time := "08:00", name := "Aspirin", dosage := "1 pill", notes := "", taken := false },
       { time := "08:00", name := "Insulin", dosage := "2 units", notes := "", taken := false }]
    afternoonList := []
    eveningList := []
    bedtimeList := []
    stored := some
      { patientName := "Asha"
        morning :=
          [{ time := "08:00", name := "Aspirin", dosage := "1 pill", notes := "", taken := false,
             notified := false },
           { time := "08:00", name := "Insulin", dosage := "2 units", notes := "", taken := false,
             notified := false }]
        afternoon := []
        evening := []
        bedtime := [] }
    currentAlarm := none
    fired := [] }

/-- Whether the stored data holds a dose of that name with `notified` set. -/
def storedNotified (p : Page) (name : String) : Bool :=
  match p.stored with
  | some data =>
    (data.morning ++ data.afternoon ++ data.evening ++ data.bedtime).any
      (fun dose => decide (dose.name = name) && dose.notified)
  | none => false

/-- The fields of `currentTimePicker` that `adjustTime` reads and writes (lines 10-14). -/
structure TimePicker where
  hour : Int
  minute : Int
deriving DecidableEq, Repr

/-- Lines 761-781.  `Int.tmod` is the remainder of JavaScript, which takes
the sign of the dividend. -/
def adjustTime (type : String) (amount : Int) (p : TimePicker) : TimePicker :=
  if type = "hour" then
    let hour := p.hour + amount
    if hour < 0 then { p with hour := 23 }
    else if hour > 23 then { p with hour := 0 }
    else { p with hour := hour }
  else if type = "minute" then
    let minute := p.minute + amount
    if minute < 0 then
      { hour := Int.tmod (p.hour - 1 + 24) 24, minute := 60 + minute }
    else if minute ≥ 60 then
      { hour := Int.tmod (p.hour + 1) 24, minute := minute - 60 }
    else { p with minute := minute }
  else p

/-- The time of day of the picker, in minutes. -/
def minuteOfDay (p : TimePicker) : Int :=
  p.hour * 60 + p.minute

/-- The picker holds a time of day: `0 ≤ hour ≤ 23` and `0 ≤ minute ≤ 59`. -/
def InRange (p : TimePicker) : Prop :=
  0 ≤ p.hour ∧ p.hour ≤ 23 ∧ 0 ≤ p.minute ∧ p.minute ≤ 59

instance (p : TimePicker) : Decidable (InRange p) :=
  inferInstanceAs (Decidable (0 ≤ p.hour ∧ p.hour ≤ 23 ∧ 0 ≤ p.minute ∧ p.minute ≤ 59))

end Reminder

/-! # Memory game (`games/memory game/script.js`) -/

namespace MemoryGame

/-- The ambient variables of `script.js` (lines 3-6) and the number of calls
`setTimeout(nextRound, 1000)` made so far. -/
structure Game where
  sequence : List String
  userSequence : List String
  isUserTurn : Bool
  level : Nat
  roundsScheduled : Nat
deriving DecidableEq, Repr

/-- What a call leaves behind: the variables, and whether a `TypeError` ended
the call before its last statement. -/
structure Outcome where
  game : Game
  threw : Bool
deriving DecidableEq, Repr

/-- Lines 63-66: whether `blink(color)` completes.  `page` lists the
`data-color` values of the elements of the document; when none of them is
`color`, `querySelector` returns `null` and `btn.classList` throws. -/
def blink (page : List String) (color : String) : Bool :=
  decide (color ∈ page)

/-- Lines 69-85.  The push of line 70 comes first; a throw of `blink` at
line 71 ends the call there.  `none` stands for the `undefined` of an index
past the end of `sequence`. -/
def handleUser (page : List String) (color : String) (g : Game) : Outcome :=
  let userSequence := g.userSequence ++ [color]
  if blink page color = false then
    { game := { g with userSequence := userSequence }, threw := true }
  else
    let currentIndex := userSequence.length - 1
    if userSequence[currentIndex]? ≠ g.sequence[currentIndex]? then
      { game := { g with userSequence := userSequence, isUserTurn := false }, threw := false }
    else if userSequence.length = g.sequence.length then
      { game := { g with userSequence := userSequence,
                         roundsScheduled := g.roundsScheduled + 1 },
        threw := false }
    else { game := { g with userSequence := userSequence }, threw := false }

/-- The click handler of lines 17-22, for a button whose `data-color` is `color`. -/
def clickButton (page : List String) (color : String) (g : Game) : Outcome :=
  if g.isUserTurn = false then { game := g, threw := false } else handleUser page color g

/-- A page with one button for each of the four colours of line 1. -/
def fourButtonPage : List String := ["green", "teal", "gold", "darkgreen"]

/-- A game in its second round, with the first colour already repeated. -/
def sampleGame : Game :=
  { sequence := ["green", "gold"], userSequence := ["green"], isUserTurn := true, level := 2,
    roundsScheduled := 0 }

end MemoryGame

namespace Game2k48

/-! ## Lemmas on the merge loop -/

theorem getD_append_at (pre : List Int) (x d : Int) (rest : List Int) :
    (pre ++ x :: rest).getD pre.length d = x := by
  induction pre with
  | nil => rfl
  | cons p ps ih => simpa using ih

theorem getD_append_next (pre : List Int) (x y d : Int) (rest : List Int) :
    (pre ++ x :: y :: rest).getD (pre.length + 1) d = y := by
  induction pre with
  | nil => rfl
  | cons p ps ih => simpa using ih

theorem set_append_at (pre : List Int) (x v : Int) (rest : List Int) :
    (pre ++ x :: rest).set pre.length v = pre ++ v :: rest := by
  induction pre with
  | nil => rfl
  | cons p ps ih => simp

theorem set_append_next (pre : List Int) (x y v : Int) (rest : List Int) :
    (pre ++ x :: y :: rest).set (pre.length + 1) v = pre ++ x :: v :: rest := by
  induction pre with
  | nil => rfl
  | cons p ps ih => simp

theorem compact_append (l₁ l₂ : List Int) : compact (l₁ ++ l₂) = compact l₁ ++ compact l₂ := by
  simp [compact]

theorem compact_of_nonzero (l : List Int) (h : ∀ v ∈ l, v ≠ 0) : compact l = l := by
  simp only [compact, List.filter_eq_self]
  intro v hv
  simpa using h v hv

theorem compact_nonzero (l : List Int) : ∀ v ∈ compact l, v ≠ 0 := by
  intro v hv
  simpa [compact] using (List.mem_filter.mp hv).2

/-- Loop invariant of lines 64-71, from index `pre.length` to the end. -/
theorem mergeAt_foldl (rest : List Int) :
    ∀ (pre : List Int) (x s : Int) (m : Bool), (∀ v ∈ rest, v ≠ 0) →
      compact ((List.range' pre.length rest.length).foldl mergeAt
          { filtered := pre ++ x :: rest, score := s, moved := m }).filtered
        = compact pre ++ pendingRef x rest ∧
      ((List.range' pre.length rest.length).foldl mergeAt
          { filtered := pre ++ x :: rest, score := s, moved := m }).score
        = s + pendingGain x rest ∧
      ((List.range' pre.length rest.length).foldl mergeAt
          { filtered := pre ++ x :: rest, score := s, moved := m }).moved
        = (m || pendingMerges x rest) := by
  induction rest with
  | nil =>
    intro pre x s m _
    by_cases hx : x = 0
    · simp [pendingRef, pendingGain, pendingMerges, mergeRef, gainRef, mergesRef, compact, hx]
    · simp [pendingRef, pendingGain, pendingMerges, mergeRef, gainRef, mergesRef, compact, hx]
  | cons y r ih =>
    intro pre x s m hnz
    have hy : y ≠ 0 := hnz y (List.mem_cons_self _ _)
    have hr : ∀ v ∈ r, v ≠ 0 := fun v hv => hnz v (List.mem_cons_of_mem _ hv)
    have hlen : (pre ++ [x]).length = pre.length + 1 := by simp
    simp only [List.length_cons, List.range'_succ, List.foldl_cons]
    by_cases hxy : x = y
    · subst hxy
      have hstep : mergeAt { filtered := pre ++ x :: x :: r, score := s, moved := m } pre.length
          = { filtered := (pre ++ [x * 2]) ++ 0 :: r, score := s + x * 2, moved := true } := by
        simp only [mergeAt, getD_append_at, getD_append_next, set_append_at, set_append_next,
          if_true, List.append_assoc, List.singleton_append]
      have hlen2 : (pre ++ [x * 2]).length = pre.length + 1 := by simp
      rw [hstep, ← hlen2]
      obtain ⟨h1, h2, h3⟩ := ih (pre ++ [x * 2]) 0 (s + x * 2) true hr
      refine ⟨?_, ?_, ?_⟩
      · rw [h1]
        have h2x : x * 2 ≠ 0 := by omega
        simp [pendingRef, mergeRef, hy, compact_append, compact, h2x]
        omega
      · rw [h2]
        simp [pendingGain, gainRef, hy]
        omega
      · rw [h3]
        simp [pendingMerges, mergesRef, hy]
    · have hstep : mergeAt { filtered := pre ++ x :: y :: r, score := s, moved := m } pre.length
          = { filtered := (pre ++ [x]) ++ y :: r, score := s, moved := m } := by
        simp only [mergeAt, getD_append_at, getD_append_next, hxy, if_false,
          List.append_assoc, List.singleton_append]
      rw [hstep, ← hlen]
      obtain ⟨h1, h2, h3⟩ := ih (pre ++ [x]) y s m hr
      by_cases hx : x = 0
      · refine ⟨?_, ?_, ?_⟩
        · rw [h1]; simp [pendingRef, hx, hy, compact_append, compact]
        · rw [h2]; simp [pendingGain, hx, hy]
        · rw [h3]; simp [pendingMerges, hx, hy]
      · refine ⟨?_, ?_, ?_⟩
        · rw [h1]; simp [pendingRef, mergeRef, hx, hy, hxy, compact_append, compact]
        · rw [h2]; simp [pendingGain, gainRef, hx, hy, hxy]
        · rw [h3]; simp [pendingMerges, mergesRef, hx, hy, hxy]

/-- The merge loop on a zero-free list, followed by the second filter, is `mergeRef`. -/
theorem mergePass_spec (l : List Int) (s : Int) (m : Bool) (h : ∀ v ∈ l, v ≠ 0) :
    compact (mergePass { filtered := l, score := s, moved := m }).filtered = mergeRef l ∧
    (mergePass { filtered := l, score := s, moved := m }).score = s + gainRef l ∧
    (mergePass { filtered := l, score := s, moved := m }).moved = (m || mergesRef l) := by
  cases l with
  | nil => simp [mergePass, mergeRef, gainRef, mergesRef, compact]
  | cons x rest =>
    have hx : x ≠ 0 := h x (List.mem_cons_self _ _)
    have hr : ∀ v ∈ rest, v ≠ 0 := fun v hv => h v (List.mem_cons_of_mem _ hv)
    have := mergeAt_foldl rest [] x s m hr
    simpa [mergePass, List.range_eq_range', pendingRef, pendingGain, pendingMerges, hx, compact]
      using this

theorem pushZeros_eq (n : Nat) (l : List Int) : pushZeros n l = l ++ List.replicate n 0 := by
  induction n generalizing l with
  | zero => simp [pushZeros]
  | succ n ih => simp [pushZeros, ih, List.replicate_succ]

theorem padFour_eq_padRef (l : List Int) : padFour l = padRef l := by
  simp [padFour, padRef, pushZeros_eq]

/-- Lines 62-74 in closed form. -/
theorem lineCore_eq (row : List Int) (s : Int) (m : Bool) :
    lineCore row s m =
      { filtered := padRef (mergeRef (compact row))
        score := s + gainRef (compact row)
        moved := (m || mergesRef (compact row)) } := by
  obtain ⟨h1, h2, h3⟩ := mergePass_spec (compact row) s m (compact_nonzero row)
  simp only [lineCore, h1, h2, h3, padFour_eq_padRef]

theorem mergeRef_length_le (l : List Int) : (mergeRef l).length ≤ l.length := by
  induction l using mergeRef.induct with
  | case1 => simp [mergeRef]
  | case2 a => simp [mergeRef]
  | case3 a r ih => simp only [mergeRef, if_true, List.length_cons]; omega
  | case4 a b r h ih => simp only [mergeRef, h, if_false, List.length_cons] at ih ⊢; omega

theorem compact_length_le (l : List Int) : (compact l).length ≤ l.length := by
  simpa [compact] using List.length_filter_le _ l

theorem padRef_length (l : List Int) (h : l.length ≤ 4) : (padRef l).length = 4 := by
  simp [padRef]; omega

theorem mergeRef_blocks (l : List Int) :
    ∃ blocks : List (List Int),
      blocks.flatten = l ∧ (∀ b ∈ blocks, IsBlock b) ∧ mergeRef l = blocks.map List.sum := by
  induction l using mergeRef.induct with
  | case1 => exact ⟨[], by simp [mergeRef]⟩
  | case2 a => exact ⟨[[a]], by simp [mergeRef, IsBlock]⟩
  | case3 a r ih =>
    obtain ⟨bs, h1, h2, h3⟩ := ih
    refine ⟨[a, a] :: bs, by simp [h1], ?_, ?_⟩
    · intro b hb
      rcases List.mem_cons.mp hb with rfl | hb
      · exact ⟨a, Or.inr rfl⟩
      · exact h2 b hb
    · simp [mergeRef, h3]; ring
  | case4 a b r h ih =>
    obtain ⟨bs, h1, h2, h3⟩ := ih
    refine ⟨[a] :: bs, by simp [h1], ?_, ?_⟩
    · intro c hc
      rcases List.mem_cons.mp hc with rfl | hc
      · exact ⟨a, Or.inl rfl⟩
      · exact h2 c hc
    · simp [mergeRef, h, h3]

/-! ## The line step in closed form -/

theorem lineStep_eq (direction : String) (row : List Int) (s : Int) (m : Bool) :
    lineStep direction row s m =
      { filtered := lineOut direction row
        score := s + lineGain direction row
        moved := (m || lineMerged direction row) } := by
  simp only [lineStep, lineCore_eq, lineOut, lineGain, lineMerged, oriented]

theorem lineIndex_rows (direction : String) (hd : direction = "left" ∨ direction = "right")
    (i j : Nat) : lineIndex direction i j = i * 4 + j := by
  simp [lineIndex, hd]

theorem lineIndex_cols (direction : String) (hd : direction = "up" ∨ direction = "down")
    (i j : Nat) : lineIndex direction i j = j * 4 + i := by
  have h : ¬ (direction = "left" ∨ direction = "right") := by
    rcases hd with rfl | rfl <;> decide
  simp [lineIndex, h]

theorem range_four : List.range 4 = [0, 1, 2, 3] := by decide

theorem or_chain (m p0 p1 p2 p3 : Bool) :
    (p3 || (p2 || (p1 || (p0 || m)))) = (m || (p0 || p1 || p2 || p3)) := by
  cases m <;> cases p0 <;> cases p1 <;> cases p2 <;> cases p3 <;> rfl

theorem writeBack_row0 (direction : String) (hd : direction = "left" ∨ direction = "right")
    (b0 b1 b2 b3 b4 b5 b6 b7 b8 b9 b10 b11 b12 b13 b14 b15 s : Int) (m : Bool) (x0 x1 x2 x3 : Int) :
    writeBack direction 0 [x0, x1, x2, x3]
      { board := [b0, b1, b2, b3, b4, b5, b6, b7, b8, b9, b10, b11, b12, b13, b14, b15]
        score := s, moved := m } =
      { board := [x0, x1, x2, x3, b4, b5, b6, b7, b8, b9, b10, b11, b12, b13, b14, b15]
        score := s, moved := (m || cellsDiffer b0 b1 b2 b3 x0 x1 x2 x3) } := by
  simp only [writeBack, range_four, List.foldl_cons, List.foldl_nil, writeCell,
    lineIndex_rows direction hd]
  simp [cellsDiffer, or_chain]

theorem moveLine_row0 (direction : String) (hd : direction = "left" ∨ direction = "right")
    (b0 b1 b2 b3 b4 b5 b6 b7 b8 b9 b10 b11 b12 b13 b14 b15 s : Int) (m : Bool) (x0 x1 x2 x3 : Int)
    (hx : lineOut direction [b0, b1, b2, b3] = [x0, x1, x2, x3]) :
    moveLine direction
      { board := [b0, b1, b2, b3, b4, b5, b6, b7, b8, b9, b10, b11, b12, b13, b14, b15]
        score := s, moved := m } 0 =
      { board := [x0, x1, x2, x3, b4, b5, b6, b7, b8, b9, b10, b11, b12, b13, b14, b15]
        score := s + lineGain direction [b0, b1, b2, b3]
        moved := (m || lineMerged direction [b0, b1, b2, b3]
          || cellsDiffer b0 b1 b2 b3 x0 x1 x2 x3) } := by
  have hread : readLine direction [b0, b1, b2, b3, b4, b5, b6, b7, b8, b9, b10, b11, b12, b13, b14, b15] 0
      = [b0, b1, b2, b3] := by
    simp [readLine, range_four, lineIndex_rows direction hd]
  simp only [moveLine, hread, lineStep_eq, hx, writeBack_row0 direction hd]

theorem writeBack_row1 (direction : String) (hd : direction = "left" ∨ direction = "right")
    (b0 b1 b2 b3 b4 b5 b6 b7 b8 b9 b10 b11 b12 b13 b14 b15 s : Int) (m : Bool) (x0 x1 x2 x3 : Int) :
    writeBack direction 1 [x0, x1, x2, x3]
      { board := [b0, b1, b2, b3, b4, b5, b6, b7, b8, b9, b10, b11, b12, b13, b14, b15]
        score := s, moved := m } =
      { board := [b0, b1, b2, b3, x0, x1, x2, x3, b8, b9, b10, b11, b12, b13, b14, b15]
        score := s, moved := (m || cellsDiffer b4 b5 b6 b7 x0 x1 x2 x3) } := by
  simp only [writeBack, range_four, List.foldl_cons, List.foldl_nil, writeCell,
    lineIndex_rows direction hd]
  simp [cellsDiffer, or_chain]

theorem moveLine_row1 (direction : String) (hd : direction = "left" ∨ direction = "right")
    (b0 b1 b2 b3 b4 b5 b6 b7 b8 b9 b10 b11 b12 b13 b14 b15 s : Int) (m : Bool) (x0 x1 x2 x3 : Int)
    (hx : lineOut direction [b4, b5, b6, b7] = [x0, x1, x2, x3]) :
    moveLine direction
      { board := [b0, b1, b2, b3, b4, b5, b6, b7, b8, b9, b10, b11, b12, b13, b14, b15]
        score := s, moved := m } 1 =
      { board := [b0, b1, b2, b3, x0, x1, x2, x3, b8, b9, b10, b11, b12, b13, b14, b15]
        score := s + lineGain direction [b4, b5, b6, b7]
        moved := (m || lineMerged direction [b4, b5, b6, b7]
          || cellsDiffer b4 b5 b6 b7 x0 x1 x2 x3) } := by
  have hread : readLine direction [b0, b1, b2, b3, b4, b5, b6, b7, b8, b9, b10, b11, b12, b13, b14, b15] 1
      = [b4, b5, b6, b7] := by
    simp [readLine, range_four, lineIndex_rows direction hd]
  simp only [moveLine, hread, lineStep_eq, hx, writeBack_row1 direction hd]

theorem writeBack_row2 (direction : String) (hd : direction = "left" ∨ direction = "right")
    (b0 b1 b2 b3 b4 b5 b6 b7 b8 b9 b10 b11 b12 b13 b14 b15 s : Int) (m : Bool) (x0 x1 x2 x3 : Int) :
    writeBack direction 2 [x0, x1, x2, x3]
      { board := [b0, b1, b2, b3, b4, b5, b6, b7, b8, b9, b10, b11, b12, b13, b14, b15]
        score := s, moved := m } =
      { board := [b0, b1, b2, b3, b4, b5, b6, b7, x0, x1, x2, x3, b12, b13, b14, b15]
        score := s, moved := (m || cellsDiffer b8 b9 b10 b11 x0 x1 x2 x3) } := by
  simp only [writeBack, range_four, List.foldl_cons, List.foldl_nil, writeCell,
    lineIndex_rows direction hd]
  simp [cellsDiffer, or_chain]

theorem moveLine_row2 (direction : String) (hd : direction = "left" ∨ direction = "right")
    (b0 b1 b2 b3 b4 b5 b6 b7 b8 b9 b10 b11 b12 b13 b14 b15 s : Int) (m : Bool) (x0 x1 x2 x3 : Int)
    (hx : lineOut direction [b8, b9, b10, b11] = [x0, x1, x2, x3]) :
    moveLine direction
      { board := [b0, b1, b2, b3, b4, b5, b6, b7, b8, b9, b10, b11, b12, b13, b14, b15]
        score := s, moved := m } 2 =
      { board := [b0, b1, b2, b3, b4, b5, b6, b7, x0, x1, x2, x3, b12, b13, b14, b15]
        score := s + lineGain direction [b8, b9, b10, b11]
        moved := (m || lineMerged direction [b8, b9, b10, b11]
          || cellsDiffer b8 b9 b10 b11 x0 x1 x2 x3) } := by
  have hread : readLine direction [b0, b1, b2, b3, b4, b5, b6, b7, b8, b9, b10, b11, b12, b13, b14, b15] 2
      = [b8, b9, b10, b11] := by
    simp [readLine, range_four, lineIndex_rows direction hd]
  simp only [moveLine, hread, lineStep_eq, hx, writeBack_row2 direction hd]

theorem writeBack_row3 (direction : String) (hd : direction = "left" ∨ direction = "right")
    (b0 b1 b2 b3 b4 b5 b6 b7 b8 b9 b10 b11 b12 b13 b14 b15 s : Int) (m : Bool) (x0 x1 x2 x3 : Int) :
    writeBack direction 3 [x0, x1, x2, x3]
      { board := [b0, b1, b2, b3, b4, b5, b6, b7, b8, b9, b10, b11, b12, b13, b14, b15]
        score := s, moved := m } =
      { board := [b0, b1, b2, b3, b4, b5, b6, b7, b8, b9, b10, b11, x0, x1, x2, x3]
        score := s, moved := (m || cellsDiffer b12 b13 b14 b15 x0 x1 x2 x3) } := by
  simp only [writeBack, range_four, List.foldl_cons, List.foldl_nil, writeCell,
    lineIndex_rows direction hd]
  simp [cellsDiffer, or_chain]

theorem moveLine_row3 (direction : String) (hd : direction = "left" ∨ direction = "right")
    (b0 b1 b2 b3 b4 b5 b6 b7 b8 b9 b10 b11 b12 b13 b14 b15 s : Int) (m : Bool) (x0 x1 x2 x3 : Int)
    (hx : lineOut direction [b12, b13, b14, b15] = [x0, x1, x2, x3]) :
    moveLine direction
      { board := [b0, b1, b2, b3, b4, b5, b6, b7, b8, b9, b10, b11, b12, b13, b14, b15]
        score := s, moved := m } 3 =
      { board := [b0, b1, b2, b3, b4, b5, b6, b7, b8, b9, b10, b11, x0, x1, x2, x3]
        score := s + lineGain direction [b12, b13, b14, b15]
        moved := (m || lineMerged direction [b12, b13, b14, b15]
          || cellsDiffer b12 b13 b14 b15 x0 x1 x2 x3) } := by
  have hread : readLine direction [b0, b1, b2, b3, b4, b5, b6, b7, b8, b9, b10, b11, b12, b13, b14, b15] 3
      = [b12, b13, b14, b15] := by
    simp [readLine, range_four, lineIndex_rows direction hd]
  simp only [moveLine, hread, lineStep_eq, hx, writeBack_row3 direction hd]

theorem writeBack_col0 (direction : String) (hd : direction = "up" ∨ direction = "down")
    (b0 b1 b2 b3 b4 b5 b6 b7 b8 b9 b10 b11 b12 b13 b14 b15 s : Int) (m : Bool) (x0 x1 x2 x3 : Int) :
    writeBack direction 0 [x0, x1, x2, x3]
      { board := [b0, b1, b2, b3, b4, b5, b6, b7, b8, b9, b10, b11, b12, b13, b14, b15]
        score := s, moved := m } =
      { board := [x0, b1, b2, b3, x1, b5, b6, b7, x2, b9, b10, b11, x3, b13, b14, b15]
        score := s, moved := (m || cellsDiffer b0 b4 b8 b12 x0 x1 x2 x3) } := by
  simp only [writeBack, range_four, List.foldl_cons, List.foldl_nil, writeCell,
    lineIndex_cols direction hd]
  simp [cellsDiffer, or_chain]

theorem moveLine_col0 (direction : String) (hd : direction = "up" ∨ direction = "down")
    (b0 b1 b2 b3 b4 b5 b6 b7 b8 b9 b10 b11 b12 b13 b14 b15 s : Int) (m : Bool) (x0 x1 x2 x3 : Int)
    (hx : lineOut direction [b0, b4, b8, b12] = [x0, x1, x2, x3]) :
    moveLine direction
      { board := [b0, b1, b2, b3, b4, b5, b6, b7, b8, b9, b10, b11, b12, b13, b14, b15]
        score := s, moved := m } 0 =
      { board := [x0, b1, b2, b3, x1, b5, b6, b7, x2, b9, b10, b11, x3, b13, b14, b15]
        score := s + lineGain direction [b0, b4, b8, b12]
        moved := (m || lineMerged direction [b0, b4, b8, b12]
          || cellsDiffer b0 b4 b8 b12 x0 x1 x2 x3) } := by
  have hread : readLine direction [b0, b1, b2, b3, b4, b5, b6, b7, b8, b9, b10, b11, b12, b13, b14, b15] 0
      = [b0, b4, b8, b12] := by
    simp [readLine, range_four, lineIndex_cols direction hd]
  simp only [moveLine, hread, lineStep_eq, hx, writeBack_col0 direction hd]

theorem writeBack_col1 (direction : String) (hd : direction = "up" ∨ direction = "down")
    (b0 b1 b2 b3 b4 b5 b6 b7 b8 b9 b10 b11 b12 b13 b14 b15 s : Int) (m : Bool) (x0 x1 x2 x3 : Int) :
    writeBack direction 1 [x0, x1, x2, x3]
      { board := [b0, b1, b2, b3, b4, b5, b6, b7, b8, b9, b10, b11, b12, b13, b14, b15]
        score := s, moved := m } =
      { board := [b0, x0, b2, b3, b4, x1, b6, b7, b8, x2, b10, b11, b12, x3, b14, b15]
        score := s, moved := (m || cellsDiffer b1 b5 b9 b13 x0 x1 x2 x3) } := by
  simp only [writeBack, range_four, List.foldl_cons, List.foldl_nil, writeCell,
    lineIndex_cols direction hd]
  simp [cellsDiffer, or_chain]

theorem moveLine_col1 (direction : String) (hd : direction = "up" ∨ direction = "down")
    (b0 b1 b2 b3 b4 b5 b6 b7 b8 b9 b10 b11 b12 b13 b14 b15 s : Int) (m : Bool) (x0 x1 x2 x3 : Int)
    (hx : lineOut direction [b1, b5, b9, b13] = [x0, x1, x2, x3]) :
    moveLine direction
      { board := [b0, b1, b2, b3, b4, b5, b6, b7, b8, b9, b10, b11, b12, b13, b14, b15]
        score := s, moved := m } 1 =
      { board := [b0, x0, b2, b3, b4, x1, b6, b7, b8, x2, b10, b11, b12, x3, b14, b15]
        score := s + lineGain direction [b1, b5, b9, b13]
        moved := (m || lineMerged direction [b1, b5, b9, b13]
          || cellsDiffer b1 b5 b9 b13 x0 x1 x2 x3) } := by
  have hread : readLine direction [b0, b1, b2, b3, b4, b5, b6, b7, b8, b9, b10, b11, b12, b13, b14, b15] 1
      = [b1, b5, b9, b13] := by
    simp [readLine, range_four, lineIndex_cols direction hd]
  simp only [moveLine, hread, lineStep_eq, hx, writeBack_col1 direction hd]

theorem writeBack_col2 (direction : String) (hd : direction = "up" ∨ direction = "down")
    (b0 b1 b2 b3 b4 b5 b6 b7 b8 b9 b10 b11 b12 b13 b14 b15 s : Int) (m : Bool) (x0 x1 x2 x3 : Int) :
    writeBack direction 2 [x0, x1, x2, x3]
      { board := [b0, b1, b2, b3, b4, b5, b6, b7, b8, b9, b10, b11, b12, b13, b14, b15]
        score := s, moved := m } =
      { board := [b0, b1, x0, b3, b4, b5, x1, b7, b8, b9, x2, b11, b12, b13, x3, b15]
        score := s, moved := (m || cellsDiffer b2 b6 b10 b14 x0 x1 x2 x3) } := by
  simp only [writeBack, range_four, List.foldl_cons, List.foldl_nil, writeCell,
    lineIndex_cols direction hd]
  simp [cellsDiffer, or_chain]

theorem moveLine_col2 (direction : String) (hd : direction = "up" ∨ direction = "down")
    (b0 b1 b2 b3 b4 b5 b6 b7 b8 b9 b10 b11 b12 b13 b14 b15 s : Int) (m : Bool) (x0 x1 x2 x3 : Int)
    (hx : lineOut direction [b2, b6, b10, b14] = [x0, x1, x2, x3]) :
    moveLine direction
      { board := [b0, b1, b2, b3, b4, b5, b6, b7, b8, b9, b10, b11, b12, b13, b14, b15]
        score := s, moved := m } 2 =
      { board := [b0, b1, x0, b3, b4, b5, x1, b7, b8, b9, x2, b11, b12, b13, x3, b15]
        score := s + lineGain direction [b2, b6, b10, b14]
        moved := (m || lineMerged direction [b2, b6, b10, b14]
          || cellsDiffer b2 b6 b10 b14 x0 x1 x2 x3) } := by
  have hread : readLine direction [b0, b1, b2, b3, b4, b5, b6, b7, b8, b9, b10, b11, b12, b13, b14, b15] 2
      = [b2, b6, b10, b14] := by
    simp [readLine, range_four, lineIndex_cols direction hd]
  simp only [moveLine, hread, lineStep_eq, hx, writeBack_col2 direction hd]

theorem writeBack_col3 (direction : String) (hd : direction = "up" ∨ direction = "down")
    (b0 b1 b2 b3 b4 b5 b6 b7 b8 b9 b10 b11 b12 b13 b14 b15 s : Int) (m : Bool) (x0 x1 x2 x3 : Int) :
    writeBack direction 3 [x0, x1, x2, x3]
      { board := [b0, b1, b2, b3, b4, b5, b6, b7, b8, b9, b10, b11, b12, b13, b14, b15]
        score := s, moved := m } =
      { board := [b0, b1, b2, x0, b4, b5, b6, x1, b8, b9, b10, x2, b12, b13, b14, x3]
        score := s, moved := (m || cellsDiffer b3 b7 b11 b15 x0 x1 x2 x3) } := by
  simp only [writeBack, range_four, List.foldl_cons, List.foldl_nil, writeCell,
    lineIndex_cols direction hd]
  simp [cellsDiffer, or_chain]

theorem moveLine_col3 (direction : String) (hd : direction = "up" ∨ direction = "down")
    (b0 b1 b2 b3 b4 b5 b6 b7 b8 b9 b10 b11 b12 b13 b14 b15 s : Int) (m : Bool) (x0 x1 x2 x3 : Int)
    (hx : lineOut direction [b3, b7, b11, b15] = [x0, x1, x2, x3]) :
    moveLine direction
      { board := [b0, b1, b2, b3, b4, b5, b6, b7, b8, b9, b10, b11, b12, b13, b14, b15]
        score := s, moved := m } 3 =
      { board := [b0, b1, b2, x0, b4, b5, b6, x1, b8, b9, b10, x2, b12, b13, b14, x3]
        score := s + lineGain direction [b3, b7, b11, b15]
        moved := (m || lineMerged direction [b3, b7, b11, b15]
          || cellsDiffer b3 b7 b11 b15 x0 x1 x2 x3) } := by
  have hread : readLine direction [b0, b1, b2, b3, b4, b5, b6, b7, b8, b9, b10, b11, b12, b13, b14, b15] 3
      = [b3, b7, b11, b15] := by
    simp [readLine, range_four, lineIndex_cols direction hd]
  simp only [moveLine, hread, lineStep_eq, hx, writeBack_col3 direction hd]

/-- Lines 48-86 on a board of sixteen cells, for a move along the rows. -/
theorem slide_rows (direction : String) (hd : direction = "left" ∨ direction = "right")
    (b0 b1 b2 b3 b4 b5 b6 b7 b8 b9 b10 b11 b12 b13 b14 b15 s : Int)
    (x0 x1 x2 x3 y0 y1 y2 y3 z0 z1 z2 z3 w0 w1 w2 w3 : Int)
    (hx : lineOut direction [b0, b1, b2, b3] = [x0, x1, x2, x3])
    (hy : lineOut direction [b4, b5, b6, b7] = [y0, y1, y2, y3])
    (hz : lineOut direction [b8, b9, b10, b11] = [z0, z1, z2, z3])
    (hw : lineOut direction [b12, b13, b14, b15] = [w0, w1, w2, w3]) :
    slide direction [b0, b1, b2, b3, b4, b5, b6, b7, b8, b9, b10, b11, b12, b13, b14, b15] s =
      { board := [x0, x1, x2, x3, y0, y1, y2, y3, z0, z1, z2, z3, w0, w1, w2, w3]
        score := s + lineGain direction [b0, b1, b2, b3] + lineGain direction [b4, b5, b6, b7]
          + lineGain direction [b8, b9, b10, b11] + lineGain direction [b12, b13, b14, b15]
        moved :=
          ((lineMerged direction [b0, b1, b2, b3] || cellsDiffer b0 b1 b2 b3 x0 x1 x2 x3) ||
          (lineMerged direction [b4, b5, b6, b7] || cellsDiffer b4 b5 b6 b7 y0 y1 y2 y3) ||
          (lineMerged direction [b8, b9, b10, b11] || cellsDiffer b8 b9 b10 b11 z0 z1 z2 z3) ||
          (lineMerged direction [b12, b13, b14, b15] || cellsDiffer b12 b13 b14 b15 w0 w1 w2 w3)) } := by
  simp only [slide, range_four, List.foldl_cons, List.foldl_nil]
  rw [moveLine_row0 direction hd _ _ _ _ _ _ _ _ _ _ _ _ _ _ _ _ _ _ _ _ _ _ hx,
    moveLine_row1 direction hd _ _ _ _ _ _ _ _ _ _ _ _ _ _ _ _ _ _ _ _ _ _ hy,
    moveLine_row2 direction hd _ _ _ _ _ _ _ _ _ _ _ _ _ _ _ _ _ _ _ _ _ _ hz,
    moveLine_row3 direction hd _ _ _ _ _ _ _ _ _ _ _ _ _ _ _ _ _ _ _ _ _ _ hw]
  simp [Bool.or_assoc]

/-- Lines 48-86 on a board of sixteen cells, for a move along the cols. -/
theorem slide_cols (direction : String) (hd : direction = "up" ∨ direction = "down")
    (b0 b1 b2 b3 b4 b5 b6 b7 b8 b9 b10 b11 b12 b13 b14 b15 s : Int)
    (x0 x1 x2 x3 y0 y1 y2 y3 z0 z1 z2 z3 w0 w1 w2 w3 : Int)
    (hx : lineOut direction [b0, b4, b8, b12] = [x0, x1, x2, x3])
    (hy : lineOut direction [b1, b5, b9, b13] = [y0, y1, y2, y3])
    (hz : lineOut direction [b2, b6, b10, b14] = [z0, z1, z2, z3])
    (hw : lineOut direction [b3, b7, b11, b15] = [w0, w1, w2, w3]) :
    slide direction [b0, b1, b2, b3, b4, b5, b6, b7, b8, b9, b10, b11, b12, b13, b14, b15] s =
      { board := [x0, y0, z0, w0, x1, y1, z1, w1, x2, y2, z2, w2, x3, y3, z3, w3]
        score := s + lineGain direction [b0, b4, b8, b12] + lineGain direction [b1, b5, b9, b13]
          + lineGain direction [b2, b6, b10, b14] + lineGain direction [b3, b7, b11, b15]
        moved :=
          ((lineMerged direction [b0, b4, b8, b12] || cellsDiffer b0 b4 b8 b12 x0 x1 x2 x3) ||
          (lineMerged direction [b1, b5, b9, b13] || cellsDiffer b1 b5 b9 b13 y0 y1 y2 y3) ||
          (lineMerged direction [b2, b6, b10, b14] || cellsDiffer b2 b6 b10 b14 z0 z1 z2 z3) ||
          (lineMerged direction [b3, b7, b11, b15] || cellsDiffer b3 b7 b11 b15 w0 w1 w2 w3)) } := by
  simp only [slide, range_four, List.foldl_cons, List.foldl_nil]
  rw [moveLine_col0 direction hd _ _ _ _ _ _ _ _ _ _ _ _ _ _ _ _ _ _ _ _ _ _ hx,
    moveLine_col1 direction hd _ _ _ _ _ _ _ _ _ _ _ _ _ _ _ _ _ _ _ _ _ _ hy,
    moveLine_col2 direction hd _ _ _ _ _ _ _ _ _ _ _ _ _ _ _ _ _ _ _ _ _ _ hz,
    moveLine_col3 direction hd _ _ _ _ _ _ _ _ _ _ _ _ _ _ _ _ _ _ _ _ _ _ hw]
  simp [Bool.or_assoc]

/-! ## Lines and boards of fixed length -/

theorem list_four (l : List Int) (h : l.length = 4) :
    ∃ x0 x1 x2 x3 : Int, l = [x0, x1, x2, x3] := by
  match l, h with
  | [x0, x1, x2, x3], _ => exact ⟨x0, x1, x2, x3, rfl⟩

theorem list_sixteen (l : List Int) (h : l.length = 16) :
    ∃ b0 b1 b2 b3 b4 b5 b6 b7 b8 b9 b10 b11 b12 b13 b14 b15 : Int,
      l = [b0, b1, b2, b3, b4, b5, b6, b7, b8, b9, b10, b11, b12, b13, b14, b15] := by
  match l, h with
  | [b0, b1, b2, b3, b4, b5, b6, b7, b8, b9, b10, b11, b12, b13, b14, b15], _ =>
    exact ⟨b0, b1, b2, b3, b4, b5, b6, b7, b8, b9, b10, b11, b12, b13, b14, b15, rfl⟩

theorem oriented_length (direction : String) (row : List Int) :
    (oriented direction row).length = row.length := by
  unfold oriented; split <;> simp

theorem lineOut_length (direction : String) (row : List Int) (h : row.length ≤ 4) :
    (lineOut direction row).length = 4 := by
  rw [lineOut, oriented_length]
  apply padRef_length
  have h1 := mergeRef_length_le (compact (oriented direction row))
  have h2 := compact_length_le (oriented direction row)
  rw [oriented_length] at h2
  omega

theorem readLine_length (direction : String) (board : List Int) (i : Nat) :
    (readLine direction board i).length = 4 := by
  simp [readLine]

theorem cellsDiffer_eq (b0 b1 b2 b3 x0 x1 x2 x3 : Int) :
    cellsDiffer b0 b1 b2 b3 x0 x1 x2 x3 = decide ([x0, x1, x2, x3] ≠ [b0, b1, b2, b3]) := by
  by_cases h0 : b0 = x0 <;> by_cases h1 : b1 = x1 <;> by_cases h2 : b2 = x2 <;>
    by_cases h3 : b3 = x3 <;> simp [cellsDiffer, h0, h1, h2, h3, eq_comm]

theorem IsDirection.cases {direction : String} (h : IsDirection direction) :
    (direction = "left" ∨ direction = "right") ∨ (direction = "up" ∨ direction = "down") := by
  rcases h with h | h | h | h <;> simp [h]

/-- The slide-and-merge step line by line: every line of the new board is
`lineOut` of the line read, the score grows by the gains of the four lines,
and `moved` says whether a line merged or came back different. -/
theorem slide_lines (direction : String) (hd : IsDirection direction)
    (board : List Int) (hlen : board.length = 16) (s : Int) :
    (slide direction board s).board.length = 16 ∧
    (∀ i, i < 4 → readLine direction (slide direction board s).board i
        = lineOut direction (readLine direction board i)) ∧
    (slide direction board s).score
      = s + lineGain direction (readLine direction board 0)
          + lineGain direction (readLine direction board 1)
          + lineGain direction (readLine direction board 2)
          + lineGain direction (readLine direction board 3) ∧
    (slide direction board s).moved
      = (lineChanged direction board 0 || lineChanged direction board 1 ||
          lineChanged direction board 2 || lineChanged direction board 3) := by
  obtain ⟨b0, b1, b2, b3, b4, b5, b6, b7, b8, b9, b10, b11, b12, b13, b14, b15, rfl⟩ :=
    list_sixteen board hlen
  rcases hd.cases with hd | hd
  · obtain ⟨x0, x1, x2, x3, hx⟩ := list_four _ (lineOut_length direction [b0, b1, b2, b3] (by simp))
    obtain ⟨y0, y1, y2, y3, hy⟩ := list_four _ (lineOut_length direction [b4, b5, b6, b7] (by simp))
    obtain ⟨z0, z1, z2, z3, hz⟩ := list_four _ (lineOut_length direction [b8, b9, b10, b11] (by simp))
    obtain ⟨w0, w1, w2, w3, hw⟩ :=
      list_four _ (lineOut_length direction [b12, b13, b14, b15] (by simp))
    rw [slide_rows direction hd _ _ _ _ _ _ _ _ _ _ _ _ _ _ _ _ _ _ _ _ _ _ _ _ _ _ _ _ _ _ _ _ _
      hx hy hz hw]
    refine ⟨by simp, ?_, ?_, ?_⟩
    · intro i hi
      interval_cases i <;>
        simp [readLine, range_four, lineIndex_rows direction hd, hx, hy, hz, hw]
    · simp [readLine, range_four, lineIndex_rows direction hd]
    · simp [lineChanged, readLine, range_four, lineIndex_rows direction hd, hx, hy, hz, hw,
        cellsDiffer_eq]
  · obtain ⟨x0, x1, x2, x3, hx⟩ := list_four _ (lineOut_length direction [b0, b4, b8, b12] (by simp))
    obtain ⟨y0, y1, y2, y3, hy⟩ := list_four _ (lineOut_length direction [b1, b5, b9, b13] (by simp))
    obtain ⟨z0, z1, z2, z3, hz⟩ := list_four _ (lineOut_length direction [b2, b6, b10, b14] (by simp))
    obtain ⟨w0, w1, w2, w3, hw⟩ :=
      list_four _ (lineOut_length direction [b3, b7, b11, b15] (by simp))
    rw [slide_cols direction hd _ _ _ _ _ _ _ _ _ _ _ _ _ _ _ _ _ _ _ _ _ _ _ _ _ _ _ _ _ _ _ _ _
      hx hy hz hw]
    refine ⟨by simp, ?_, ?_, ?_⟩
    · intro i hi
      interval_cases i <;>
        simp [readLine, range_four, lineIndex_cols direction hd, hx, hy, hz, hw]
    · simp [readLine, range_four, lineIndex_cols direction hd]
    · simp [lineChanged, readLine, range_four, lineIndex_cols direction hd, hx, hy, hz, hw,
        cellsDiffer_eq]

/-! ## Facts about one line -/

theorem mergeRef_sum (l : List Int) : (mergeRef l).sum = l.sum := by
  induction l using mergeRef.induct with
  | case1 => simp [mergeRef]
  | case2 a => simp [mergeRef]
  | case3 a r ih => simp only [mergeRef, if_true, List.sum_cons, ih]; ring
  | case4 a b r h ih => simp only [mergeRef, h, if_false, List.sum_cons] at ih ⊢; omega

theorem compact_sum (l : List Int) : (compact l).sum = l.sum := by
  induction l with
  | nil => rfl
  | cons x xs ih =>
    by_cases hx : x = 0
    · simpa [compact, hx] using ih
    · simpa [compact, hx] using ih

theorem padRef_sum (l : List Int) : (padRef l).sum = l.sum := by
  simp [padRef]

theorem oriented_sum (direction : String) (l : List Int) : (oriented direction l).sum = l.sum := by
  unfold oriented; split
  · exact List.sum_reverse l
  · rfl

theorem lineOut_sum (direction : String) (row : List Int) :
    (lineOut direction row).sum = row.sum := by
  rw [lineOut, oriented_sum, padRef_sum, mergeRef_sum, compact_sum, oriented_sum]

theorem mergesRef_false (l : List Int) (h : mergesRef l = false) :
    mergeRef l = l ∧ gainRef l = 0 := by
  induction l using mergeRef.induct with
  | case1 => simp [mergeRef, gainRef]
  | case2 a => simp [mergeRef, gainRef]
  | case3 a r ih => simp [mergesRef] at h
  | case4 a b r hab ih =>
    simp only [mergesRef, hab, if_false] at h
    obtain ⟨h1, h2⟩ := ih h
    simp [mergeRef, gainRef, hab, h1, h2]

theorem mergesRef_true (l : List Int) (h : mergesRef l = true) :
    (mergeRef l).length < l.length := by
  induction l using mergeRef.induct with
  | case1 => simp [mergesRef] at h
  | case2 a => simp [mergesRef] at h
  | case3 a r ih =>
    have := mergeRef_length_le r
    simp only [mergeRef, if_true, List.length_cons]; omega
  | case4 a b r hab ih =>
    simp only [mergesRef, hab, if_false] at h
    have := ih h
    simp only [mergeRef, hab, if_false, List.length_cons] at this ⊢; omega

theorem mergeRef_nonzero (l : List Int) (h : ∀ v ∈ l, v ≠ 0) : ∀ v ∈ mergeRef l, v ≠ 0 := by
  induction l using mergeRef.induct with
  | case1 => simp [mergeRef]
  | case2 a => simpa [mergeRef] using h
  | case3 a r ih =>
    have ha : a ≠ 0 := h a (List.mem_cons_self _ _)
    have hr : ∀ v ∈ r, v ≠ 0 := fun v hv =>
      h v (List.mem_cons_of_mem _ (List.mem_cons_of_mem _ hv))
    intro v hv
    simp only [mergeRef, if_true, List.mem_cons] at hv
    rcases hv with rfl | hv
    · omega
    · exact ih hr v hv
  | case4 a b r hab ih =>
    have ha : a ≠ 0 := h a (List.mem_cons_self _ _)
    have hr : ∀ v ∈ b :: r, v ≠ 0 := fun v hv => h v (List.mem_cons_of_mem _ hv)
    intro v hv
    simp only [mergeRef, hab, if_false, List.mem_cons] at hv
    rcases hv with rfl | hv
    · exact ha
    · exact ih hr v (by simpa using hv)

theorem compact_padRef (l : List Int) (h : ∀ v ∈ l, v ≠ 0) : compact (padRef l) = l := by
  rw [padRef, compact_append, compact_of_nonzero l h]
  simp [compact]

theorem compact_oriented (direction : String) (l : List Int) :
    compact (oriented direction l) = oriented direction (compact l) := by
  unfold oriented; split <;> simp [compact, List.filter_reverse]

theorem oriented_oriented (direction : String) (l : List Int) :
    oriented direction (oriented direction l) = l := by
  unfold oriented; split <;> simp

theorem mem_oriented (direction : String) (l : List Int) (v : Int) :
    v ∈ oriented direction l ↔ v ∈ l := by
  unfold oriented; split <;> simp

/-- The nonzero cells of the line written: the reference merge of the nonzero cells read. -/
theorem compact_lineOut (direction : String) (row : List Int) :
    compact (lineOut direction row)
      = oriented direction (mergeRef (compact (oriented direction row))) := by
  rw [lineOut, compact_oriented, compact_padRef]
  exact mergeRef_nonzero _ (compact_nonzero _)

theorem compact_lineOut_length (direction : String) (row : List Int) :
    (compact (lineOut direction row)).length ≤ (compact row).length ∧
    (lineMerged direction row = true →
      (compact (lineOut direction row)).length < (compact row).length) := by
  rw [compact_lineOut, oriented_length]
  have h0 : (compact (oriented direction row)).length = (compact row).length := by
    rw [compact_oriented, oriented_length]
  refine ⟨?_, ?_⟩
  · have := mergeRef_length_le (compact (oriented direction row)); omega
  · intro hm
    have := mergesRef_true _ hm
    omega

/-- A merge changes the line. -/
theorem lineOut_ne_of_merged (direction : String) (row : List Int)
    (h : lineMerged direction row = true) : lineOut direction row ≠ row := by
  intro heq
  have := (compact_lineOut_length direction row).2 h
  rw [heq] at this
  omega

theorem zero_mem_of_compact_lt (l : List Int) (h : (compact l).length < l.length) : 0 ∈ l := by
  by_contra h0
  have : compact l = l := compact_of_nonzero l (fun v hv hv0 => h0 (hv0 ▸ hv))
  rw [this] at h
  omega

theorem compact_lt_of_zero_mem (l : List Int) (h : 0 ∈ l) : (compact l).length < l.length := by
  induction l with
  | nil => simp at h
  | cons x xs ih =>
    by_cases hx : x = 0
    · have := compact_length_le xs
      simp only [compact, hx, ne_eq, not_true_eq_false, decide_False, Bool.false_eq_true,
        not_false_eq_true, List.filter_cons_of_neg, List.length_cons] at this ⊢
      omega
    · have hmem : 0 ∈ xs := by
        rcases List.mem_cons.mp h with h | h
        · exact absurd h.symm hx
        · exact h
      have := ih hmem
      simp only [compact, ne_eq, hx, not_false_eq_true, decide_True, List.filter_cons_of_pos,
        List.length_cons] at this ⊢
      omega

theorem lineOut_of_full (direction : String) (row : List Int) (hlen : row.length = 4)
    (h0 : 0 ∉ row) (hm : lineMerged direction row = false) : lineOut direction row = row := by
  have hnz : ∀ v ∈ oriented direction row, v ≠ 0 := by
    intro v hv hv0
    rw [mem_oriented] at hv
    exact h0 (hv0 ▸ hv)
  have hpad : padRef (oriented direction row) = oriented direction row := by
    simp [padRef, oriented_length, hlen]
  rw [lineOut, compact_of_nonzero _ hnz, (mergesRef_false _ _).1, hpad, oriented_oriented]
  simpa [lineMerged, compact_of_nonzero _ hnz] using hm

/-- A line of four cells that merged or came back different has an empty cell. -/
theorem zero_mem_lineOut (direction : String) (row : List Int) (hlen : row.length = 4)
    (h : lineMerged direction row = true ∨ lineOut direction row ≠ row) :
    0 ∈ lineOut direction row := by
  apply zero_mem_of_compact_lt
  rw [lineOut_length direction row (by omega)]
  obtain ⟨hle, hlt⟩ := compact_lineOut_length direction row
  have hc := compact_length_le row
  by_cases hm : lineMerged direction row = true
  · have := hlt hm; omega
  · have hm' : lineMerged direction row = false := by simpa using hm
    have hne : lineOut direction row ≠ row := by
      rcases h with h | h
      · exact absurd h hm
      · exact h
    have h0 : 0 ∈ row := by
      by_contra h0
      exact hne (lineOut_of_full direction row hlen h0 hm')
    have := compact_lt_of_zero_mem row h0
    omega

/-! ## Boards as four lines -/

theorem board_sum_lines (direction : String) (hd : IsDirection direction)
    (board : List Int) (hlen : board.length = 16) :
    board.sum = (readLine direction board 0).sum + (readLine direction board 1).sum
      + (readLine direction board 2).sum + (readLine direction board 3).sum := by
  obtain ⟨b0, b1, b2, b3, b4, b5, b6, b7, b8, b9, b10, b11, b12, b13, b14, b15, rfl⟩ :=
    list_sixteen board hlen
  rcases hd.cases with hd | hd
  · simp only [readLine, range_four, lineIndex_rows direction hd, List.map_cons, List.map_nil]
    simp
    ring
  · simp only [readLine, range_four, lineIndex_cols direction hd, List.map_cons, List.map_nil]
    simp
    ring

theorem board_ext_lines (direction : String) (hd : IsDirection direction)
    (b c : List Int) (hb : b.length = 16) (hc : c.length = 16)
    (h : ∀ i, i < 4 → readLine direction b i = readLine direction c i) : b = c := by
  obtain ⟨b0, b1, b2, b3, b4, b5, b6, b7, b8, b9, b10, b11, b12, b13, b14, b15, rfl⟩ :=
    list_sixteen b hb
  obtain ⟨c0, c1, c2, c3, c4, c5, c6, c7, c8, c9, c10, c11, c12, c13, c14, c15, rfl⟩ :=
    list_sixteen c hc
  have h0 := h 0 (by omega)
  have h1 := h 1 (by omega)
  have h2 := h 2 (by omega)
  have h3 := h 3 (by omega)
  rcases hd.cases with hd | hd
  · simp [readLine, range_four, lineIndex_rows direction hd] at h0 h1 h2 h3
    simp [h0, h1, h2, h3]
  · simp [readLine, range_four, lineIndex_cols direction hd] at h0 h1 h2 h3
    simp [h0, h1, h2, h3]

theorem mem_board_lines (direction : String) (hd : IsDirection direction)
    (board : List Int) (hlen : board.length = 16) (v : Int) :
    v ∈ board ↔ ∃ i, i < 4 ∧ v ∈ readLine direction board i := by
  obtain ⟨b0, b1, b2, b3, b4, b5, b6, b7, b8, b9, b10, b11, b12, b13, b14, b15, rfl⟩ :=
    list_sixteen board hlen
  have hex : ∀ P : Nat → Prop, (∃ i, i < 4 ∧ P i) ↔ (P 0 ∨ P 1 ∨ P 2 ∨ P 3) := by
    intro P
    constructor
    · rintro ⟨i, hi, hP⟩
      interval_cases i <;> simp [hP]
    · rintro (h | h | h | h)
      exacts [⟨0, by omega, h⟩, ⟨1, by omega, h⟩, ⟨2, by omega, h⟩, ⟨3, by omega, h⟩]
  rw [hex]
  rcases hd.cases with hd | hd
  · simp only [readLine, range_four, lineIndex_rows direction hd, List.map_cons, List.map_nil]
    simp only [List.getD_cons_succ, List.getD_cons_zero, List.mem_cons, List.mem_singleton,
      List.not_mem_nil, or_false, Nat.reduceMul, Nat.reduceAdd, zero_add]
    constructor
    · rintro (h | h | h | h | h | h | h | h | h | h | h | h | h | h | h | h) <;> simp [h]
    · rintro ((h | h | h | h) | (h | h | h | h) | (h | h | h | h) | (h | h | h | h)) <;>
        simp [h]
  · simp only [readLine, range_four, lineIndex_cols direction hd, List.map_cons, List.map_nil]
    simp only [List.getD_cons_succ, List.getD_cons_zero, List.mem_cons, List.mem_singleton,
      List.not_mem_nil, or_false, Nat.reduceMul, Nat.reduceAdd, zero_add]
    constructor
    · rintro (h | h | h | h | h | h | h | h | h | h | h | h | h | h | h | h) <;> simp [h]
    · rintro ((h | h | h | h) | (h | h | h | h) | (h | h | h | h) | (h | h | h | h)) <;>
        simp [h]

/-! ## Facts about `addNumber` and `checkLevel` -/

theorem mem_emptyCells (board : List Int) (i : Nat) :
    i ∈ emptyCells board ↔ i < board.length ∧ board[i]? = some 0 := by
  simp only [emptyCells, List.mem_filter, List.mem_range, decide_eq_true_eq]
  constructor
  · rintro ⟨hi, h0⟩
    refine ⟨hi, ?_⟩
    rw [List.getD_eq_getElem?_getD, List.getElem?_eq_getElem hi] at h0
    rw [List.getElem?_eq_getElem hi]
    simpa using h0
  · rintro ⟨hi, h0⟩
    refine ⟨hi, ?_⟩
    rw [List.getD_eq_getElem?_getD, h0]
    rfl

theorem emptyCells_ne_nil (board : List Int) (h : 0 ∈ board) : (emptyCells board).length ≠ 0 := by
  obtain ⟨i, hi, hget⟩ := List.getElem_of_mem h
  have : i ∈ emptyCells board := by
    rw [mem_emptyCells]
    exact ⟨hi, by rw [List.getElem?_eq_getElem hi, hget]⟩
  intro h0
  rw [List.length_eq_zero] at h0
  rw [h0] at this
  simp at this

theorem emptyCells_of_full (board : List Int) (h : 0 ∉ board) : emptyCells board = [] := by
  rw [List.eq_nil_iff_forall_not_mem]
  intro i hi
  rw [mem_emptyCells] at hi
  obtain ⟨hlt, hget⟩ := hi
  apply h
  rw [List.getElem?_eq_getElem hlt] at hget
  have : board[i] = 0 := by simpa using hget
  exact this ▸ List.getElem_mem hlt

theorem floor_draw_lt (r : Draw) (hr : r.num < r.den) (n : Nat) (hn : n ≠ 0) :
    r.num * n / r.den < n := by
  rw [Nat.div_lt_iff_lt_mul (by omega)]
  exact Nat.mul_lt_mul_of_lt_of_le hr (le_refl n) (by omega) |>.trans_eq (Nat.mul_comm _ _)

/-- Lines 30-35 on a board with an empty cell: one empty cell receives 2 or 4. -/
theorem addNumber_of_empty (board : List Int) (r1 r2 : Draw) (hr : r1.num < r1.den)
    (h : 0 ∈ board) :
    ∃ index v, index < board.length ∧ board[index]? = some 0 ∧ (v = 2 ∨ v = 4) ∧
      addNumber board r1 r2 = board.set index v := by
  have hne := emptyCells_ne_nil board h
  have hlt := floor_draw_lt r1 hr _ hne
  have hget : (emptyCells board)[r1.num * (emptyCells board).length / r1.den]?
      = some ((emptyCells board)[r1.num * (emptyCells board).length / r1.den]) :=
    List.getElem?_eq_getElem hlt
  have hmem := (mem_emptyCells board _).mp (List.getElem_mem hlt)
  refine ⟨_, if r2.num * 10 < r2.den * 9 then 2 else 4, hmem.1, hmem.2, ?_, ?_⟩
  · split <;> simp
  · simp only [addNumber, hne, if_false, hget]

/-- Lines 30-35 on a board with no empty cell: the early return of line 32. -/
theorem addNumber_of_full (board : List Int) (r1 r2 : Draw) (h : 0 ∉ board) :
    addNumber board r1 r2 = board := by
  simp [addNumber, emptyCells_of_full board h]

theorem compact_set_length (board : List Int) (index : Nat) (v : Int)
    (h0 : board[index]? = some 0) (hv : v ≠ 0) :
    (compact (board.set index v)).length = (compact board).length + 1 := by
  induction board generalizing index with
  | nil => simp at h0
  | cons x xs ih =>
    cases index with
    | zero =>
      have hx : x = 0 := by simpa using h0
      simp [compact, hx, hv]
    | succ n =>
      have := ih n (by simpa using h0)
      by_cases hx : x = 0
      · simpa [compact, hx] using this
      · simpa [compact, hx] using this

theorem foldl_max_mem (l : List Int) (x : Int) : l.foldl max x = x ∨ l.foldl max x ∈ l := by
  induction l generalizing x with
  | nil => simp
  | cons y ys ih =>
    simp only [List.foldl_cons, List.mem_cons]
    rcases ih (max x y) with h | h
    · rcases max_choice x y with hm | hm
      · left; rw [h, hm]
      · right; left; rw [h, hm]
    · right; right; exact h

theorem maxTile_mem (board : List Int) (m : Int) (h : maxTile board = some m) : m ∈ board := by
  cases board with
  | nil => simp [maxTile] at h
  | cons x xs =>
    simp only [maxTile, Option.some.injEq] at h
    rcases foldl_max_mem xs x with h1 | h1
    · rw [← h, h1]; exact List.mem_cons_self _ _
    · rw [← h]; exact List.mem_cons_of_mem _ h1

theorem checkLevel_board (s : GameState) : (checkLevel s).board = s.board := by
  unfold checkLevel; split
  · split <;> rfl
  · rfl

theorem checkLevel_score (s : GameState) : (checkLevel s).score = s.score := by
  unfold checkLevel; split
  · split <;> rfl
  · rfl

theorem updateScore_board (s : GameState) : (updateScore s).board = s.board := by
  unfold updateScore; split <;> rfl

theorem updateScore_score (s : GameState) : (updateScore s).score = s.score := by
  unfold updateScore; split <;> rfl

theorem updateScore_level (s : GameState) : (updateScore s).currentLevel = s.currentLevel := by
  unfold updateScore; split <;> rfl

/-! ## Facts about the slide-and-merge step -/

/-- The slide-and-merge step keeps the sum of the cells. -/
theorem slide_sum (direction : String) (hd : IsDirection direction)
    (board : List Int) (hlen : board.length = 16) (s : Int) :
    (slide direction board s).board.sum = board.sum := by
  obtain ⟨hl, hlines, _, _⟩ := slide_lines direction hd board hlen s
  rw [board_sum_lines direction hd _ hl, board_sum_lines direction hd board hlen,
    hlines 0 (by omega), hlines 1 (by omega), hlines 2 (by omega), hlines 3 (by omega)]
  simp only [lineOut_sum]

theorem lineChanged_iff (direction : String) (board : List Int) (i : Nat) :
    lineChanged direction board i = true ↔
      lineOut direction (readLine direction board i) ≠ readLine direction board i := by
  simp only [lineChanged, Bool.or_eq_true, decide_eq_true_eq]
  constructor
  · rintro (h | h)
    · exact lineOut_ne_of_merged _ _ h
    · exact h
  · exact Or.inr

theorem slide_moved_iff_line (direction : String) (hd : IsDirection direction)
    (board : List Int) (hlen : board.length = 16) (s : Int) :
    (slide direction board s).moved = true ↔ ∃ i, i < 4 ∧ lineChanged direction board i = true := by
  obtain ⟨_, _, _, hm⟩ := slide_lines direction hd board hlen s
  rw [hm]
  simp only [Bool.or_eq_true]
  constructor
  · rintro (((h | h) | h) | h)
    exacts [⟨0, by omega, h⟩, ⟨1, by omega, h⟩, ⟨2, by omega, h⟩, ⟨3, by omega, h⟩]
  · rintro ⟨i, hi, h⟩
    interval_cases i <;> simp [h]

/-- The flag `moved` says whether the board changed. -/
theorem slide_moved_iff_ne (direction : String) (hd : IsDirection direction)
    (board : List Int) (hlen : board.length = 16) (s : Int) :
    (slide direction board s).moved = true ↔ (slide direction board s).board ≠ board := by
  obtain ⟨hl, hlines, _, _⟩ := slide_lines direction hd board hlen s
  rw [slide_moved_iff_line direction hd board hlen s]
  constructor
  · rintro ⟨i, hi, h⟩ heq
    have h1 := hlines i hi
    rw [heq] at h1
    exact (lineChanged_iff direction board i).mp h h1.symm
  · intro hne
    by_contra hno
    apply hne
    apply board_ext_lines direction hd _ _ hl hlen
    intro i hi
    rw [hlines i hi]
    by_contra hline
    exact hno ⟨i, hi, (lineChanged_iff direction board i).mpr hline⟩

theorem lineGain_of_unchanged (direction : String) (board : List Int) (i : Nat)
    (h : lineChanged direction board i = false) :
    lineGain direction (readLine direction board i) = 0 := by
  simp only [lineChanged, Bool.or_eq_false_iff] at h
  exact (mergesRef_false _ h.1).2

/-- A step that leaves `moved` false leaves the board and the score as they were. -/
theorem slide_of_not_moved (direction : String) (hd : IsDirection direction)
    (board : List Int) (hlen : board.length = 16) (s : Int)
    (h : (slide direction board s).moved = false) :
    slide direction board s = { board := board, score := s, moved := false } := by
  have hb : (slide direction board s).board = board := by
    by_contra hne
    have := (slide_moved_iff_ne direction hd board hlen s).mpr hne
    rw [h] at this
    exact Bool.false_ne_true this
  obtain ⟨_, _, hs, hm⟩ := slide_lines direction hd board hlen s
  rw [h] at hm
  have hm' := hm.symm
  simp only [Bool.or_eq_false_iff] at hm'
  obtain ⟨⟨⟨h0, h1⟩, h2⟩, h3⟩ := hm'
  rw [lineGain_of_unchanged _ _ _ h0, lineGain_of_unchanged _ _ _ h1,
    lineGain_of_unchanged _ _ _ h2, lineGain_of_unchanged _ _ _ h3] at hs
  have hs' : (slide direction board s).score = s := by omega
  cases hsl : slide direction board s with
  | mk b sc mv =>
    rw [hsl] at hb hs' h
    simp only at hb hs' h
    rw [hb, hs', h]

/-- A step that sets `moved` leaves an empty cell on the board. -/
theorem zero_mem_slide (direction : String) (hd : IsDirection direction)
    (board : List Int) (hlen : board.length = 16) (s : Int)
    (h : (slide direction board s).moved = true) : 0 ∈ (slide direction board s).board := by
  obtain ⟨hl, hlines, _, _⟩ := slide_lines direction hd board hlen s
  obtain ⟨i, hi, hch⟩ := (slide_moved_iff_line direction hd board hlen s).mp h
  rw [mem_board_lines direction hd _ hl]
  refine ⟨i, hi, ?_⟩
  rw [hlines i hi]
  exact zero_mem_lineOut direction _ (readLine_length _ _ _)
    (Or.inr ((lineChanged_iff direction board i).mp hch))

/-! ## The claims -/

/-- C1: on every line of four integers the per-line step of `move` (filter,
one forward merge pass, filter, padding) returns the four cells of the
reference merge of the zero-free list padded with zeros, and adds the
reference gain to the score. -/
theorem lineCore_refines_mergeRef (a b c d score : Int) (moved : Bool) :
    (lineCore [a, b, c, d] score moved).filtered = padRef (mergeRef (compact [a, b, c, d])) ∧
    (lineCore [a, b, c, d] score moved).filtered.length = 4 ∧
    (lineCore [a, b, c, d] score moved).score = score + gainRef (compact [a, b, c, d]) := by
  rw [lineCore_eq]
  refine ⟨rfl, ?_, rfl⟩
  apply padRef_length
  have h1 := mergeRef_length_le (compact [a, b, c, d])
  have h2 := compact_length_le [a, b, c, d]
  simp only [List.length_cons, List.length_nil] at h2
  omega

/-- C2: on every line of four cells the resulting line is the padded list of
the sums of consecutive blocks of the zero-free line, each block being one
original tile or two adjacent equal original tiles, so no merged tile merges
again; in particular `[a,a,a,a]` becomes `[2a,2a,0,0]` and so does `[a,a,2a,0]`. -/
theorem lineCore_no_double_merge (a b c d score : Int) (moved : Bool) :
    (∃ blocks : List (List Int),
      blocks.flatten = compact [a, b, c, d] ∧ (∀ bl ∈ blocks, IsBlock bl) ∧
      (lineCore [a, b, c, d] score moved).filtered = padRef (blocks.map List.sum)) ∧
    (lineCore [a, a, a, a] score moved).filtered = [2 * a, 2 * a, 0, 0] ∧
    (lineCore [a, a, 2 * a, 0] score moved).filtered = [2 * a, 2 * a, 0, 0] := by
  refine ⟨?_, ?_, ?_⟩
  · obtain ⟨bs, h1, h2, h3⟩ := mergeRef_blocks (compact [a, b, c, d])
    exact ⟨bs, h1, h2, by rw [lineCore_eq, h3]⟩
  · rw [lineCore_eq]
    by_cases ha : a = 0
    · subst ha; simp [compact, mergeRef, padRef]
    · simp [compact, ha, mergeRef, padRef]
  · rw [lineCore_eq]
    by_cases ha : a = 0
    · subst ha; simp [compact, mergeRef, padRef]
    · have h2 : ¬ a = 2 * a := by omega
      simp [compact, ha, mergeRef, padRef, h2]

/-- C3, as stated, fails: `move("left")` on the board with a pair of twos
changes the board and adds 4 to the score, while the sum of the tiles stays 4. -/
theorem conservation_counterexample :
    (slide "left" pairBoard 0).board ≠ pairBoard ∧
    (slide "left" pairBoard 0).score - 0 = 4 ∧
    ¬ ((slide "left" pairBoard 0).board.sum
        = pairBoard.sum + ((slide "left" pairBoard 0).score - 0)) := by
  decide

/-- C3, amended: for every board of sixteen cells and each of the four
directions for which the step changes the board, the sum of the tiles after
the slide-and-merge step equals the sum before it, and the score grows by the
sum of the doubled values of the merged pairs of the four lines. -/
theorem slide_sum_and_gain (direction : String) (hd : IsDirection direction)
    (board : List Int) (hlen : board.length = 16) (s : Int)
    (_hchanged : (slide direction board s).board ≠ board) :
    (slide direction board s).board.sum = board.sum ∧
    (slide direction board s).score - s
      = gainRef (compact (oriented direction (readLine direction board 0)))
        + gainRef (compact (oriented direction (readLine direction board 1)))
        + gainRef (compact (oriented direction (readLine direction board 2)))
        + gainRef (compact (oriented direction (readLine direction board 3))) := by
  refine ⟨slide_sum direction hd board hlen s, ?_⟩
  obtain ⟨_, _, hs, _⟩ := slide_lines direction hd board hlen s
  rw [hs]
  simp only [lineGain]
  ring

theorem slide_sum_and_gain_witness :
    (slide "left" pairBoard 0).board.sum = pairBoard.sum ∧
    (slide "left" pairBoard 0).score - 0
      = gainRef (compact (oriented "left" (readLine "left" pairBoard 0)))
        + gainRef (compact (oriented "left" (readLine "left" pairBoard 1)))
        + gainRef (compact (oriented "left" (readLine "left" pairBoard 2)))
        + gainRef (compact (oriented "left" (readLine "left" pairBoard 3))) :=
  slide_sum_and_gain "left" (by decide) pairBoard (by decide) 0 (by decide)

/-- Lines 88-92: what `move` does once `moved` is set. -/
theorem move_of_moved (direction : String) (s : GameState) (r1 r2 : Draw)
    (h : (slide direction s.board s.score).moved = true) :
    move direction s r1 r2 =
      updateScore (checkLevel
        { board := addNumber (slide direction s.board s.score).board r1 r2
          score := (slide direction s.board s.score).score
          currentLevel := s.currentLevel
          highScore := s.highScore }) := by
  simp only [move, h, if_true, createBoard]

theorem checkLevel_of_no_level (s : GameState) (h : ∀ v ∈ s.board, levels v = none) :
    checkLevel s = s := by
  unfold checkLevel
  cases hmax : maxTile s.board with
  | none => simp
  | some m => simp [h m (maxTile_mem _ _ hmax)]

theorem mem_set_cases (l : List Int) (i : Nat) (v x : Int) (h : x ∈ l.set i v) :
    x = v ∨ x ∈ l := by
  induction l generalizing i with
  | nil => simp at h
  | cons y ys ih =>
    cases i with
    | zero =>
      rcases List.mem_cons.mp h with h | h
      · exact Or.inl h
      · exact Or.inr (List.mem_cons_of_mem _ h)
    | succ n =>
      rcases List.mem_cons.mp h with h | h
      · exact Or.inr (h ▸ List.mem_cons_self _ _)
      · rcases ih n h with h | h
        · exact Or.inl h
        · exact Or.inr (List.mem_cons_of_mem _ h)

/-- C4: for every board of sixteen cells and each of the four directions, a
move that sets `moved` leaves an empty cell after the slide-and-merge step, so
`addNumber` does not return early, and the final board is the board after the
step with one cell, which held 0, set to 2 or 4.  On the board with a pair of
twos `move("left")` makes row 0 `[4,0,0,0]`, adds 4 to the score, keeps level 0
and spawns into an empty cell. -/
theorem move_spawns_one_tile (direction : String) (hd : IsDirection direction)
    (s : GameState) (hlen : s.board.length = 16) (r1 r2 : Draw) (hr : r1.num < r1.den)
    (hmoved : (slide direction s.board s.score).moved = true) :
    (0 ∈ (slide direction s.board s.score).board ∧
      ∃ index v, index < 16 ∧ (slide direction s.board s.score).board[index]? = some 0 ∧
        (v = 2 ∨ v = 4) ∧
        (move direction s r1 r2).board = (slide direction s.board s.score).board.set index v ∧
        (∀ j, j ≠ index →
          (move direction s r1 r2).board[j]? = (slide direction s.board s.score).board[j]?)) ∧
    (∀ score highScore : Int,
      (slide "left" pairBoard score).board = [4, 0, 0, 0, 0, 0, 0, 0, 0, 0, 0, 0, 0, 0, 0, 0] ∧
      (slide "left" pairBoard score).score = score + 4 ∧
      (slide "left" pairBoard score).moved = true ∧
      (move "left" { board := pairBoard, score := score, currentLevel := 0,
                     highScore := highScore } r1 r2).currentLevel = 0 ∧
      ∃ index v, index < 16 ∧
        ([4, 0, 0, 0, 0, 0, 0, 0, 0, 0, 0, 0, 0, 0, 0, 0] : List Int)[index]? = some 0 ∧
        (v = 2 ∨ v = 4) ∧
        (move "left" { board := pairBoard, score := score, currentLevel := 0,
                       highScore := highScore } r1 r2).board
          = ([4, 0, 0, 0, 0, 0, 0, 0, 0, 0, 0, 0, 0, 0, 0, 0] : List Int).set index v) := by
  refine ⟨?_, ?_⟩
  · have h0 := zero_mem_slide direction hd s.board hlen s.score hmoved
    have hl := (slide_lines direction hd s.board hlen s.score).1
    obtain ⟨index, v, hi, hget, hv, hadd⟩ := addNumber_of_empty _ r1 r2 hr h0
    have hb : (move direction s r1 r2).board
        = (slide direction s.board s.score).board.set index v := by
      rw [move_of_moved direction s r1 r2 hmoved, updateScore_board, checkLevel_board, hadd]
    refine ⟨h0, index, v, by omega, hget, hv, hb, ?_⟩
    intro j hj
    rw [hb, List.getElem?_set_ne (Ne.symm hj)]
  · intro score highScore
    have hsl := slide_rows "left" (Or.inl rfl) 2 2 0 0 0 0 0 0 0 0 0 0 0 0 0 0 score
        4 0 0 0 0 0 0 0 0 0 0 0 0 0 0 0 (by decide) (by decide) (by decide) (by decide)
    have h1 : lineGain "left" [2, 2, 0, 0] = 4 := by decide
    have h2 : lineGain "left" [0, 0, 0, 0] = 0 := by decide
    have h3 : lineMerged "left" [2, 2, 0, 0] = true := by decide
    have hb : (slide "left" pairBoard score).board
        = [4, 0, 0, 0, 0, 0, 0, 0, 0, 0, 0, 0, 0, 0, 0, 0] := by
      rw [pairBoard, hsl]
    have hs : (slide "left" pairBoard score).score = score + 4 := by
      rw [pairBoard, hsl]
      simp only [h1, h2]
      ring
    have hm : (slide "left" pairBoard score).moved = true := by
      rw [pairBoard, hsl]
      simp only [h3, Bool.true_or]
    obtain ⟨index, v, hi, hget, hv, hadd⟩ :=
      addNumber_of_empty [4, 0, 0, 0, 0, 0, 0, 0, 0, 0, 0, 0, 0, 0, 0, 0] r1 r2 hr (by decide)
    have hmove := move_of_moved "left"
      { board := pairBoard, score := score, currentLevel := 0, highScore := highScore } r1 r2 hm
    rw [hb, hadd] at hmove
    refine ⟨hb, hs, hm, ?_, index, v, hi, hget, hv, ?_⟩
    · rw [hmove, updateScore_level, checkLevel_of_no_level]
      intro x hx
      rcases mem_set_cases _ _ _ _ hx with h | h
      · rcases hv with hv | hv <;> subst h <;> subst hv <;> decide
      · simp only [List.mem_cons, List.mem_singleton, List.not_mem_nil, or_false] at h
        rcases h with h | h | h | h | h | h | h | h | h | h | h | h | h | h | h | h <;>
          subst h <;> decide
    · rw [hmove, updateScore_board, checkLevel_board]

theorem move_spawns_one_tile_witness :
    (0 ∈ (slide "left" pairBoard 0).board ∧
      ∃ index v, index < 16 ∧ (slide "left" pairBoard 0).board[index]? = some 0 ∧
        (v = 2 ∨ v = 4) ∧
        (move "left" { board := pairBoard, score := 0, currentLevel := 0, highScore := 0 }
            { num := 1, den := 3 } { num := 1, den := 2 }).board
          = (slide "left" pairBoard 0).board.set index v ∧
        (∀ j, j ≠ index →
          (move "left" { board := pairBoard, score := 0, currentLevel := 0, highScore := 0 }
              { num := 1, den := 3 } { num := 1, den := 2 }).board[j]?
            = (slide "left" pairBoard 0).board[j]?)) :=
  (move_spawns_one_tile "left" (by decide)
    { board := pairBoard, score := 0, currentLevel := 0, highScore := 0 } (by decide)
    { num := 1, den := 3 } { num := 1, den := 2 } (by decide) (by decide)).1

/-- C5: for every board of sixteen cells and each of the four directions, the
flag `moved` is true exactly when the board after the slide-and-merge step
differs from the board before it; in particular a merge in any line changes
the board. -/
theorem moved_iff_board_changed (direction : String) (hd : IsDirection direction)
    (board : List Int) (hlen : board.length = 16) (s : Int) :
    ((slide direction board s).moved = true ↔ (slide direction board s).board ≠ board) ∧
    (∀ i, i < 4 → (lineStep direction (readLine direction board i) s false).moved = true →
      (slide direction board s).moved = true ∧ (slide direction board s).board ≠ board) := by
  refine ⟨slide_moved_iff_ne direction hd board hlen s, ?_⟩
  intro i hi hstep
  have hmerged : lineMerged direction (readLine direction board i) = true := by
    simpa [lineStep_eq] using hstep
  have hm : (slide direction board s).moved = true := by
    rw [slide_moved_iff_line direction hd board hlen s]
    exact ⟨i, hi, by simp [lineChanged, hmerged]⟩
  exact ⟨hm, (slide_moved_iff_ne direction hd board hlen s).mp hm⟩

theorem moved_iff_board_changed_witness :
    ((slide "up" pairBoard 0).moved = true ↔ (slide "up" pairBoard 0).board ≠ pairBoard) ∧
    (∀ i, i < 4 → (lineStep "up" (readLine "up" pairBoard i) 0 false).moved = true →
      (slide "up" pairBoard 0).moved = true ∧ (slide "up" pairBoard 0).board ≠ pairBoard) :=
  moved_iff_board_changed "up" (by decide) pairBoard (by decide) 0

/-- C6: for every state with a board of sixteen cells and each of the four
directions, a move that leaves `moved` false returns the state it was given:
board, score, level and high score are kept and nothing is spawned, whatever
the random draws. -/
theorem move_of_not_moved (direction : String) (hd : IsDirection direction)
    (s : GameState) (hlen : s.board.length = 16) (r1 r2 : Draw)
    (h : (slide direction s.board s.score).moved = false) :
    move direction s r1 r2 = s := by
  have hsl := slide_of_not_moved direction hd s.board hlen s.score h
  simp only [move, hsl, Bool.false_eq_true, if_false]

theorem move_of_not_moved_witness :
    move "left" { board := stripedBoard, score := 12, currentLevel := 0, highScore := 20 }
        { num := 1, den := 2 } { num := 0, den := 1 }
      = { board := stripedBoard, score := 12, currentLevel := 0, highScore := 20 } :=
  move_of_not_moved "left" (by decide)
    { board := stripedBoard, score := 12, currentLevel := 0, highScore := 20 } (by decide)
    { num := 1, den := 2 } { num := 0, den := 1 } (by decide)

theorem lineOut_of_packed (direction : String) (row : List Int) (hlen : row.length = 4)
    (h : Packed row) : lineMerged direction row = false ∧ lineOut direction row = row := by
  obtain ⟨a, b, c, e, rfl⟩ := list_four row hlen
  obtain ⟨hnz, hch⟩ := h
  simp only [List.mem_cons, List.mem_singleton, List.not_mem_nil, or_false, forall_eq_or_imp,
    forall_eq] at hnz
  simp only [noEqualNeighbours, Bool.and_eq_true, decide_eq_true_eq, and_true] at hch
  obtain ⟨ha, hb, hc, he⟩ := hnz
  obtain ⟨hab, hbc, hce⟩ := hch
  have hm : lineMerged direction [a, b, c, e] = false := by
    unfold lineMerged oriented
    split
    · simp [compact, mergesRef, ha, hb, hc, he, Ne.symm hab, Ne.symm hbc, Ne.symm hce]
    · simp [compact, mergesRef, ha, hb, hc, he, hab, hbc, hce]
  refine ⟨hm, lineOut_of_full direction _ rfl ?_ hm⟩
  simp [Ne.symm ha, Ne.symm hb, Ne.symm hc, Ne.symm he]

/-- C7: for each of the four directions and every board of sixteen cells whose
lines along the move axis are packed (four nonzero cells, no two neighbours
equal), `move` leaves every line and the whole state unchanged, adds nothing
to the score and spawns nothing, so moving again gives the same state. -/
theorem move_packed_fixed (direction : String) (hd : IsDirection direction)
    (s : GameState) (hlen : s.board.length = 16)
    (hpacked : ∀ i, i < 4 → Packed (readLine direction s.board i))
    (r1 r2 r3 r4 : Draw) :
    (∀ i, i < 4 → ∀ (score : Int) (moved : Bool),
      lineStep direction (readLine direction s.board i) score moved
        = { filtered := readLine direction s.board i, score := score, moved := moved }) ∧
    slide direction s.board s.score = { board := s.board, score := s.score, moved := false } ∧
    move direction s r1 r2 = s ∧
    move direction (move direction s r1 r2) r3 r4 = move direction s r1 r2 := by
  have hline : ∀ i, i < 4 → lineChanged direction s.board i = false := by
    intro i hi
    obtain ⟨h1, h2⟩ := lineOut_of_packed direction _ (readLine_length _ _ _) (hpacked i hi)
    simp [lineChanged, h1, h2]
  have hm : (slide direction s.board s.score).moved = false := by
    rw [(slide_lines direction hd s.board hlen s.score).2.2.2, hline 0 (by omega),
      hline 1 (by omega), hline 2 (by omega), hline 3 (by omega)]
    rfl
  have hsl := slide_of_not_moved direction hd s.board hlen s.score hm
  have hmove : ∀ a b : Draw, move direction s a b = s := by
    intro a b
    simp only [move, hsl, Bool.false_eq_true, if_false]
  refine ⟨?_, hsl, hmove r1 r2, ?_⟩
  · intro i hi score moved
    obtain ⟨h1, h2⟩ := lineOut_of_packed direction _ (readLine_length _ _ _) (hpacked i hi)
    have h3 := (mergesRef_false _ h1).2
    rw [lineStep_eq, h1, h2]
    simp only [lineGain, h3, add_zero, Bool.or_false]
  · rw [hmove r1 r2]
    exact hmove r3 r4

theorem move_packed_fixed_witness :
    (∀ i, i < 4 → ∀ (score : Int) (moved : Bool),
      lineStep "left" (readLine "left" stripedBoard i) score moved
        = { filtered := readLine "left" stripedBoard i, score := score, moved := moved }) ∧
    slide "left" stripedBoard 0 = { board := stripedBoard, score := 0, moved := false } ∧
    move "left" { board := stripedBoard, score := 0, currentLevel := 0, highScore := 0 }
        { num := 1, den := 2 } { num := 1, den := 2 }
      = { board := stripedBoard, score := 0, currentLevel := 0, highScore := 0 } ∧
    move "left"
        (move "left" { board := stripedBoard, score := 0, currentLevel := 0, highScore := 0 }
          { num := 1, den := 2 } { num := 1, den := 2 })
        { num := 0, den := 1 } { num := 0, den := 1 }
      = move "left" { board := stripedBoard, score := 0, currentLevel := 0, highScore := 0 }
          { num := 1, den := 2 } { num := 1, den := 2 } :=
  move_packed_fixed "left" (by decide)
    { board := stripedBoard, score := 0, currentLevel := 0, highScore := 0 } (by decide)
    (by decide) { num := 1, den := 2 } { num := 1, den := 2 } { num := 0, den := 1 }
    { num := 0, den := 1 }

/-- C8: for every board of sixteen cells and every pair of draws, the first
in `[0, 1)`: on a board with an empty cell `addNumber` sets one cell, which
held 0, to 2 or 4 and keeps every other cell, so the number of nonzero cells
grows by one; on a board with no empty cell it returns the board unchanged. -/
theorem addNumber_spawn (board : List Int) (hlen : board.length = 16) (r1 r2 : Draw)
    (hr : r1.num < r1.den) :
    (0 ∈ board →
      ∃ index v, index < 16 ∧ board[index]? = some 0 ∧ (v = 2 ∨ v = 4) ∧
        (addNumber board r1 r2).length = 16 ∧
        (addNumber board r1 r2)[index]? = some v ∧
        (∀ j, j ≠ index → (addNumber board r1 r2)[j]? = board[j]?) ∧
        (compact (addNumber board r1 r2)).length = (compact board).length + 1) ∧
    (0 ∉ board → addNumber board r1 r2 = board) := by
  refine ⟨?_, addNumber_of_full board r1 r2⟩
  intro h0
  obtain ⟨index, v, hi, hget, hv, hadd⟩ := addNumber_of_empty board r1 r2 hr h0
  have hv0 : v ≠ 0 := by rcases hv with rfl | rfl <;> decide
  refine ⟨index, v, by omega, hget, hv, ?_, ?_, ?_, ?_⟩
  · rw [hadd, List.length_set, hlen]
  · rw [hadd, List.getElem?_set_self hi]
  · intro j hj
    rw [hadd, List.getElem?_set_ne (Ne.symm hj)]
  · rw [hadd]
    exact compact_set_length board index v hget hv0

theorem addNumber_spawn_witness :
    (0 ∈ pairBoard →
      ∃ index v, index < 16 ∧ pairBoard[index]? = some 0 ∧ (v = 2 ∨ v = 4) ∧
        (addNumber pairBoard { num := 1, den := 2 } { num := 19, den := 20 }).length = 16 ∧
        (addNumber pairBoard { num := 1, den := 2 } { num := 19, den := 20 })[index]? = some v ∧
        (∀ j, j ≠ index →
          (addNumber pairBoard { num := 1, den := 2 } { num := 19, den := 20 })[j]?
            = pairBoard[j]?) ∧
        (compact (addNumber pairBoard { num := 1, den := 2 } { num := 19, den := 20 })).length
          = (compact pairBoard).length + 1) ∧
    (0 ∉ pairBoard →
      addNumber pairBoard { num := 1, den := 2 } { num := 19, den := 20 } = pairBoard) :=
  addNumber_spawn pairBoard (by decide) { num := 1, den := 2 } { num := 19, den := 20 }
    (by decide)

theorem compact_replicate_zero (n : Nat) : compact (List.replicate n 0) = [] := by
  simp [compact]

/-- C9: for every prior state and all draws, those of the two cell choices in
`[0, 1)`: after `restartGame` the board has sixteen cells, exactly two of them
nonzero, every cell is 0, 2 or 4, the score is 0 and the level is 0. -/
theorem restartGame_fresh (s : GameState) (r1 r2 r3 r4 : Draw)
    (h1 : r1.num < r1.den) (h3 : r3.num < r3.den) :
    (restartGame s r1 r2 r3 r4).board.length = 16 ∧
    (compact (restartGame s r1 r2 r3 r4).board).length = 2 ∧
    (∀ v ∈ (restartGame s r1 r2 r3 r4).board, v = 0 ∨ v = 2 ∨ v = 4) ∧
    (restartGame s r1 r2 r3 r4).score = 0 ∧
    (restartGame s r1 r2 r3 r4).currentLevel = 0 := by
  have hz : (0 : Int) ∈ List.replicate 16 (0 : Int) := by decide
  obtain ⟨i, v, hi, hget, hv, hadd⟩ := addNumber_of_empty _ r1 r2 h1 hz
  have hv0 : v ≠ 0 := by rcases hv with rfl | rfl <;> decide
  have hc1 : (compact ((List.replicate 16 (0 : Int)).set i v)).length = 1 := by
    rw [compact_set_length _ i v hget hv0, compact_replicate_zero]
    rfl
  have hz1 : (0 : Int) ∈ (List.replicate 16 (0 : Int)).set i v := by
    apply zero_mem_of_compact_lt
    rw [hc1, List.length_set, List.length_replicate]
    omega
  obtain ⟨k, w, hk, hgetk, hw, hadd2⟩ := addNumber_of_empty _ r3 r4 h3 hz1
  have hw0 : w ≠ 0 := by rcases hw with rfl | rfl <;> decide
  have hmem : ∀ x ∈ ((List.replicate 16 (0 : Int)).set i v).set k w, x = 0 ∨ x = 2 ∨ x = 4 := by
    intro x hx
    rcases mem_set_cases _ _ _ _ hx with h | h
    · rcases hw with rfl | rfl <;> simp [h]
    · rcases mem_set_cases _ _ _ _ h with h | h
      · rcases hv with rfl | rfl <;> simp [h]
      · exact Or.inl (List.eq_of_mem_replicate h)
  have hboard : (restartGame s r1 r2 r3 r4).board
      = ((List.replicate 16 (0 : Int)).set i v).set k w := by
    simp only [restartGame, createBoard, checkLevel_board, updateScore_board, hadd, hadd2]
  have hlevel : (restartGame s r1 r2 r3 r4).currentLevel = 0 := by
    simp only [restartGame, createBoard, updateScore_board, hadd, hadd2]
    rw [checkLevel_of_no_level]
    · exact updateScore_level _
    · intro x hx
      rcases hmem x hx with rfl | rfl | rfl <;> decide
  refine ⟨?_, ?_, ?_, ?_, hlevel⟩
  · rw [hboard, List.length_set, List.length_set, List.length_replicate]
  · rw [hboard, compact_set_length _ k w hgetk hw0, hc1]
  · rw [hboard]; exact hmem
  · simp only [restartGame, createBoard, checkLevel_score, updateScore_score]

theorem restartGame_fresh_witness :
    (restartGame { board := stripedBoard, score := 40, currentLevel := 2, highScore := 90 }
      { num := 1, den := 2 } { num := 1, den := 2 } { num := 0, den := 1 }
      { num := 19, den := 20 }).board.length = 16 ∧
    (compact (restartGame
      { board := stripedBoard, score := 40, currentLevel := 2, highScore := 90 }
      { num := 1, den := 2 } { num := 1, den := 2 } { num := 0, den := 1 }
      { num := 19, den := 20 }).board).length = 2 ∧
    (∀ v ∈ (restartGame { board := stripedBoard, score := 40, currentLevel := 2, highScore := 90 }
      { num := 1, den := 2 } { num := 1, den := 2 } { num := 0, den := 1 }
      { num := 19, den := 20 }).board, v = 0 ∨ v = 2 ∨ v = 4) ∧
    (restartGame { board := stripedBoard, score := 40, currentLevel := 2, highScore := 90 }
      { num := 1, den := 2 } { num := 1, den := 2 } { num := 0, den := 1 }
      { num := 19, den := 20 }).score = 0 ∧
    (restartGame { board := stripedBoard, score := 40, currentLevel := 2, highScore := 90 }
      { num := 1, den := 2 } { num := 1, den := 2 } { num := 0, den := 1 }
      { num := 19, den := 20 }).currentLevel = 0 :=
  restartGame_fresh { board := stripedBoard, score := 40, currentLevel := 2, highScore := 90 }
    { num := 1, den := 2 } { num := 1, den := 2 } { num := 0, den := 1 }
    { num := 19, den := 20 } (by decide) (by decide)

theorem isTile_double (a : Int) (h : IsTile a) : IsTile (2 * a) := by
  rcases h with rfl | ⟨k, hk, rfl⟩
  · exact Or.inl rfl
  · exact Or.inr ⟨k + 1, by omega, by ring⟩

theorem mergeRef_tiles (l : List Int) (h : ∀ v ∈ l, IsTile v) : ∀ v ∈ mergeRef l, IsTile v := by
  induction l using mergeRef.induct with
  | case1 => simp [mergeRef]
  | case2 a => simpa [mergeRef] using h
  | case3 a r ih =>
    have ha : IsTile a := h a (List.mem_cons_self _ _)
    have hr : ∀ v ∈ r, IsTile v := fun v hv =>
      h v (List.mem_cons_of_mem _ (List.mem_cons_of_mem _ hv))
    intro v hv
    simp only [mergeRef, if_true, List.mem_cons] at hv
    rcases hv with rfl | hv
    · exact isTile_double a ha
    · exact ih hr v hv
  | case4 a b r hab ih =>
    have ha : IsTile a := h a (List.mem_cons_self _ _)
    have hr : ∀ v ∈ b :: r, IsTile v := fun v hv => h v (List.mem_cons_of_mem _ hv)
    intro v hv
    simp only [mergeRef, hab, if_false, List.mem_cons] at hv
    rcases hv with rfl | hv
    · exact ha
    · exact ih hr v (by simpa using hv)

theorem lineOut_tiles (direction : String) (row : List Int) (h : ∀ v ∈ row, IsTile v) :
    ∀ v ∈ lineOut direction row, IsTile v := by
  intro v hv
  rw [lineOut, mem_oriented, padRef, List.mem_append] at hv
  rcases hv with hv | hv
  · apply mergeRef_tiles _ _ v hv
    intro x hx
    have hx' : x ∈ oriented direction row := List.mem_of_mem_filter hx
    rw [mem_oriented] at hx'
    exact h x hx'
  · exact Or.inl (List.eq_of_mem_replicate hv)

theorem slide_boardOK (direction : String) (hd : IsDirection direction) (board : List Int)
    (s : Int) (h : BoardOK board) : BoardOK (slide direction board s).board := by
  obtain ⟨hlen, htiles⟩ := h
  obtain ⟨hl, hlines, _, _⟩ := slide_lines direction hd board hlen s
  refine ⟨hl, ?_⟩
  intro x hx
  obtain ⟨i, hi, hmem⟩ := (mem_board_lines direction hd _ hl x).mp hx
  rw [hlines i hi] at hmem
  apply lineOut_tiles direction _ _ x hmem
  intro v hv
  exact htiles v ((mem_board_lines direction hd board hlen v).mpr ⟨i, hi, hv⟩)

theorem addNumber_cases (board : List Int) (r1 r2 : Draw) :
    addNumber board r1 r2 = board ∨
      ∃ index v, (v = 2 ∨ v = 4) ∧ addNumber board r1 r2 = board.set index v := by
  unfold addNumber
  simp only
  split
  · exact Or.inl rfl
  · split
    · rename_i index _
      refine Or.inr ⟨index, if r2.num * 10 < r2.den * 9 then 2 else 4, ?_, rfl⟩
      split <;> simp
    · exact Or.inl rfl

theorem addNumber_boardOK (board : List Int) (r1 r2 : Draw) (h : BoardOK board) :
    BoardOK (addNumber board r1 r2) := by
  rcases addNumber_cases board r1 r2 with heq | ⟨index, v, hv, heq⟩
  · rw [heq]; exact h
  · rw [heq]
    refine ⟨by rw [List.length_set]; exact h.1, ?_⟩
    intro x hx
    rcases mem_set_cases _ _ _ _ hx with hxv | hx
    · rcases hv with rfl | rfl
      · exact Or.inr ⟨1, le_refl 1, by rw [hxv]; rfl⟩
      · exact Or.inr ⟨2, by omega, by rw [hxv]; rfl⟩
    · exact h.2 x hx

theorem move_board (direction : String) (s : GameState) (r1 r2 : Draw) :
    (move direction s r1 r2).board =
      if (slide direction s.board s.score).moved = true then
        addNumber (slide direction s.board s.score).board r1 r2
      else (slide direction s.board s.score).board := by
  simp only [move, createBoard]
  generalize slide direction s.board s.score = sw
  cases hm : sw.moved <;> simp [updateScore_board, checkLevel_board]

theorem move_boardOK (direction : String) (hd : IsDirection direction) (s : GameState)
    (r1 r2 : Draw) (h : BoardOK s.board) : BoardOK (move direction s r1 r2).board := by
  have hsl := slide_boardOK direction hd s.board s.score h
  rw [move_board]
  generalize slide direction s.board s.score = sw at hsl
  split
  · exact addNumber_boardOK sw.board r1 r2 hsl
  · exact hsl

theorem restartGame_boardOK (s : GameState) (r1 r2 r3 r4 : Draw) :
    BoardOK (restartGame s r1 r2 r3 r4).board := by
  simp only [restartGame, createBoard, checkLevel_board, updateScore_board]
  apply addNumber_boardOK
  apply addNumber_boardOK
  exact ⟨by simp, fun x hx => Or.inl (List.eq_of_mem_replicate hx)⟩

/-- C10: if the board has sixteen cells, each 0 or a power of two `2 ^ k` with
`k ≥ 1`, the same holds after `move` in each of the four directions, after
`addNumber` and after `restartGame`, whatever the draws; hence it holds in
every state reachable from `restartGame` by moves. -/
theorem board_invariant (s : GameState) (h : BoardOK s.board) :
    (∀ direction r1 r2, IsDirection direction → BoardOK (move direction s r1 r2).board) ∧
    (∀ r1 r2, BoardOK (addNumber s.board r1 r2)) ∧
    (∀ r1 r2 r3 r4, BoardOK (restartGame s r1 r2 r3 r4).board) ∧
    (∀ t, Reachable t → BoardOK t.board) := by
  refine ⟨?_, ?_, ?_, ?_⟩
  · intro direction r1 r2 hd
    exact move_boardOK direction hd s r1 r2 h
  · intro r1 r2
    exact addNumber_boardOK s.board r1 r2 h
  · intro r1 r2 r3 r4
    exact restartGame_boardOK s r1 r2 r3 r4
  · intro t ht
    induction ht with
    | restart s0 r1 r2 r3 r4 _ _ => exact restartGame_boardOK s0 r1 r2 r3 r4
    | step s0 direction r1 r2 hd _ _ ih => exact move_boardOK direction hd s0 r1 r2 ih

theorem pairBoard_ok : BoardOK pairBoard := by
  refine ⟨rfl, ?_⟩
  intro x hx
  simp only [pairBoard, List.mem_cons, List.mem_singleton, List.not_mem_nil, or_false] at hx
  rcases hx with h | h | h | h | h | h | h | h | h | h | h | h | h | h | h | h
  · exact Or.inr ⟨1, le_refl 1, by rw [h]; rfl⟩
  · exact Or.inr ⟨1, le_refl 1, by rw [h]; rfl⟩
  all_goals exact Or.inl h

theorem board_invariant_witness :
    (∀ direction r1 r2, IsDirection direction →
      BoardOK (move direction
        { board := pairBoard, score := 0, currentLevel := 0, highScore := 0 } r1 r2).board) ∧
    (∀ r1 r2, BoardOK (addNumber pairBoard r1 r2)) ∧
    (∀ r1 r2 r3 r4, BoardOK (restartGame
        { board := pairBoard, score := 0, currentLevel := 0, highScore := 0 }
        r1 r2 r3 r4).board) ∧
    (∀ t, Reachable t → BoardOK t.board) :=
  board_invariant { board := pairBoard, score := 0, currentLevel := 0, highScore := 0 }
    pairBoard_ok

/-! ## Score, level and high score -/

theorem gainRef_nonneg (l : List Int) (h : ∀ v ∈ l, 0 ≤ v) : 0 ≤ gainRef l := by
  induction l using gainRef.induct with
  | case1 => simp [gainRef]
  | case2 a => simp [gainRef]
  | case3 a r ih =>
    have ha : 0 ≤ a := h a (List.mem_cons_self _ _)
    have hr : ∀ v ∈ r, 0 ≤ v := fun v hv =>
      h v (List.mem_cons_of_mem _ (List.mem_cons_of_mem _ hv))
    have := ih hr
    simp only [gainRef, if_true]
    omega
  | case4 a b r hab ih =>
    have hr : ∀ v ∈ b :: r, 0 ≤ v := fun v hv => h v (List.mem_cons_of_mem _ hv)
    simpa [gainRef, hab] using ih hr

theorem lineGain_nonneg (direction : String) (row : List Int) (h : ∀ v ∈ row, 0 ≤ v) :
    0 ≤ lineGain direction row := by
  apply gainRef_nonneg
  intro v hv
  have hv' : v ∈ oriented direction row := List.mem_of_mem_filter hv
  rw [mem_oriented] at hv'
  exact h v hv'

theorem slide_score_ge (direction : String) (hd : IsDirection direction)
    (board : List Int) (hlen : board.length = 16) (s : Int) (hnn : ∀ v ∈ board, 0 ≤ v) :
    s ≤ (slide direction board s).score := by
  obtain ⟨_, _, hs, _⟩ := slide_lines direction hd board hlen s
  have hline : ∀ i, i < 4 → 0 ≤ lineGain direction (readLine direction board i) := by
    intro i hi
    apply lineGain_nonneg
    intro v hv
    exact hnn v ((mem_board_lines direction hd board hlen v).mpr ⟨i, hi, hv⟩)
  have h0 := hline 0 (by omega)
  have h1 := hline 1 (by omega)
  have h2 := hline 2 (by omega)
  have h3 := hline 3 (by omega)
  omega

theorem move_score (direction : String) (s : GameState) (r1 r2 : Draw) :
    (move direction s r1 r2).score = (slide direction s.board s.score).score := by
  simp only [move, createBoard]
  generalize slide direction s.board s.score = sw
  cases hm : sw.moved <;> simp [updateScore_score, checkLevel_score]

theorem isTile_nonneg (x : Int) (h : IsTile x) : 0 ≤ x := by
  rcases h with rfl | ⟨k, _, rfl⟩
  · exact le_refl 0
  · positivity

theorem reachable_boardOK (t : GameState) (h : Reachable t) : BoardOK t.board := by
  induction h with
  | restart s0 r1 r2 r3 r4 _ _ => exact restartGame_boardOK s0 r1 r2 r3 r4
  | step s0 direction r1 r2 hd _ _ ih => exact move_boardOK direction hd s0 r1 r2 ih

theorem restartGame_score (s : GameState) (r1 r2 r3 r4 : Draw) :
    (restartGame s r1 r2 r3 r4).score = 0 := by
  simp only [restartGame, createBoard, checkLevel_score, updateScore_score]

/-- C11: for every board of sixteen cells that are all non-negative and each
of the four directions, the score after `move` is at least the score before;
hence the score is non-negative in every state reachable from `restartGame`
by moves. -/
theorem score_never_decreases (direction : String) (hd : IsDirection direction)
    (s : GameState) (hlen : s.board.length = 16) (hnn : ∀ v ∈ s.board, 0 ≤ v)
    (r1 r2 : Draw) :
    s.score ≤ (move direction s r1 r2).score ∧ (∀ t, Reachable t → 0 ≤ t.score) := by
  refine ⟨?_, ?_⟩
  · rw [move_score]
    exact slide_score_ge direction hd s.board hlen s.score hnn
  · intro t ht
    induction ht with
    | restart s0 a b c d _ _ => rw [restartGame_score]
    | step s0 dir a b hdir _ hs ih =>
      have hok := reachable_boardOK s0 hs
      rw [move_score]
      have := slide_score_ge dir hdir s0.board hok.1 s0.score
        (fun v hv => isTile_nonneg v (hok.2 v hv))
      omega

theorem score_never_decreases_witness :
    (12 : Int) ≤ (move "left" { board := pairBoard, score := 12, currentLevel := 0, highScore := 20 }
        { num := 1, den := 2 } { num := 0, den := 1 }).score ∧
    (∀ t, Reachable t → 0 ≤ t.score) :=
  score_never_decreases "left" (by decide)
    { board := pairBoard, score := 12, currentLevel := 0, highScore := 20 } (by decide)
    (by decide) { num := 1, den := 2 } { num := 0, den := 1 }

theorem levels_range (tile l : Int) (h : levels tile = some l) : 1 ≤ l ∧ l ≤ 5 := by
  unfold levels at h
  split_ifs at h <;> simp at h <;> omega

theorem checkLevel_level (s : GameState) :
    s.currentLevel ≤ (checkLevel s).currentLevel ∧
    ((checkLevel s).currentLevel ≤ 5 ∨ (checkLevel s).currentLevel = s.currentLevel) := by
  unfold checkLevel
  cases hmax : (maxTile s.board).bind levels with
  | none => simp
  | some l =>
    obtain ⟨m, _, hl⟩ := Option.bind_eq_some.mp hmax
    have := levels_range m l hl
    by_cases hgt : l > s.currentLevel
    · simp only [hgt, if_true]
      exact ⟨by omega, Or.inl this.2⟩
    · simp [hgt]

theorem checkLevel_highScore (s : GameState) : (checkLevel s).highScore = s.highScore := by
  unfold checkLevel; split
  · split <;> rfl
  · rfl

theorem move_level (direction : String) (s : GameState) (r1 r2 : Draw) :
    (move direction s r1 r2).currentLevel = s.currentLevel ∨
    (move direction s r1 r2).currentLevel =
      (checkLevel
        { board := addNumber (slide direction s.board s.score).board r1 r2
          score := (slide direction s.board s.score).score
          currentLevel := s.currentLevel
          highScore := s.highScore }).currentLevel := by
  simp only [move, createBoard]
  generalize slide direction s.board s.score = sw
  cases hm : sw.moved <;> simp [updateScore_level]

theorem move_level_ge (direction : String) (s : GameState) (r1 r2 : Draw) :
    s.currentLevel ≤ (move direction s r1 r2).currentLevel ∧
    ((move direction s r1 r2).currentLevel ≤ 5 ∨
      (move direction s r1 r2).currentLevel = s.currentLevel) := by
  rcases move_level direction s r1 r2 with h | h
  · rw [h]; exact ⟨le_refl _, Or.inr rfl⟩
  · rw [h]
    exact checkLevel_level
      { board := addNumber (slide direction s.board s.score).board r1 r2
        score := (slide direction s.board s.score).score
        currentLevel := s.currentLevel
        highScore := s.highScore }

theorem runMoves_append (s : GameState) (pre post : List Press) :
    runMoves s (pre ++ post) = runMoves (runMoves s pre) post := by
  simp [runMoves, List.foldl_append]

theorem runMoves_level_ge (presses : List Press) :
    ∀ s : GameState, s.currentLevel ≤ (runMoves s presses).currentLevel ∧
      (s.currentLevel ≤ 5 → (runMoves s presses).currentLevel ≤ 5) := by
  induction presses with
  | nil => intro s; simp [runMoves]
  | cons p ps ih =>
    intro s
    have h1 := move_level_ge p.direction s p.r1 p.r2
    have h2 := ih (move p.direction s p.r1 p.r2)
    have heq : runMoves s (p :: ps) = runMoves (move p.direction s p.r1 p.r2) ps := by
      simp only [runMoves, List.foldl_cons]
    rw [heq]
    refine ⟨by omega, ?_⟩
    intro h5
    apply h2.2
    rcases h1.2 with h | h <;> omega

theorem addNumber_small (board : List Int) (r1 r2 : Draw)
    (h : ∀ v ∈ board, v = 0 ∨ v = 2 ∨ v = 4) :
    ∀ v ∈ addNumber board r1 r2, v = 0 ∨ v = 2 ∨ v = 4 := by
  intro v hv
  rcases addNumber_cases board r1 r2 with heq | ⟨index, w, hw, heq⟩
  · rw [heq] at hv; exact h v hv
  · rw [heq] at hv
    rcases mem_set_cases _ _ _ _ hv with hvw | hv
    · rcases hw with rfl | rfl <;> simp [hvw]
    · exact h v hv

theorem restartGame_level (s : GameState) (r1 r2 r3 r4 : Draw) :
    (restartGame s r1 r2 r3 r4).currentLevel = 0 := by
  simp only [restartGame, createBoard, updateScore_board]
  rw [checkLevel_of_no_level]
  · exact updateScore_level _
  · intro x hx
    have hx' : x = 0 ∨ x = 2 ∨ x = 4 := by
      apply addNumber_small _ r3 r4 _ x hx
      apply addNumber_small _ r1 r2
      intro v hv
      exact Or.inl (List.eq_of_mem_replicate hv)
    rcases hx' with rfl | rfl | rfl <;> decide

/-- C13: for every state with level in `0..5`, whatever its board, `checkLevel`
and `move` (with any direction and draws) leave the level at least as high and
within `0..5`; over any sequence of moves the levels observed are
non-decreasing; and `restartGame` sets the level to 0. -/
theorem level_never_decreases (s : GameState)
    (h : 0 ≤ s.currentLevel ∧ s.currentLevel ≤ 5) :
    (s.currentLevel ≤ (checkLevel s).currentLevel ∧ (checkLevel s).currentLevel ≤ 5) ∧
    (∀ direction r1 r2, s.currentLevel ≤ (move direction s r1 r2).currentLevel ∧
      (move direction s r1 r2).currentLevel ≤ 5) ∧
    (∀ pre post : List Press,
      0 ≤ (runMoves s pre).currentLevel ∧
      (runMoves s pre).currentLevel ≤ (runMoves s (pre ++ post)).currentLevel ∧
      (runMoves s (pre ++ post)).currentLevel ≤ 5) ∧
    (∀ r1 r2 r3 r4, (restartGame s r1 r2 r3 r4).currentLevel = 0) := by
  refine ⟨?_, ?_, ?_, restartGame_level s⟩
  · have := checkLevel_level s
    refine ⟨this.1, ?_⟩
    rcases this.2 with h5 | h5 <;> omega
  · intro direction r1 r2
    have := move_level_ge direction s r1 r2
    refine ⟨this.1, ?_⟩
    rcases this.2 with h5 | h5 <;> omega
  · intro pre post
    have h1 := runMoves_level_ge pre s
    have h2 := runMoves_level_ge post (runMoves s pre)
    rw [runMoves_append]
    exact ⟨by omega, h2.1, h2.2 (h1.2 h.2)⟩

theorem level_never_decreases_witness :
    ((0 : Int) ≤ (checkLevel pairState).currentLevel ∧
      (checkLevel pairState).currentLevel ≤ 5) ∧
    (∀ direction r1 r2,
      (0 : Int) ≤ (move direction pairState r1 r2).currentLevel ∧
      (move direction pairState r1 r2).currentLevel ≤ 5) ∧
    (∀ pre post : List Press,
      0 ≤ (runMoves pairState pre).currentLevel ∧
      (runMoves pairState pre).currentLevel ≤ (runMoves pairState (pre ++ post)).currentLevel ∧
      (runMoves pairState (pre ++ post)).currentLevel ≤ 5) ∧
    (∀ r1 r2 r3 r4, (restartGame pairState r1 r2 r3 r4).currentLevel = 0) :=
  level_never_decreases pairState (by decide)

theorem updateScore_highScore (s : GameState) :
    (updateScore s).highScore = max s.highScore s.score := by
  unfold updateScore
  split
  · rename_i h
    simp only
    rw [max_eq_right (le_of_lt h)]
  · rename_i h
    rw [max_eq_left (not_lt.mp h)]

theorem restartGame_highScore (s : GameState) (r1 r2 r3 r4 : Draw) :
    (restartGame s r1 r2 r3 r4).highScore = max s.highScore 0 := by
  simp only [restartGame, createBoard, checkLevel_highScore]
  exact updateScore_highScore _

theorem restartGame_length (s : GameState) (r1 r2 r3 r4 : Draw) :
    (restartGame s r1 r2 r3 r4).board.length = 16 :=
  (restartGame_boardOK s r1 r2 r3 r4).1

theorem addNumber_length (board : List Int) (r1 r2 : Draw) :
    (addNumber board r1 r2).length = board.length := by
  rcases addNumber_cases board r1 r2 with heq | ⟨index, v, _, heq⟩
  · rw [heq]
  · rw [heq, List.length_set]

theorem move_length (direction : String) (hd : IsDirection direction) (s : GameState)
    (hlen : s.board.length = 16) (r1 r2 : Draw) :
    (move direction s r1 r2).board.length = 16 := by
  have hl := (slide_lines direction hd s.board hlen s.score).1
  rw [move_board]
  split
  · rw [addNumber_length]; exact hl
  · exact hl

theorem move_highScore (direction : String) (hd : IsDirection direction) (s : GameState)
    (hlen : s.board.length = 16) (hinv : s.score ≤ s.highScore) (r1 r2 : Draw) :
    (move direction s r1 r2).highScore = max s.highScore (move direction s r1 r2).score := by
  rw [move_score]
  by_cases hm : (slide direction s.board s.score).moved = true
  · rw [move_of_moved direction s r1 r2 hm, updateScore_highScore, checkLevel_highScore,
      checkLevel_score]
  · have hm' : (slide direction s.board s.score).moved = false := by simpa using hm
    have hsl := slide_of_not_moved direction hd s.board hlen s.score hm'
    have hmove : move direction s r1 r2 = s := by
      simp only [move, hsl, Bool.false_eq_true, if_false]
    rw [hmove, hsl]
    exact (max_eq_left hinv).symm

theorem perform_highScore (s : GameState) (hlen : s.board.length = 16)
    (hinv : s.score ≤ s.highScore) (a : Action) (ha : a.Valid) :
    (perform s a).highScore = max s.highScore (perform s a).score ∧
    (perform s a).board.length = 16 := by
  cases a with
  | restart r1 r2 r3 r4 =>
    simp only [perform]
    rw [restartGame_highScore, restartGame_score]
    exact ⟨rfl, restartGame_length s r1 r2 r3 r4⟩
  | press direction r1 r2 =>
    exact ⟨move_highScore direction ha s hlen hinv r1 r2, move_length direction ha s hlen r1 r2⟩

theorem foldl_max_ge (l : List Int) (x : Int) : x ≤ l.foldl max x := by
  induction l generalizing x with
  | nil => exact le_refl x
  | cons y ys ih =>
    simp only [List.foldl_cons]
    exact le_trans (le_max_left x y) (ih (max x y))

theorem runActions_highScore (acts : List Action) :
    ∀ s : GameState, s.board.length = 16 → s.score ≤ s.highScore → (∀ a ∈ acts, a.Valid) →
      (runActions s acts).board.length = 16 ∧
      (runActions s acts).score ≤ (runActions s acts).highScore ∧
      (runActions s acts).highScore = (scoresReached s acts).foldl max s.highScore := by
  induction acts with
  | nil => intro s hlen hinv _; exact ⟨hlen, hinv, rfl⟩
  | cons a rest ih =>
    intro s hlen hinv hv
    obtain ⟨hh, hl⟩ := perform_highScore s hlen hinv a (hv a (List.mem_cons_self _ _))
    have hinv' : (perform s a).score ≤ (perform s a).highScore := by
      rw [hh]; exact le_max_right _ _
    obtain ⟨h1, h2, h3⟩ := ih (perform s a) hl hinv'
      (fun b hb => hv b (List.mem_cons_of_mem _ hb))
    have heq : runActions s (a :: rest) = runActions (perform s a) rest := by
      simp only [runActions, List.foldl_cons]
    rw [heq]
    refine ⟨h1, h2, ?_⟩
    rw [h3, hh]
    simp only [scoresReached, List.foldl_cons]

/-- C14: starting from the load state with a non-negative loaded high score,
after any sequence of restarts and key presses: the next `restartGame` or
`move` leaves the high score equal to the maximum of its previous value and
the score after it; the high score is at least the score, is never lowered,
changes only to a score above it, and equals the maximum of the loaded
value and every score reached. -/
theorem highScore_is_running_max (loaded : Int) (hloaded : 0 ≤ loaded) (acts : List Action)
    (hvalid : ∀ a ∈ acts, a.Valid) :
    (∀ a : Action, a.Valid →
      (perform (runActions (initialState loaded) acts) a).highScore
        = max (runActions (initialState loaded) acts).highScore
            (perform (runActions (initialState loaded) acts) a).score ∧
      (runActions (initialState loaded) acts).highScore
        ≤ (perform (runActions (initialState loaded) acts) a).highScore ∧
      ((perform (runActions (initialState loaded) acts) a).highScore
          ≠ (runActions (initialState loaded) acts).highScore →
        (runActions (initialState loaded) acts).highScore
          < (perform (runActions (initialState loaded) acts) a).score)) ∧
    (runActions (initialState loaded) acts).score
      ≤ (runActions (initialState loaded) acts).highScore ∧
    loaded ≤ (runActions (initialState loaded) acts).highScore ∧
    (runActions (initialState loaded) acts).highScore
      = (scoresReached (initialState loaded) acts).foldl max loaded := by
  have hlen0 : (initialState loaded).board.length = 16 := by simp [initialState]
  have hinv0 : (initialState loaded).score ≤ (initialState loaded).highScore := hloaded
  obtain ⟨h1, h2, h3⟩ := runActions_highScore acts (initialState loaded) hlen0 hinv0 hvalid
  refine ⟨?_, h2, ?_, h3⟩
  · intro a ha
    obtain ⟨hh, _⟩ := perform_highScore _ h1 h2 a ha
    refine ⟨hh, ?_, ?_⟩
    · rw [hh]; exact le_max_left _ _
    · intro hne
      rw [hh] at hne
      by_contra hlt
      exact hne (max_eq_left (not_lt.mp hlt))
  · rw [h3]
    exact foldl_max_ge _ loaded

theorem highScore_is_running_max_witness :
    (∀ a : Action, a.Valid →
      (perform (runActions (initialState 3) sampleRun) a).highScore
        = max (runActions (initialState 3) sampleRun).highScore
            (perform (runActions (initialState 3) sampleRun) a).score ∧
      (runActions (initialState 3) sampleRun).highScore
        ≤ (perform (runActions (initialState 3) sampleRun) a).highScore ∧
      ((perform (runActions (initialState 3) sampleRun) a).highScore
          ≠ (runActions (initialState 3) sampleRun).highScore →
        (runActions (initialState 3) sampleRun).highScore
          < (perform (runActions (initialState 3) sampleRun) a).score)) ∧
    (runActions (initialState 3) sampleRun).score
      ≤ (runActions (initialState 3) sampleRun).highScore ∧
    (3 : Int) ≤ (runActions (initialState 3) sampleRun).highScore ∧
    (runActions (initialState 3) sampleRun).highScore
      = (scoresReached (initialState 3) sampleRun).foldl max 3 :=
  highScore_is_running_max 3 (by decide) sampleRun (by decide)

/-! ## Directions outside the four -/

theorem slide_congr (d e : String) (h1 : ∀ i j, lineIndex d i j = lineIndex e i j)
    (h2 : reversed d = reversed e) (board : List Int) (s : Int) :
    slide d board s = slide e board s := by
  have hread : ∀ b i, readLine d b i = readLine e b i := by
    intro b i; simp only [readLine, h1]
  have hstep : ∀ row sc m, lineStep d row sc m = lineStep e row sc m := by
    intro row sc m; simp only [lineStep, h2]
  have hcell : ∀ i f, writeCell d i f = writeCell e i f := by
    intro i f; funext sw j; simp only [writeCell, h1]
  have hback : ∀ i f sw, writeBack d i f sw = writeBack e i f sw := by
    intro i f sw; simp only [writeBack, hcell]
  have hline : moveLine d = moveLine e := by
    funext sw i; simp only [moveLine, hread, hstep, hback]
  simp only [slide, hline]

theorem lineIndex_other (d : String) (hd : ¬ IsDirection d) (i j : Nat) :
    lineIndex d i j = lineIndex "up" i j := by
  have h1 : ¬ (d = "left" ∨ d = "right") := fun h => hd (by
    rcases h with h | h
    · exact Or.inl h
    · exact Or.inr (Or.inl h))
  have h2 : ¬ (("up" : String) = "left" ∨ ("up" : String) = "right") := by decide
  simp only [lineIndex, h1, h2, if_false]

theorem reversed_other (d : String) (hd : ¬ IsDirection d) : reversed d = reversed "up" := by
  have h1 : ¬ (d = "right" ∨ d = "down") := fun h => hd (by
    rcases h with h | h
    · exact Or.inr (Or.inl h)
    · exact Or.inr (Or.inr (Or.inr h)))
  have h2 : reversed "up" = false := by decide
  rw [h2]
  simp only [reversed, h1, decide_False]

/-- A direction outside the four is handled as `"up"`: columns, no reversal. -/
theorem slide_other (d : String) (hd : ¬ IsDirection d) (board : List Int) (s : Int) :
    slide d board s = slide "up" board s :=
  slide_congr d "up" (lineIndex_other d hd) (reversed_other d hd) board s

theorem move_other (d : String) (hd : ¬ IsDirection d) (s : GameState) (r1 r2 : Draw) :
    move d s r1 r2 = move "up" s r1 r2 := by
  unfold move
  rw [slide_other d hd]

/-- C15, as stated, fails: `move("diagonal")` on a board with a pair of twos in
the first column is not rejected and does not leave the state unchanged; it
merges the pair upward, adds 4 to the score and spawns a tile. -/
theorem invalid_direction_counterexample :
    ¬ IsDirection "diagonal" ∧
    move "diagonal" columnState { num := 0, den := 1 } { num := 0, den := 1 } ≠ columnState ∧
    move "diagonal" columnState { num := 0, den := 1 } { num := 0, den := 1 }
      = { board := [4, 2, 0, 0, 0, 0, 0, 0, 0, 0, 0, 0, 0, 0, 0, 0], score := 4,
          currentLevel := 0, highScore := 4 } := by
  decide

/-- C15, amended: for every direction value other than the four, `move` does
not reject the input and raises no error: it returns the state that
`move("up")` returns on the same state and draws, with the same `moved` flag,
so board, score, level and high score change whenever `move("up")` changes them. -/
theorem move_invalid_direction_as_up (direction : String) (hd : ¬ IsDirection direction)
    (s : GameState) (r1 r2 : Draw) :
    move direction s r1 r2 = move "up" s r1 r2 ∧
    (slide direction s.board s.score).moved = (slide "up" s.board s.score).moved := by
  exact ⟨move_other direction hd s r1 r2, by rw [slide_other direction hd]⟩

theorem move_invalid_direction_as_up_witness :
    move "diagonal" columnState { num := 0, den := 1 } { num := 0, den := 1 }
      = move "up" columnState { num := 0, den := 1 } { num := 0, den := 1 } ∧
    (slide "diagonal" columnState.board columnState.score).moved
      = (slide "up" columnState.board columnState.score).moved :=
  move_invalid_direction_as_up "diagonal" (by decide) columnState
    { num := 0, den := 1 } { num := 0, den := 1 }

theorem sum_set_zero (l : List Int) (index : Nat) (v : Int) (h : l[index]? = some 0) :
    (l.set index v).sum = l.sum + v := by
  induction l generalizing index with
  | nil => simp at h
  | cons x xs ih =>
    cases index with
    | zero =>
      have hx : x = 0 := by simpa using h
      simp only [List.set_cons_zero, List.sum_cons, hx]
      ring
    | succ n =>
      have := ih n (by simpa using h)
      simp only [List.set_cons_succ, List.sum_cons, this]
      ring

theorem addNumber_cases_zero (board : List Int) (r1 r2 : Draw) :
    addNumber board r1 r2 = board ∨
      ∃ index v, board[index]? = some 0 ∧ (v = 2 ∨ v = 4) ∧
        addNumber board r1 r2 = board.set index v := by
  unfold addNumber
  simp only
  split
  · exact Or.inl rfl
  · split
    · rename_i index hget
      have hmem : index ∈ emptyCells board := List.getElem?_mem hget
      refine Or.inr ⟨index, if r2.num * 10 < r2.den * 9 then 2 else 4,
        ((mem_emptyCells board index).mp hmem).2, ?_, rfl⟩
      split <;> simp
    · exact Or.inl rfl

theorem slide_sum_any (direction : String) (board : List Int) (hlen : board.length = 16)
    (s : Int) : (slide direction board s).board.sum = board.sum := by
  by_cases hd : IsDirection direction
  · exact slide_sum direction hd board hlen s
  · rw [slide_other direction hd]
    exact slide_sum "up" (by decide) board hlen s

/-- C20: for every board of sixteen integers and every direction value, the
slide-and-merge step of `move` leaves the sum of the cells unchanged; a merge
turns the pair `v, v` into `2v` and an empty cell; and after `move` the sum is
the sum before it, or that sum plus a spawned 2 or 4. -/
theorem slide_keeps_sum (direction : String) (s : GameState) (hlen : s.board.length = 16)
    (r1 r2 : Draw) :
    (slide direction s.board s.score).board.sum = s.board.sum ∧
    (∀ v : Int, (lineCore [v, v, 0, 0] s.score false).filtered = [2 * v, 0, 0, 0]) ∧
    ((move direction s r1 r2).board.sum = s.board.sum ∨
      (move direction s r1 r2).board.sum = s.board.sum + 2 ∨
      (move direction s r1 r2).board.sum = s.board.sum + 4) := by
  have hsum := slide_sum_any direction s.board hlen s.score
  refine ⟨hsum, ?_, ?_⟩
  · intro v
    rw [lineCore_eq]
    by_cases hv : v = 0
    · subst hv; simp [compact, mergeRef, padRef]
    · simp [compact, hv, mergeRef, padRef]
  · rw [move_board]
    split
    · rcases addNumber_cases_zero (slide direction s.board s.score).board r1 r2 with
        heq | ⟨index, v, hzero, hv, heq⟩
      · rw [heq]; exact Or.inl hsum
      · rw [heq, sum_set_zero _ index v hzero, hsum]
        rcases hv with rfl | rfl
        · exact Or.inr (Or.inl rfl)
        · exact Or.inr (Or.inr rfl)
    · exact Or.inl hsum

theorem slide_keeps_sum_witness :
    (slide "down" pairState.board pairState.score).board.sum = pairState.board.sum ∧
    (∀ v : Int, (lineCore [v, v, 0, 0] pairState.score false).filtered = [2 * v, 0, 0, 0]) ∧
    ((move "down" pairState { num := 0, den := 1 } { num := 0, den := 1 }).board.sum
        = pairState.board.sum ∨
      (move "down" pairState { num := 0, den := 1 } { num := 0, den := 1 }).board.sum
        = pairState.board.sum + 2 ∨
      (move "down" pairState { num := 0, den := 1 } { num := 0, den := 1 }).board.sum
        = pairState.board.sum + 4) :=
  slide_keeps_sum "down" pairState (by decide) { num := 0, den := 1 } { num := 0, den := 1 }

/-! ## Symmetry of the four directions -/

theorem oriented_of_reversed (direction : String) (h : reversed direction = true)
    (row : List Int) : oriented direction row = row.reverse := by
  simp [oriented, h]

theorem oriented_of_not_reversed (direction : String) (h : reversed direction = false)
    (row : List Int) : oriented direction row = row := by
  simp [oriented, h]

theorem line_right (row : List Int) :
    lineOut "right" row = (lineOut "left" row.reverse).reverse ∧
    lineGain "right" row = lineGain "left" row.reverse ∧
    lineMerged "right" row = lineMerged "left" row.reverse := by
  have h1 : reversed "right" = true := by decide
  have h2 : reversed "left" = false := by decide
  simp only [lineOut, lineGain, lineMerged, oriented_of_reversed "right" h1,
    oriented_of_not_reversed "left" h2, and_self]

theorem line_up (row : List Int) :
    lineOut "up" row = lineOut "left" row ∧
    lineGain "up" row = lineGain "left" row ∧
    lineMerged "up" row = lineMerged "left" row := by
  have h1 : reversed "up" = false := by decide
  have h2 : reversed "left" = false := by decide
  simp only [lineOut, lineGain, lineMerged, oriented_of_not_reversed "up" h1,
    oriented_of_not_reversed "left" h2, and_self]

theorem line_down (row : List Int) :
    lineOut "down" row = lineOut "right" row ∧
    lineGain "down" row = lineGain "right" row ∧
    lineMerged "down" row = lineMerged "right" row := by
  have h1 : reversed "down" = true := by decide
  have h2 : reversed "right" = true := by decide
  simp only [lineOut, lineGain, lineMerged, oriented_of_reversed "down" h1,
    oriented_of_reversed "right" h2, and_self]

theorem cellsDiffer_mirror (b0 b1 b2 b3 x0 x1 x2 x3 : Int) :
    cellsDiffer b0 b1 b2 b3 x0 x1 x2 x3 = cellsDiffer b3 b2 b1 b0 x3 x2 x1 x0 := by
  simp only [cellsDiffer]
  generalize decide (b0 ≠ x0) = p0
  generalize decide (b1 ≠ x1) = p1
  generalize decide (b2 ≠ x2) = p2
  generalize decide (b3 ≠ x3) = p3
  cases p0 <;> cases p1 <;> cases p2 <;> cases p3 <;> rfl

theorem slide_right_mirror (board : List Int) (hlen : board.length = 16) (s : Int) :
    slide "right" board s =
      { board := mirrorRows (slide "left" (mirrorRows board) s).board
        score := (slide "left" (mirrorRows board) s).score
        moved := (slide "left" (mirrorRows board) s).moved } := by
  obtain ⟨b0, b1, b2, b3, b4, b5, b6, b7, b8, b9, b10, b11, b12, b13, b14, b15, rfl⟩ :=
    list_sixteen board hlen
  have hmir : mirrorRows [b0, b1, b2, b3, b4, b5, b6, b7, b8, b9, b10, b11, b12, b13, b14, b15]
      = [b3, b2, b1, b0, b7, b6, b5, b4, b11, b10, b9, b8, b15, b14, b13, b12] := rfl
  obtain ⟨x0, x1, x2, x3, hx⟩ := list_four _ (lineOut_length "left" [b3, b2, b1, b0] (by simp))
  obtain ⟨y0, y1, y2, y3, hy⟩ := list_four _ (lineOut_length "left" [b7, b6, b5, b4] (by simp))
  obtain ⟨z0, z1, z2, z3, hz⟩ := list_four _ (lineOut_length "left" [b11, b10, b9, b8] (by simp))
  obtain ⟨w0, w1, w2, w3, hw⟩ :=
    list_four _ (lineOut_length "left" [b15, b14, b13, b12] (by simp))
  have hx' : lineOut "right" [b0, b1, b2, b3] = [x3, x2, x1, x0] := by
    rw [(line_right _).1]
    show (lineOut "left" [b3, b2, b1, b0]).reverse = _
    rw [hx]; rfl
  have hy' : lineOut "right" [b4, b5, b6, b7] = [y3, y2, y1, y0] := by
    rw [(line_right _).1]
    show (lineOut "left" [b7, b6, b5, b4]).reverse = _
    rw [hy]; rfl
  have hz' : lineOut "right" [b8, b9, b10, b11] = [z3, z2, z1, z0] := by
    rw [(line_right _).1]
    show (lineOut "left" [b11, b10, b9, b8]).reverse = _
    rw [hz]; rfl
  have hw' : lineOut "right" [b12, b13, b14, b15] = [w3, w2, w1, w0] := by
    rw [(line_right _).1]
    show (lineOut "left" [b15, b14, b13, b12]).reverse = _
    rw [hw]; rfl
  have hg : ∀ a b c d : Int, lineGain "right" [a, b, c, d] = lineGain "left" [d, c, b, a] :=
    fun a b c d => (line_right [a, b, c, d]).2.1
  have hm : ∀ a b c d : Int, lineMerged "right" [a, b, c, d] = lineMerged "left" [d, c, b, a] :=
    fun a b c d => (line_right [a, b, c, d]).2.2
  rw [hmir, slide_rows "right" (Or.inr rfl) _ _ _ _ _ _ _ _ _ _ _ _ _ _ _ _ _ _ _ _ _ _ _ _ _ _
      _ _ _ _ _ _ _ hx' hy' hz' hw',
    slide_rows "left" (Or.inl rfl) _ _ _ _ _ _ _ _ _ _ _ _ _ _ _ _ _ _ _ _ _ _ _ _ _ _
      _ _ _ _ _ _ _ hx hy hz hw]
  simp only [hg, hm, cellsDiffer_mirror b0 b1 b2 b3, cellsDiffer_mirror b4 b5 b6 b7,
    cellsDiffer_mirror b8 b9 b10 b11, cellsDiffer_mirror b12 b13 b14 b15]
  rfl

theorem slide_transpose (dc dr : String) (hc : dc = "up" ∨ dc = "down")
    (hr : dr = "left" ∨ dr = "right")
    (hline : ∀ row : List Int, lineOut dc row = lineOut dr row ∧
      lineGain dc row = lineGain dr row ∧ lineMerged dc row = lineMerged dr row)
    (board : List Int) (hlen : board.length = 16) (s : Int) :
    slide dc board s =
      { board := transpose (slide dr (transpose board) s).board
        score := (slide dr (transpose board) s).score
        moved := (slide dr (transpose board) s).moved } := by
  obtain ⟨b0, b1, b2, b3, b4, b5, b6, b7, b8, b9, b10, b11, b12, b13, b14, b15, rfl⟩ :=
    list_sixteen board hlen
  have htr : transpose [b0, b1, b2, b3, b4, b5, b6, b7, b8, b9, b10, b11, b12, b13, b14, b15]
      = [b0, b4, b8, b12, b1, b5, b9, b13, b2, b6, b10, b14, b3, b7, b11, b15] := rfl
  obtain ⟨x0, x1, x2, x3, hx⟩ := list_four _ (lineOut_length dr [b0, b4, b8, b12] (by simp))
  obtain ⟨y0, y1, y2, y3, hy⟩ := list_four _ (lineOut_length dr [b1, b5, b9, b13] (by simp))
  obtain ⟨z0, z1, z2, z3, hz⟩ := list_four _ (lineOut_length dr [b2, b6, b10, b14] (by simp))
  obtain ⟨w0, w1, w2, w3, hw⟩ := list_four _ (lineOut_length dr [b3, b7, b11, b15] (by simp))
  have hx' : lineOut dc [b0, b4, b8, b12] = [x0, x1, x2, x3] := by rw [(hline _).1, hx]
  have hy' : lineOut dc [b1, b5, b9, b13] = [y0, y1, y2, y3] := by rw [(hline _).1, hy]
  have hz' : lineOut dc [b2, b6, b10, b14] = [z0, z1, z2, z3] := by rw [(hline _).1, hz]
  have hw' : lineOut dc [b3, b7, b11, b15] = [w0, w1, w2, w3] := by rw [(hline _).1, hw]
  have hg : ∀ row : List Int, lineGain dc row = lineGain dr row := fun row => (hline row).2.1
  have hm : ∀ row : List Int, lineMerged dc row = lineMerged dr row := fun row => (hline row).2.2
  rw [htr, slide_cols dc hc _ _ _ _ _ _ _ _ _ _ _ _ _ _ _ _ _ _ _ _ _ _ _ _ _ _
      _ _ _ _ _ _ _ hx' hy' hz' hw',
    slide_rows dr hr _ _ _ _ _ _ _ _ _ _ _ _ _ _ _ _ _ _ _ _ _ _ _ _ _ _
      _ _ _ _ _ _ _ hx hy hz hw]
  simp only [hg, hm]
  rfl

/-- C18: for every board of sixteen cells, the slide-and-merge step to the
right is the step to the left on the board with mirrored rows, mirrored back;
the step up is the step to the left on the transposed board, transposed back;
the step down is the step to the right on the transposed board, transposed
back; each with the same score and the same `moved` flag. -/
theorem direction_symmetry (board : List Int) (hlen : board.length = 16) (s : Int) :
    slide "right" board s =
      { board := mirrorRows (slide "left" (mirrorRows board) s).board
        score := (slide "left" (mirrorRows board) s).score
        moved := (slide "left" (mirrorRows board) s).moved } ∧
    slide "up" board s =
      { board := transpose (slide "left" (transpose board) s).board
        score := (slide "left" (transpose board) s).score
        moved := (slide "left" (transpose board) s).moved } ∧
    slide "down" board s =
      { board := transpose (slide "right" (transpose board) s).board
        score := (slide "right" (transpose board) s).score
        moved := (slide "right" (transpose board) s).moved } :=
  ⟨slide_right_mirror board hlen s,
    slide_transpose "up" "left" (Or.inl rfl) (Or.inl rfl) line_up board hlen s,
    slide_transpose "down" "right" (Or.inr rfl) (Or.inr rfl) line_down board hlen s⟩

theorem direction_symmetry_witness :
    slide "right" columnBoard 5 =
      { board := mirrorRows (slide "left" (mirrorRows columnBoard) 5).board
        score := (slide "left" (mirrorRows columnBoard) 5).score
        moved := (slide "left" (mirrorRows columnBoard) 5).moved } ∧
    slide "up" columnBoard 5 =
      { board := transpose (slide "left" (transpose columnBoard) 5).board
        score := (slide "left" (transpose columnBoard) 5).score
        moved := (slide "left" (transpose columnBoard) 5).moved } ∧
    slide "down" columnBoard 5 =
      { board := transpose (slide "right" (transpose columnBoard) 5).board
        score := (slide "right" (transpose columnBoard) 5).score
        moved := (slide "right" (transpose columnBoard) 5).moved } :=
  direction_symmetry columnBoard (by decide) 5

/-! ## No access out of range -/

theorem getD_of_lt (l : List Int) (k : Nat) (h : k < l.length) :
    l[k]? = some (l.getD k 0) := by
  rw [List.getD_eq_getElem?_getD, List.getElem?_eq_getElem h]
  rfl

theorem mergeAtChecked_eq (st : LineState) (k : Nat) (h : k + 1 < st.filtered.length) :
    mergeAtChecked st k = some (mergeAt st k) ∧
    (mergeAt st k).filtered.length = st.filtered.length := by
  have h1 := getD_of_lt st.filtered k (by omega)
  have h2 := getD_of_lt st.filtered (k + 1) h
  refine ⟨?_, ?_⟩
  · simp only [mergeAtChecked, h1, h2, mergeAt]
    split <;> rfl
  · simp only [mergeAt]
    split
    · simp
    · rfl

theorem foldlM_mergeAtChecked (ks : List Nat) :
    ∀ st : LineState, (∀ k ∈ ks, k + 1 < st.filtered.length) →
      ks.foldlM mergeAtChecked st = some (ks.foldl mergeAt st) := by
  induction ks with
  | nil => intro st _; rfl
  | cons k rest ih =>
    intro st h
    obtain ⟨h1, h2⟩ := mergeAtChecked_eq st k (h k (List.mem_cons_self _ _))
    simp only [List.foldlM_cons, List.foldl_cons, h1, Option.bind_eq_bind, Option.some_bind]
    apply ih
    intro k' hk'
    rw [h2]
    exact h k' (List.mem_cons_of_mem _ hk')

/-- Every `filtered[k]` and `filtered[k + 1]` of the merge pass is within the list. -/
theorem mergePassChecked_eq (st : LineState) : mergePassChecked st = some (mergePass st) := by
  unfold mergePassChecked mergePass
  apply foldlM_mergeAtChecked
  intro k hk
  have := List.mem_range.mp hk
  omega

theorem lineStepChecked_eq (direction : String) (row : List Int) (s : Int) (m : Bool) :
    lineStepChecked direction row s m = some (lineStep direction row s m) := by
  simp only [lineStepChecked, lineCoreChecked, mergePassChecked_eq, Option.map_some', lineStep,
    lineCore]

theorem lineIndex_lt (direction : String) (i j : Nat) (hi : i < 4) (hj : j < 4) :
    lineIndex direction i j < 16 := by
  unfold lineIndex
  split <;> omega

theorem collectCells_map (f : Nat → Option Int) (g : Nat → Int) (l : List Nat)
    (h : ∀ x ∈ l, f x = some (g x)) : collectCells (l.map f) = some (l.map g) := by
  induction l with
  | nil => rfl
  | cons x xs ih =>
    have hx := h x (List.mem_cons_self _ _)
    have hxs := ih (fun y hy => h y (List.mem_cons_of_mem _ hy))
    simp only [List.map_cons, hx, collectCells, hxs, Option.map_some']

theorem readLineChecked_eq (direction : String) (board : List Int) (hlen : board.length = 16)
    (i : Nat) (hi : i < 4) :
    readLineChecked direction board i = some (readLine direction board i) := by
  unfold readLineChecked readLine
  apply collectCells_map
  intro j hj
  have hj4 := List.mem_range.mp hj
  exact getD_of_lt board _ (by rw [hlen]; exact lineIndex_lt direction i j hi hj4)

theorem writeCellChecked_eq (direction : String) (i : Nat) (filtered : List Int) (sw : Sweep)
    (j : Nat) (hi : i < 4) (hj : j < 4) (hf : filtered.length = 4)
    (hb : sw.board.length = 16) :
    writeCellChecked direction i filtered sw j = some (writeCell direction i filtered sw j) ∧
    (writeCell direction i filtered sw j).board.length = 16 := by
  have h1 := getD_of_lt sw.board (lineIndex direction i j)
    (by rw [hb]; exact lineIndex_lt direction i j hi hj)
  have h2 := getD_of_lt filtered j (by omega)
  refine ⟨?_, ?_⟩
  · simp only [writeCellChecked, h1, h2, writeCell]
  · simp only [writeCell, List.length_set, hb]

theorem writeBackChecked_eq (direction : String) (i : Nat) (filtered : List Int) (sw : Sweep)
    (hi : i < 4) (hf : filtered.length = 4) (hb : sw.board.length = 16) :
    writeBackChecked direction i filtered sw = some (writeBack direction i filtered sw) ∧
    (writeBack direction i filtered sw).board.length = 16 := by
  obtain ⟨a0, b0⟩ := writeCellChecked_eq direction i filtered sw 0 hi (by omega) hf hb
  obtain ⟨a1, b1⟩ := writeCellChecked_eq direction i filtered _ 1 hi (by omega) hf b0
  obtain ⟨a2, b2⟩ := writeCellChecked_eq direction i filtered _ 2 hi (by omega) hf b1
  obtain ⟨a3, b3⟩ := writeCellChecked_eq direction i filtered _ 3 hi (by omega) hf b2
  refine ⟨?_, ?_⟩
  · simp only [writeBackChecked, writeBack, range_four, List.foldlM_cons, List.foldlM_nil,
      List.foldl_cons, List.foldl_nil, a0, a1, a2, a3, Option.bind_eq_bind, Option.some_bind,
      Option.pure_def]
  · simp only [writeBack, range_four, List.foldl_cons, List.foldl_nil]
    exact b3

theorem moveLineChecked_eq (direction : String) (sw : Sweep) (i : Nat) (hi : i < 4)
    (hb : sw.board.length = 16) :
    moveLineChecked direction sw i = some (moveLine direction sw i) ∧
    (moveLine direction sw i).board.length = 16 := by
  have hrow := readLineChecked_eq direction sw.board hb i hi
  have hstep := lineStepChecked_eq direction (readLine direction sw.board i) sw.score sw.moved
  have hlen4 : (lineStep direction (readLine direction sw.board i) sw.score
      sw.moved).filtered.length = 4 := by
    rw [lineStep_eq]
    exact lineOut_length direction _ (by rw [readLine_length])
  obtain ⟨hw, hl⟩ := writeBackChecked_eq direction i
    (lineStep direction (readLine direction sw.board i) sw.score sw.moved).filtered
    { sw with
      score := (lineStep direction (readLine direction sw.board i) sw.score sw.moved).score
      moved := (lineStep direction (readLine direction sw.board i) sw.score sw.moved).moved }
    hi hlen4 hb
  refine ⟨?_, ?_⟩
  · simp only [moveLineChecked, hrow, hstep, Option.some_bind, hw, moveLine]
  · simp only [moveLine]
    exact hl

theorem slideChecked_eq (direction : String) (board : List Int) (hlen : board.length = 16)
    (s : Int) :
    slideChecked direction board s = some (slide direction board s) ∧
    (slide direction board s).board.length = 16 := by
  obtain ⟨a0, b0⟩ := moveLineChecked_eq direction
    { board := board, score := s, moved := false } 0 (by omega) hlen
  obtain ⟨a1, b1⟩ := moveLineChecked_eq direction _ 1 (by omega) b0
  obtain ⟨a2, b2⟩ := moveLineChecked_eq direction _ 2 (by omega) b1
  obtain ⟨a3, b3⟩ := moveLineChecked_eq direction _ 3 (by omega) b2
  refine ⟨?_, ?_⟩
  · simp only [slideChecked, slide, range_four, List.foldlM_cons, List.foldlM_nil,
      List.foldl_cons, List.foldl_nil, a0, a1, a2, a3, Option.bind_eq_bind, Option.some_bind,
      Option.pure_def]
  · simp only [slide, range_four, List.foldl_cons, List.foldl_nil]
    exact b3

theorem writtenIndices_perm (direction : String) (hd : IsDirection direction) :
    (writtenIndices direction).Perm (List.range 16) := by
  rcases hd.cases with hd | hd
  · have h : writtenIndices direction = List.range 16 := by
      simp only [writtenIndices, lineIndex_rows direction hd]
      decide
    rw [h]
  · have h : writtenIndices direction
        = [0, 4, 8, 12, 1, 5, 9, 13, 2, 6, 10, 14, 3, 7, 11, 15] := by
      simp only [writtenIndices, lineIndex_cols direction hd]
      decide
    rw [h]
    decide

/-- C16: for every board of sixteen cells and each of the four directions,
`move` makes no access out of range: every index it computes is below 16,
every `filtered[k]` and `filtered[k + 1]` of the merge pass lies within the
list, every processed line has four cells after padding, the sixteen indices
written are each cell of the board exactly once, the run with all accesses
checked succeeds with the result of `move`, and the board keeps sixteen cells. -/
theorem move_in_range (direction : String) (hd : IsDirection direction) (s : GameState)
    (hlen : s.board.length = 16) :
    (∀ i j, i < 4 → j < 4 → lineIndex direction i j < 16) ∧
    (∀ st : LineState, mergePassChecked st = some (mergePass st)) ∧
    (∀ (row : List Int) (score : Int) (moved : Bool), row.length = 4 →
      lineStepChecked direction row score moved = some (lineStep direction row score moved) ∧
      (lineStep direction row score moved).filtered.length = 4) ∧
    (writtenIndices direction).Perm (List.range 16) ∧
    slideChecked direction s.board s.score = some (slide direction s.board s.score) ∧
    (slide direction s.board s.score).board.length = 16 ∧
    (∀ r1 r2, (move direction s r1 r2).board.length = 16) := by
  obtain ⟨h1, h2⟩ := slideChecked_eq direction s.board hlen s.score
  refine ⟨lineIndex_lt direction, mergePassChecked_eq, ?_, writtenIndices_perm direction hd,
    h1, h2, ?_⟩
  · intro row score moved hrow
    refine ⟨lineStepChecked_eq direction row score moved, ?_⟩
    rw [lineStep_eq]
    exact lineOut_length direction row (by omega)
  · intro r1 r2
    exact move_length direction hd s hlen r1 r2

theorem move_in_range_witness :
    (∀ i j, i < 4 → j < 4 → lineIndex "down" i j < 16) ∧
    (∀ st : LineState, mergePassChecked st = some (mergePass st)) ∧
    (∀ (row : List Int) (score : Int) (moved : Bool), row.length = 4 →
      lineStepChecked "down" row score moved = some (lineStep "down" row score moved) ∧
      (lineStep "down" row score moved).filtered.length = 4) ∧
    (writtenIndices "down").Perm (List.range 16) ∧
    slideChecked "down" columnState.board columnState.score
      = some (slide "down" columnState.board columnState.score) ∧
    (slide "down" columnState.board columnState.score).board.length = 16 ∧
    (∀ r1 r2, (move "down" columnState r1 r2).board.length = 16) :=
  move_in_range "down" (by decide) columnState (by decide)

/-! ## The level and the largest tile -/

theorem levelOf_eq (m : Int) :
    levelOf m = if m < 128 then 0 else if m < 256 then 1 else if m < 512 then 2
      else if m < 1024 then 3 else if m < 2048 then 4 else 5 := by
  unfold levelOf thresholds
  by_cases h1 : (128 : Int) ≤ m <;> by_cases h2 : (256 : Int) ≤ m <;>
    by_cases h3 : (512 : Int) ≤ m <;> by_cases h4 : (1024 : Int) ≤ m <;>
    by_cases h5 : (2048 : Int) ≤ m <;>
    simp [List.filter_cons, h1, h2, h3, h4, h5, not_lt.mpr, not_le.mp] <;> omega

theorem foldl_max_ge_mem (l : List Int) (x : Int) : ∀ y ∈ l, y ≤ l.foldl max x := by
  induction l generalizing x with
  | nil => intro y hy; simp at hy
  | cons z zs ih =>
    intro y hy
    simp only [List.foldl_cons]
    rcases List.mem_cons.mp hy with rfl | hy
    · exact le_trans (le_max_right x y) (foldl_max_ge zs (max x y))
    · exact ih (max x z) y hy

theorem maxTile_isMax (board : List Int) (m : Int) (h : maxTile board = some m) :
    IsMax board m := by
  refine ⟨maxTile_mem board m h, ?_⟩
  cases board with
  | nil => simp [maxTile] at h
  | cons x xs =>
    simp only [maxTile, Option.some.injEq] at h
    intro y hy
    rw [← h]
    rcases List.mem_cons.mp hy with rfl | hy
    · exact foldl_max_ge xs y
    · exact foldl_max_ge_mem xs x y hy

theorem maxTile_of_length (board : List Int) (h : board.length = 16) :
    ∃ m, maxTile board = some m := by
  cases board with
  | nil => simp at h
  | cons x xs => exact ⟨_, rfl⟩

theorem isMax_unique (board : List Int) (m n : Int) (hm : IsMax board m) (hn : IsMax board n) :
    m = n :=
  le_antisymm (hn.2 m hm.1) (hm.2 n hn.1)

theorem mergeRef_mem_cases (l : List Int) :
    ∀ v ∈ mergeRef l, v ∈ l ∨ ∃ a ∈ l, v = 2 * a := by
  induction l using mergeRef.induct with
  | case1 => simp [mergeRef]
  | case2 a => intro v hv; exact Or.inl (by simpa [mergeRef] using hv)
  | case3 a r ih =>
    intro v hv
    simp only [mergeRef, if_true, List.mem_cons] at hv
    rcases hv with rfl | hv
    · exact Or.inr ⟨a, List.mem_cons_self _ _, rfl⟩
    · rcases ih v hv with h | ⟨b, hb, hvb⟩
      · exact Or.inl (List.mem_cons_of_mem _ (List.mem_cons_of_mem _ h))
      · exact Or.inr ⟨b, List.mem_cons_of_mem _ (List.mem_cons_of_mem _ hb), hvb⟩
  | case4 a b r hab ih =>
    intro v hv
    simp only [mergeRef, hab, if_false, List.mem_cons] at hv
    rcases hv with rfl | hv
    · exact Or.inl (List.mem_cons_self _ _)
    · rcases ih v (by simpa using hv) with h | ⟨c, hc, hvc⟩
      · exact Or.inl (List.mem_cons_of_mem _ h)
      · exact Or.inr ⟨c, List.mem_cons_of_mem _ hc, hvc⟩

theorem mergeRef_covers (l : List Int) :
    ∀ a ∈ l, a ∈ mergeRef l ∨ 2 * a ∈ mergeRef l := by
  induction l using mergeRef.induct with
  | case1 => simp
  | case2 a => intro x hx; exact Or.inl (by simpa [mergeRef] using hx)
  | case3 a r ih =>
    intro x hx
    simp only [mergeRef, if_true]
    rcases List.mem_cons.mp hx with rfl | hx
    · exact Or.inr (List.mem_cons_self _ _)
    · rcases List.mem_cons.mp hx with rfl | hx
      · exact Or.inr (List.mem_cons_self _ _)
      · rcases ih x hx with h | h
        · exact Or.inl (List.mem_cons_of_mem _ h)
        · exact Or.inr (List.mem_cons_of_mem _ h)
  | case4 a b r hab ih =>
    intro x hx
    simp only [mergeRef, hab, if_false]
    rcases List.mem_cons.mp hx with rfl | hx
    · exact Or.inl (List.mem_cons_self _ _)
    · rcases ih x hx with h | h
      · exact Or.inl (List.mem_cons_of_mem _ h)
      · exact Or.inr (List.mem_cons_of_mem _ h)

theorem lineOut_mem_cases (direction : String) (row : List Int) :
    ∀ v ∈ lineOut direction row, v = 0 ∨ v ∈ row ∨ ∃ a ∈ row, v = 2 * a := by
  intro v hv
  rw [lineOut, mem_oriented, padRef, List.mem_append] at hv
  have hsub : ∀ x ∈ compact (oriented direction row), x ∈ row := by
    intro x hx
    have hx' : x ∈ oriented direction row := List.mem_of_mem_filter hx
    rwa [mem_oriented] at hx'
  rcases hv with hv | hv
  · rcases mergeRef_mem_cases _ v hv with h | ⟨a, ha, hva⟩
    · exact Or.inr (Or.inl (hsub v h))
    · exact Or.inr (Or.inr ⟨a, hsub a ha, hva⟩)
  · exact Or.inl (List.eq_of_mem_replicate hv)

theorem lineOut_covers (direction : String) (row : List Int) :
    ∀ a ∈ row, a ≠ 0 → a ∈ lineOut direction row ∨ 2 * a ∈ lineOut direction row := by
  intro a ha ha0
  have hmem : a ∈ compact (oriented direction row) := by
    simp only [compact, List.mem_filter, mem_oriented, ha, true_and]
    simpa using ha0
  have hin : ∀ x, x ∈ mergeRef (compact (oriented direction row)) →
      x ∈ lineOut direction row := by
    intro x hx
    rw [lineOut, mem_oriented, padRef, List.mem_append]
    exact Or.inl hx
  rcases mergeRef_covers _ a hmem with h | h
  · exact Or.inl (hin a h)
  · exact Or.inr (hin _ h)

theorem slide_max (direction : String) (hd : IsDirection direction) (board : List Int)
    (hok : BoardOK board) (s : Int) (m n : Int) (hm : IsMax board m)
    (hn : IsMax (slide direction board s).board n) : m ≤ n ∧ n ≤ 2 * m := by
  obtain ⟨hlen, htiles⟩ := hok
  obtain ⟨hl, hlines, _, _⟩ := slide_lines direction hd board hlen s
  have hpost := slide_boardOK direction hd board s ⟨hlen, htiles⟩
  have hm0 : 0 ≤ m := isTile_nonneg m (htiles m hm.1)
  have hn0 : 0 ≤ n := isTile_nonneg n (hpost.2 n hn.1)
  refine ⟨?_, ?_⟩
  · by_cases hz : m = 0
    · omega
    · obtain ⟨i, hi, hmem⟩ := (mem_board_lines direction hd board hlen m).mp hm.1
      have hin : ∀ x, x ∈ lineOut direction (readLine direction board i) →
          x ∈ (slide direction board s).board := by
        intro x hx
        rw [mem_board_lines direction hd _ hl]
        exact ⟨i, hi, by rw [hlines i hi]; exact hx⟩
      rcases lineOut_covers direction _ m hmem hz with h | h
      · exact hn.2 m (hin m h)
      · have := hn.2 _ (hin _ h)
        omega
  · obtain ⟨i, hi, hmem⟩ := (mem_board_lines direction hd _ hl n).mp hn.1
    rw [hlines i hi] at hmem
    have hrow : ∀ x ∈ readLine direction board i, x ≤ m := by
      intro x hx
      exact hm.2 x ((mem_board_lines direction hd board hlen x).mpr ⟨i, hi, hx⟩)
    rcases lineOut_mem_cases direction _ n hmem with h | h | ⟨a, ha, hna⟩
    · omega
    · have := hrow n h; omega
    · have := hrow a ha; omega

theorem mem_set_or_at (l : List Int) (i : Nat) (v x : Int) (h : x ∈ l) :
    x ∈ l.set i v ∨ l[i]? = some x := by
  induction l generalizing i with
  | nil => simp at h
  | cons y ys ih =>
    cases i with
    | zero =>
      rcases List.mem_cons.mp h with rfl | h
      · exact Or.inr (by simp)
      · exact Or.inl (List.mem_cons_of_mem _ h)
    | succ k =>
      rcases List.mem_cons.mp h with rfl | h
      · exact Or.inl (List.mem_cons_self _ _)
      · rcases ih k h with h' | h'
        · exact Or.inl (List.mem_cons_of_mem _ h')
        · exact Or.inr (by simpa using h')

theorem mem_set_self (l : List Int) (i : Nat) (v x : Int) (h : l[i]? = some x) :
    v ∈ l.set i v := by
  induction l generalizing i with
  | nil => simp at h
  | cons y ys ih =>
    cases i with
    | zero => exact List.mem_cons_self _ _
    | succ k => exact List.mem_cons_of_mem _ (ih k (by simpa using h))

theorem addNumber_max (board : List Int) (r1 r2 : Draw) (m n : Int) (hm : IsMax board m)
    (hn : IsMax (addNumber board r1 r2) n) : m ≤ n ∧ n ≤ max m 4 := by
  rcases addNumber_cases_zero board r1 r2 with heq | ⟨index, v, hzero, hv, heq⟩
  · rw [heq] at hn
    have := isMax_unique board m n hm hn
    subst this
    exact ⟨le_refl _, le_max_left _ _⟩
  · rw [heq] at hn
    have hvmem : v ∈ board.set index v := mem_set_self board index v 0 hzero
    have hvn : v ≤ n := hn.2 v hvmem
    have hv4 : 2 ≤ v ∧ v ≤ 4 := by rcases hv with rfl | rfl <;> decide
    refine ⟨?_, ?_⟩
    · rcases mem_set_or_at board index v m hm.1 with h | h
      · exact hn.2 m h
      · rw [hzero] at h
        have : m = 0 := by simpa using h.symm
        omega
    · rcases mem_set_cases _ _ _ _ hn.1 with h | h
      · rw [h]; exact le_trans hv4.2 (le_max_right _ _)
      · exact le_trans (hm.2 n h) (le_max_left _ _)

theorem levels_of_lt (m : Int) (h : m < 128) : levels m = none := by
  unfold levels
  simp only [show m ≠ 128 by omega, show m ≠ 256 by omega, show m ≠ 512 by omega,
    show m ≠ 1024 by omega, show m ≠ 2048 by omega, if_false]

theorem levels_of_gt (m : Int) (h : 2048 < m) : levels m = none := by
  unfold levels
  simp only [show m ≠ 128 by omega, show m ≠ 256 by omega, show m ≠ 512 by omega,
    show m ≠ 1024 by omega, show m ≠ 2048 by omega, if_false]

theorem tile_in_table (n : Int) (hn : IsTile n) (h1 : 128 ≤ n) (h2 : n < 4096) :
    n = 128 ∨ n = 256 ∨ n = 512 ∨ n = 1024 ∨ n = 2048 := by
  rcases hn with rfl | ⟨k, _, rfl⟩
  · omega
  · have hk : k < 12 := by
      by_contra hge
      have : (2 : Int) ^ 12 ≤ 2 ^ k := pow_le_pow_right₀ (by norm_num) (not_lt.mp hge)
      norm_num at this
      omega
    have hk7 : 7 ≤ k := by
      by_contra hlt
      have : (2 : Int) ^ k ≤ 2 ^ 6 := pow_le_pow_right₀ (by norm_num) (by omega)
      norm_num at this
      omega
    interval_cases k <;> norm_num

theorem tile_large (n : Int) (hn : IsTile n) (h : 2048 < n) : 4096 ≤ n := by
  rcases hn with rfl | ⟨k, _, rfl⟩
  · omega
  · have hk : 12 ≤ k := by
      by_contra hlt
      have : (2 : Int) ^ k ≤ 2 ^ 11 := pow_le_pow_right₀ (by norm_num) (by omega)
      norm_num at this
      omega
    have : (2 : Int) ^ 12 ≤ 2 ^ k := pow_le_pow_right₀ (by norm_num) hk
    norm_num at this
    exact this

/-- The level after `checkLevel`, when the largest tile went from `m` to `n`
without skipping a power of two. -/
theorem checkLevel_levelOf (s : GameState) (m n : Int) (hlevel : s.currentLevel = levelOf m)
    (hmax : maxTile s.board = some n) (hn : IsTile n) (hmn : m ≤ n) (hn2 : n ≤ max (2 * m) 4) :
    (checkLevel s).currentLevel = levelOf n := by
  unfold checkLevel
  rw [hmax, Option.some_bind]
  by_cases h128 : n < 128
  · rw [levels_of_lt n h128]
    simp only [hlevel, levelOf_eq]
    have hm : m < 128 := by omega
    simp [h128, hm]
  · by_cases h2048 : 2048 < n
    · rw [levels_of_gt n h2048]
      have h4096 := tile_large n hn h2048
      have hm : 2048 ≤ m := by
        rcases le_max_iff.mp hn2 with h | h <;> omega
      simp only [hlevel, levelOf_eq]
      simp [show ¬ m < 128 by omega, show ¬ m < 256 by omega, show ¬ m < 512 by omega,
        show ¬ m < 1024 by omega, show ¬ m < 2048 by omega, show ¬ n < 128 by omega,
        show ¬ n < 256 by omega, show ¬ n < 512 by omega, show ¬ n < 1024 by omega,
        show ¬ n < 2048 by omega]
    · have hle : levelOf m ≤ levelOf n := by
        simp only [levelOf_eq]
        split_ifs <;> omega
      rcases tile_in_table n hn (by omega) (by omega) with rfl | rfl | rfl | rfl | rfl
      all_goals
        simp only [levels, levelOf_eq] at hle ⊢
        norm_num at hle ⊢
        split_ifs <;> (simp only [hlevel, levelOf_eq] at *; try omega)

theorem restartGame_small (s : GameState) (r1 r2 r3 r4 : Draw) :
    ∀ v ∈ (restartGame s r1 r2 r3 r4).board, v = 0 ∨ v = 2 ∨ v = 4 := by
  simp only [restartGame, createBoard, checkLevel_board, updateScore_board]
  apply addNumber_small _ r3 r4
  apply addNumber_small _ r1 r2
  intro v hv
  exact Or.inl (List.eq_of_mem_replicate hv)

theorem move_moved_fields (direction : String) (s : GameState) (r1 r2 : Draw)
    (h : (slide direction s.board s.score).moved = true) :
    (move direction s r1 r2).board = addNumber (slide direction s.board s.score).board r1 r2 ∧
    (move direction s r1 r2).currentLevel =
      (checkLevel
        { board := addNumber (slide direction s.board s.score).board r1 r2
          score := (slide direction s.board s.score).score
          currentLevel := s.currentLevel
          highScore := s.highScore }).currentLevel := by
  rw [move_of_moved direction s r1 r2 h]
  exact ⟨by rw [updateScore_board, checkLevel_board], updateScore_level _⟩

/-- In every reachable state the level is the number of thresholds reached by the largest tile. -/
theorem reachable_level (t : GameState) (ht : Reachable t) :
    ∃ m, maxTile t.board = some m ∧ t.currentLevel = levelOf m := by
  induction ht with
  | restart s0 r1 r2 r3 r4 _ _ =>
    obtain ⟨m, hm⟩ := maxTile_of_length _ (restartGame_length s0 r1 r2 r3 r4)
    refine ⟨m, hm, ?_⟩
    rw [restartGame_level, levelOf_eq]
    have hsmall := restartGame_small s0 r1 r2 r3 r4 m (maxTile_mem _ m hm)
    have : m < 128 := by rcases hsmall with h | h | h <;> omega
    simp [this]
  | step s0 direction r1 r2 hd _ hs ih =>
    obtain ⟨m, hm, hlevel⟩ := ih
    have hok := reachable_boardOK s0 hs
    by_cases hmoved : (slide direction s0.board s0.score).moved = true
    · have hpost := slide_boardOK direction hd s0.board s0.score hok
      have hadd := addNumber_boardOK _ r1 r2 hpost
      obtain ⟨p, hp⟩ := maxTile_of_length _ hpost.1
      obtain ⟨n, hn⟩ := maxTile_of_length _ hadd.1
      have h1 := slide_max direction hd s0.board hok s0.score m p (maxTile_isMax _ m hm)
        (maxTile_isMax _ p hp)
      have h2 := addNumber_max _ r1 r2 p n (maxTile_isMax _ p hp) (maxTile_isMax _ n hn)
      have hn2 : n ≤ max (2 * m) 4 := le_trans h2.2 (max_le_max h1.2 (le_refl 4))
      have htile : IsTile n := hadd.2 n (maxTile_mem _ n hn)
      have hmn : m ≤ n := le_trans h1.1 h2.1
      obtain ⟨hb, hl⟩ := move_moved_fields direction s0 r1 r2 hmoved
      rw [hb, hl]
      generalize slide direction s0.board s0.score = sw at hn
      exact ⟨n, hn, checkLevel_levelOf _ m n hlevel hn htile hmn hn2⟩
    · have hm' : (slide direction s0.board s0.score).moved = false := by simpa using hmoved
      have hsl := slide_of_not_moved direction hd s0.board hok.1 s0.score hm'
      have hmove : move direction s0 r1 r2 = s0 := by
        simp only [move, hsl, Bool.false_eq_true, if_false]
      rw [hmove]
      exact ⟨m, hm, hlevel⟩

/-- C12: in every state reachable from `restartGame` by moves in the four
directions, the level is the number of thresholds among 128, 256, 512, 1024,
2048 that are at most the largest tile: 0 below 128 and 5 from 2048 upward.
After any further move the same holds, so the level is 0 while the largest
tile is below 128 and becomes 1 at the move on which it reaches 128. -/
theorem level_counts_thresholds (t : GameState) (ht : Reachable t) :
    ∃ m, maxTile t.board = some m ∧ t.currentLevel = levelOf m ∧
      (m < 128 → t.currentLevel = 0) ∧ (2048 ≤ m → t.currentLevel = 5) ∧
      (∀ direction r1 r2, IsDirection direction → r1.num < r1.den →
        ∃ n, maxTile (move direction t r1 r2).board = some n ∧
          (move direction t r1 r2).currentLevel = levelOf n ∧
          (n < 128 → (move direction t r1 r2).currentLevel = 0) ∧
          (m < 128 → n = 128 →
            t.currentLevel = 0 ∧ (move direction t r1 r2).currentLevel = 1)) := by
  obtain ⟨m, hm, hlevel⟩ := reachable_level t ht
  have hlow : m < 128 → t.currentLevel = 0 := by
    intro h; rw [hlevel, levelOf_eq]; simp [h]
  refine ⟨m, hm, hlevel, hlow, ?_, ?_⟩
  · intro h
    rw [hlevel, levelOf_eq]
    simp [show ¬ m < 128 by omega, show ¬ m < 256 by omega, show ¬ m < 512 by omega,
      show ¬ m < 1024 by omega, show ¬ m < 2048 by omega]
  · intro direction r1 r2 hd hr
    obtain ⟨n, hn, hlevel'⟩ :=
      reachable_level _ (Reachable.step t direction r1 r2 hd hr ht)
    refine ⟨n, hn, hlevel', ?_, ?_⟩
    · intro h; rw [hlevel', levelOf_eq]; simp [h]
    · intro h hn128
      refine ⟨hlow h, ?_⟩
      rw [hlevel', hn128]
      decide

theorem level_counts_thresholds_witness :
    ∃ m, maxTile (restartGame (initialState 0) ⟨0, 1⟩ ⟨0, 1⟩ ⟨0, 1⟩ ⟨0, 1⟩).board = some m ∧
      (restartGame (initialState 0) ⟨0, 1⟩ ⟨0, 1⟩ ⟨0, 1⟩ ⟨0, 1⟩).currentLevel = levelOf m ∧
      (m < 128 → (restartGame (initialState 0) ⟨0, 1⟩ ⟨0, 1⟩ ⟨0, 1⟩ ⟨0, 1⟩).currentLevel = 0) ∧
      (2048 ≤ m →
        (restartGame (initialState 0) ⟨0, 1⟩ ⟨0, 1⟩ ⟨0, 1⟩ ⟨0, 1⟩).currentLevel = 5) ∧
      (∀ direction r1 r2, IsDirection direction → r1.num < r1.den →
        ∃ n, maxTile (move direction
              (restartGame (initialState 0) ⟨0, 1⟩ ⟨0, 1⟩ ⟨0, 1⟩ ⟨0, 1⟩) r1 r2).board = some n ∧
          (move direction
            (restartGame (initialState 0) ⟨0, 1⟩ ⟨0, 1⟩ ⟨0, 1⟩ ⟨0, 1⟩) r1 r2).currentLevel
              = levelOf n ∧
          (n < 128 → (move direction
            (restartGame (initialState 0) ⟨0, 1⟩ ⟨0, 1⟩ ⟨0, 1⟩ ⟨0, 1⟩) r1 r2).currentLevel = 0) ∧
          (m < 128 → n = 128 →
            (restartGame (initialState 0) ⟨0, 1⟩ ⟨0, 1⟩ ⟨0, 1⟩ ⟨0, 1⟩).currentLevel = 0 ∧
            (move direction
              (restartGame (initialState 0) ⟨0, 1⟩ ⟨0, 1⟩ ⟨0, 1⟩ ⟨0, 1⟩) r1 r2).currentLevel
                = 1)) :=
  level_counts_thresholds (restartGame (initialState 0) ⟨0, 1⟩ ⟨0, 1⟩ ⟨0, 1⟩ ⟨0, 1⟩)
    (Reachable.restart (initialState 0) ⟨0, 1⟩ ⟨0, 1⟩ ⟨0, 1⟩ ⟨0, 1⟩ (by decide) (by decide))

/-- C21: for every direction value that is none of the four, `move` reads and
writes the lines as columns without reversal and returns what `move("up")`
returns on the same state and draws: the same board (spawn included), score,
level and high score; on a board of sixteen cells no access is out of range. -/
theorem move_other_direction_is_up (direction : String) (hd : ¬ IsDirection direction)
    (s : GameState) (hlen : s.board.length = 16) (r1 r2 : Draw) :
    (∀ i j, lineIndex direction i j = j * 4 + i) ∧
    reversed direction = false ∧
    (∀ i, readLine direction s.board i = readLine "up" s.board i) ∧
    (∀ (row : List Int) (score : Int) (moved : Bool),
      lineStep direction row score moved = lineCore row score moved) ∧
    slide direction s.board s.score = slide "up" s.board s.score ∧
    slideChecked direction s.board s.score = some (slide "up" s.board s.score) ∧
    move direction s r1 r2 = move "up" s r1 r2 ∧
    (move direction s r1 r2).board = (move "up" s r1 r2).board ∧
    (move direction s r1 r2).score = (move "up" s r1 r2).score ∧
    (move direction s r1 r2).currentLevel = (move "up" s r1 r2).currentLevel ∧
    (move direction s r1 r2).highScore = (move "up" s r1 r2).highScore := by
  have hidx : ∀ i j, lineIndex direction i j = j * 4 + i := by
    intro i j
    rw [lineIndex_other direction hd, lineIndex_cols "up" (Or.inl rfl)]
  have hrev : reversed direction = false := by
    rw [reversed_other direction hd]; decide
  have hmove := move_other direction hd s r1 r2
  refine ⟨hidx, hrev, ?_, ?_, slide_other direction hd s.board s.score, ?_, hmove, ?_, ?_, ?_, ?_⟩
  · intro i
    simp only [readLine, lineIndex_other direction hd]
  · intro row score moved
    simp only [lineStep, hrev, Bool.false_eq_true, if_false]
  · rw [(slideChecked_eq direction s.board hlen s.score).1, slide_other direction hd]
  · rw [hmove]
  · rw [hmove]
  · rw [hmove]
  · rw [hmove]

theorem move_other_direction_is_up_witness :
    (∀ i j, lineIndex "diagonal" i j = j * 4 + i) ∧
    reversed "diagonal" = false ∧
    (∀ i, readLine "diagonal" columnState.board i = readLine "up" columnState.board i) ∧
    (∀ (row : List Int) (score : Int) (moved : Bool),
      lineStep "diagonal" row score moved = lineCore row score moved) ∧
    slide "diagonal" columnState.board columnState.score
      = slide "up" columnState.board columnState.score ∧
    slideChecked "diagonal" columnState.board columnState.score
      = some (slide "up" columnState.board columnState.score) ∧
    move "diagonal" columnState ⟨0, 1⟩ ⟨0, 1⟩ = move "up" columnState ⟨0, 1⟩ ⟨0, 1⟩ ∧
    (move "diagonal" columnState ⟨0, 1⟩ ⟨0, 1⟩).board
      = (move "up" columnState ⟨0, 1⟩ ⟨0, 1⟩).board ∧
    (move "diagonal" columnState ⟨0, 1⟩ ⟨0, 1⟩).score
      = (move "up" columnState ⟨0, 1⟩ ⟨0, 1⟩).score ∧
    (move "diagonal" columnState ⟨0, 1⟩ ⟨0, 1⟩).currentLevel
      = (move "up" columnState ⟨0, 1⟩ ⟨0, 1⟩).currentLevel ∧
    (move "diagonal" columnState ⟨0, 1⟩ ⟨0, 1⟩).highScore
      = (move "up" columnState ⟨0, 1⟩ ⟨0, 1⟩).highScore :=
  move_other_direction_is_up "diagonal" (by decide) columnState (by decide) ⟨0, 1⟩ ⟨0, 1⟩

end Game2k48

namespace Signup

theorem dropWhile_append_of_all (p : Nat → Bool) (l r : List Nat)
    (h : ∀ c ∈ l, p c = true) : (l ++ r).dropWhile p = r.dropWhile p := by
  induction l with
  | nil => rfl
  | cons x xs ih =>
    have hx := h x (List.mem_cons_self _ _)
    simp only [List.cons_append, List.dropWhile_cons, hx, if_true]
    exact ih (fun c hc => h c (List.mem_cons_of_mem _ hc))

theorem dropWhile_of_head (p : Nat → Bool) (l : List Nat)
    (h : ∀ c, l.head? = some c → p c = false) : l.dropWhile p = l := by
  cases l with
  | nil => rfl
  | cons x xs =>
    have hx := h x rfl
    simp only [List.dropWhile_cons, hx, Bool.false_eq_true, if_false]

/-- `jsTrim` trims: its result is the value without a leading and a trailing
run of white space, and has no white space at either end. -/
theorem jsTrim_isTrim (v : JsString) : IsTrim v (jsTrim v) := by
  have h1 := List.takeWhile_append_dropWhile isTrimSpace v
  have h2 := List.takeWhile_append_dropWhile isTrimSpace (v.dropWhile isTrimSpace).reverse
  have h3 : v.dropWhile isTrimSpace
      = ((v.dropWhile isTrimSpace).reverse.dropWhile isTrimSpace).reverse
        ++ ((v.dropWhile isTrimSpace).reverse.takeWhile isTrimSpace).reverse := by
    rw [← List.reverse_append, h2, List.reverse_reverse]
  refine ⟨v.takeWhile isTrimSpace,
    ((v.dropWhile isTrimSpace).reverse.takeWhile isTrimSpace).reverse, ?_, ?_, ?_, ?_, ?_⟩
  · rw [jsTrim, List.append_assoc, ← h3, h1]
  · intro c hc
    exact List.mem_takeWhile_imp hc
  · intro c hc
    exact List.mem_takeWhile_imp (List.mem_reverse.mp hc)
  · intro c hc
    rw [jsTrim, List.head?_reverse] at hc
    have hlast : (v.dropWhile isTrimSpace).reverse.getLast? = some c := by
      rw [← h2, List.getLast?_append, hc]
      rfl
    rw [List.getLast?_reverse] at hlast
    have := List.head?_dropWhile_not isTrimSpace v
    rw [hlast] at this
    exact this
  · intro c hc
    rw [jsTrim, List.getLast?_reverse] at hc
    have := List.head?_dropWhile_not isTrimSpace (v.dropWhile isTrimSpace).reverse
    rw [hc] at this
    exact this

/-- The trimmed value is determined by the value: it is what `jsTrim` returns. -/
theorem isTrim_unique (v t : JsString) (h : IsTrim v t) : t = jsTrim v := by
  obtain ⟨pre, post, hv, hpre, hpost, hhead, hlast⟩ := h
  have hd1 : v.dropWhile isTrimSpace = (t ++ post).dropWhile isTrimSpace := by
    rw [hv, List.append_assoc]
    exact dropWhile_append_of_all isTrimSpace pre (t ++ post) hpre
  cases t with
  | nil =>
    have hall : ∀ c ∈ v, isTrimSpace c = true := by
      intro c hc
      rw [hv] at hc
      simp only [List.append_nil, List.mem_append] at hc
      rcases hc with hc | hc
      · exact hpre c hc
      · exact hpost c hc
    have : v.dropWhile isTrimSpace = [] := List.dropWhile_eq_nil_iff.mpr hall
    simp [jsTrim, this]
  | cons x xs =>
    have hd2 : (x :: xs ++ post).dropWhile isTrimSpace = x :: xs ++ post :=
      dropWhile_of_head isTrimSpace _ (fun c hc => hhead c (by simpa using hc))
    have hrev : (x :: xs ++ post).reverse = post.reverse ++ (x :: xs).reverse :=
      List.reverse_append _ _
    have hd3 : (post.reverse ++ (x :: xs).reverse).dropWhile isTrimSpace
        = ((x :: xs).reverse).dropWhile isTrimSpace :=
      dropWhile_append_of_all isTrimSpace _ _
        (fun c hc => hpost c (List.mem_reverse.mp hc))
    have hd4 : ((x :: xs).reverse).dropWhile isTrimSpace = (x :: xs).reverse :=
      dropWhile_of_head isTrimSpace _
        (fun c hc => hlast c (by rw [← List.head?_reverse]; exact hc))
    rw [jsTrim, hd1, hd2, hrev, hd3, hd4, List.reverse_reverse]

theorem get_isTrimOf (field : Option JsString) : IsTrimOf field (get field) := by
  cases field with
  | none => rfl
  | some v => exact jsTrim_isTrim v

theorem isTrimOf_unique (field : Option JsString) (t : JsString) (h : IsTrimOf field t) :
    t = get field := by
  cases field with
  | none => exact h
  | some v => exact isTrim_unique v t h

theorem collectFormData_eq (form : SignupForm) :
    (collectFormData form = none ↔
      (get form.name = [] ∨ get form.email = [] ∨ get form.password = [] ∨
        (get form.password).length < 6)) ∧
    (¬ (get form.name = [] ∨ get form.email = [] ∨ get form.password = [] ∨
        (get form.password).length < 6) →
      collectFormData form = some
        { name := get form.name, email := get form.email, password := get form.password,
          phone := get form.phone }) := by
  refine ⟨?_, ?_⟩
  · unfold collectFormData
    simp only
    by_cases h1 : get form.name = []
    · simp [h1]
    · by_cases h2 : get form.email = []
      · simp [h1, h2]
      · by_cases h3 : get form.password = []
        · simp [h1, h2, h3]
        · by_cases h4 : (get form.password).length < 6
          · simp [h1, h2, h3, h4]
          · simp [h1, h2, h3, h4]
  · intro h
    unfold collectFormData
    simp only
    split_ifs with h1 h2 h3 h4
    · exact absurd (Or.inl h1) h
    · exact absurd (Or.inr (Or.inl h2)) h
    · exact absurd (Or.inr (Or.inr (Or.inl h3))) h
    · exact absurd (Or.inr (Or.inr (Or.inr h4))) h
    · rfl

/-- C17: every field of the form has exactly one trimmed value (the value
without its leading and trailing white space, empty for a missing field), and
`collectFormData` returns `null` exactly when the trimmed name is empty, or
the trimmed email is empty, or the trimmed password is empty or has fewer than
6 code units (`length`); otherwise it returns the record of the trimmed name,
email, password and phone, and `handleSignup` stops exactly when it returns
`null`.  The sample form is accepted with its trimmed values; a password of
five code units and a name of white space only are rejected. -/
theorem collectFormData_rejects_iff (form : SignupForm) :
    (∃ name email password phone : JsString,
      IsTrimOf form.name name ∧ IsTrimOf form.email email ∧
      IsTrimOf form.password password ∧ IsTrimOf form.phone phone ∧
      (∀ t, IsTrimOf form.name t → t = name) ∧ (∀ t, IsTrimOf form.email t → t = email) ∧
      (∀ t, IsTrimOf form.password t → t = password) ∧
      (∀ t, IsTrimOf form.phone t → t = phone) ∧
      (collectFormData form = none ↔
        (name = [] ∨ email = [] ∨ password = [] ∨ password.length < 6)) ∧
      (¬ (name = [] ∨ email = [] ∨ password = [] ∨ password.length < 6) →
        collectFormData form = some
          { name := name, email := email, password := password, phone := phone }) ∧
      (handleSignupProceeds form = false ↔ collectFormData form = none) ∧
      (handleSignupProceeds form = true ↔
        ¬ (name = [] ∨ email = [] ∨ password = [] ∨ password.length < 6))) ∧
    collectFormData sampleForm = some
      { name := [65], email := [97, 64, 98], password := [49, 50, 51, 52, 53, 54], phone := [] } ∧
    handleSignupProceeds sampleForm = true ∧
    collectFormData shortPasswordForm = none ∧
    collectFormData blankNameForm = none := by
  refine ⟨⟨get form.name, get form.email, get form.password, get form.phone,
    get_isTrimOf _, get_isTrimOf _, get_isTrimOf _, get_isTrimOf _,
    isTrimOf_unique _, isTrimOf_unique _, isTrimOf_unique _, isTrimOf_unique _,
    (collectFormData_eq form).1, (collectFormData_eq form).2, ?_, ?_⟩,
    by decide, by decide, by decide, by decide⟩
  · unfold handleSignupProceeds
    split <;> simp [*]
  · rw [← (collectFormData_eq form).1]
    unfold handleSignupProceeds
    split <;> simp [*]

theorem collectFormData_rejects_iff_witness :
    (∃ name email password phone : JsString,
      IsTrimOf sampleForm.name name ∧ IsTrimOf sampleForm.email email ∧
      IsTrimOf sampleForm.password password ∧ IsTrimOf sampleForm.phone phone ∧
      (∀ t, IsTrimOf sampleForm.name t → t = name) ∧
      (∀ t, IsTrimOf sampleForm.email t → t = email) ∧
      (∀ t, IsTrimOf sampleForm.password t → t = password) ∧
      (∀ t, IsTrimOf sampleForm.phone t → t = phone) ∧
      (collectFormData sampleForm = none ↔
        (name = [] ∨ email = [] ∨ password = [] ∨ password.length < 6)) ∧
      (¬ (name = [] ∨ email = [] ∨ password = [] ∨ password.length < 6) →
        collectFormData sampleForm = some
          { name := name, email := email, password := password, phone := phone }) ∧
      (handleSignupProceeds sampleForm = false ↔ collectFormData sampleForm = none) ∧
      (handleSignupProceeds sampleForm = true ↔
        ¬ (name = [] ∨ email = [] ∨ password = [] ∨ password.length < 6))) ∧
    collectFormData sampleForm = some
      { name := [65], email := [97, 64, 98], password := [49, 50, 51, 52, 53, 54], phone := [] } ∧
    handleSignupProceeds sampleForm = true ∧
    collectFormData shortPasswordForm = none ∧
    collectFormData blankNameForm = none :=
  collectFormData_rejects_iff sampleForm

end Signup

namespace Reminder

theorem any_getSectionData (items : List MedItem) (name : String) :
    (getSectionData items).any (fun dose => decide (dose.name = name) && dose.notified)
      = false := by
  induction items with
  | nil => rfl
  | cons item rest ih =>
    simp only [getSectionData, List.map_cons, List.any_cons, Bool.and_false, Bool.false_or]
    exact ih

/-- C19, the code at the failing input: `saveAllData` never stores a dose with
`notified` set, so after `checkReminders` fires for two doses at 08:00 the
stored data records neither as notified; once the alarm shown last is
dismissed, the next `checkReminders` of the same minute fires again for the
other dose. -/
theorem reminder_notified_not_stored (p : Page) (name : String) :
    storedNotified (saveAllData p) name = false ∧
    (checkReminders 0 "08:00" twoDosePage).fired = ["Aspirin", "Insulin"] ∧
    storedNotified (checkReminders 0 "08:00" twoDosePage) "Aspirin" = false ∧
    (dismissAlarm (checkReminders 0 "08:00" twoDosePage)).currentAlarm = none ∧
    (checkReminders 1 "08:00" (dismissAlarm (checkReminders 0 "08:00" twoDosePage))).fired
      = ["Aspirin", "Insulin", "Aspirin"] := by
  refine ⟨?_, by decide, by decide, by decide, by decide⟩
  simp only [storedNotified, saveAllData, List.any_append, any_getSectionData, Bool.or_self]

/-- C22: for every picker state with `0 ≤ hour ≤ 23` and `0 ≤ minute ≤ 59`
and every integer amount with `|amount| ≤ 60`, `adjustTime('hour', amount)` and
`adjustTime('minute', amount)` leave the hour in `0..23` and the minute in
`0..59`, and after a minute adjustment the time of day in minutes is congruent
modulo 1440 to the old time of day plus the amount. -/
theorem adjustTime_in_range (p : TimePicker) (amount : Int) (hp : InRange p)
    (hlo : -60 ≤ amount) (hhi : amount ≤ 60) :
    InRange (adjustTime "hour" amount p) ∧
    InRange (adjustTime "minute" amount p) ∧
    minuteOfDay (adjustTime "minute" amount p) % 1440 = (minuteOfDay p + amount) % 1440 := by
  obtain ⟨h0, h23, m0, m59⟩ := hp
  have hne : ¬ (("minute" : String) = "hour") := by decide
  refine ⟨?_, ?_, ?_⟩
  · simp only [adjustTime, if_true]
    split_ifs <;> simp only [InRange] <;> omega
  · simp only [adjustTime, hne, if_false, if_true]
    have e1 : Int.tmod (p.hour - 1 + 24) 24 = (p.hour - 1 + 24) % 24 :=
      Int.tmod_eq_emod (by omega) (by omega)
    have e2 : Int.tmod (p.hour + 1) 24 = (p.hour + 1) % 24 :=
      Int.tmod_eq_emod (by omega) (by omega)
    split_ifs <;> simp only [InRange, e1, e2] <;> omega
  · simp only [adjustTime, hne, if_false, if_true]
    have e1 : Int.tmod (p.hour - 1 + 24) 24 = (p.hour - 1 + 24) % 24 :=
      Int.tmod_eq_emod (by omega) (by omega)
    have e2 : Int.tmod (p.hour + 1) 24 = (p.hour + 1) % 24 :=
      Int.tmod_eq_emod (by omega) (by omega)
    split_ifs <;> simp only [minuteOfDay, e1, e2] <;> omega

theorem adjustTime_in_range_witness :
    InRange (adjustTime "hour" (-1) { hour := 0, minute := 5 }) ∧
    InRange (adjustTime "minute" (-1) { hour := 0, minute := 5 }) ∧
    minuteOfDay (adjustTime "minute" (-1) { hour := 0, minute := 5 }) % 1440
      = (minuteOfDay { hour := 0, minute := 5 } + (-1)) % 1440 :=
  adjustTime_in_range { hour := 0, minute := 5 } (-1) (by decide) (by decide) (by decide)

end Reminder

namespace MemoryGame

theorem getElem?_append_last (l : List String) (c : String) :
    (l ++ [c])[(l ++ [c]).length - 1]? = some c := by
  simp

theorem prefix_snoc (l seq : List String) (c : String) (hpre : l <+: seq)
    (hc : seq[l.length]? = some c) : l ++ [c] <+: seq := by
  obtain ⟨t, rfl⟩ := hpre
  cases t with
  | nil => simp at hc
  | cons x xs =>
    have hx : x = c := by
      rw [List.getElem?_append_right (le_refl _)] at hc
      simpa using hc
    subst hx
    exact ⟨xs, by simp⟩

/-- Lines 69-85 in closed form, for a colour that has an element on the page:
the colour pushed is compared with `sequence` at the old length of
`userSequence`. -/
theorem handleUser_eq (page : List String) (c : String) (g : Game) (hc : c ∈ page) :
    handleUser page c g =
      if some c ≠ g.sequence[g.userSequence.length]? then
        { game := { g with userSequence := g.userSequence ++ [c], isUserTurn := false },
          threw := false }
      else if g.userSequence.length + 1 = g.sequence.length then
        { game := { g with userSequence := g.userSequence ++ [c],
                           roundsScheduled := g.roundsScheduled + 1 },
          threw := false }
      else { game := { g with userSequence := g.userSequence ++ [c] }, threw := false } := by
  have hlast := getElem?_append_last g.userSequence c
  have hblink : blink page c = true := by simp [blink, hc]
  simp only [List.length_append, List.length_singleton, Nat.add_sub_cancel] at hlast
  simp only [handleUser, hblink, Bool.true_eq_false, if_false, List.length_append,
    List.length_singleton, Nat.add_sub_cancel, hlast]

/-- C23, as stated, fails: on the page with the four buttons, in the user's
turn with `userSequence` a proper prefix of `sequence`, `handleUser("red")`
with "red" different from the next colour does not end the turn: `blink`
throws after the push, so `isUserTurn` stays true. -/
theorem handleUser_unknown_colour_counterexample :
    sampleGame.isUserTurn = true ∧
    sampleGame.userSequence <+: sampleGame.sequence ∧
    sampleGame.userSequence.length < sampleGame.sequence.length ∧
    sampleGame.sequence[sampleGame.userSequence.length]? ≠ some "red" ∧
    (handleUser fourButtonPage "red" sampleGame).threw = true ∧
    (handleUser fourButtonPage "red" sampleGame).game.userSequence = ["green", "red"] ∧
    ¬ ((handleUser fourButtonPage "red" sampleGame).game.isUserTurn = false) := by
  refine ⟨by decide, ⟨["gold"], by decide⟩, by decide, by decide, by decide, by decide,
    by decide⟩

/-- C23, amended: for every state in which it is the user's turn and
`userSequence` is a proper prefix of `sequence`, and every colour `c` that has
an element on the page (as the colour of every button clicked has):
`handleUser(c)` completes; with `c` different from the next colour of
`sequence` it ends the turn and schedules no round; with the matching `c` it
appends `c`, keeps the turn and the prefix, and schedules the next round
exactly when `userSequence` has reached the length of `sequence`; so a round
is scheduled only when `userSequence` equals `sequence`. -/
theorem handleUser_turn (page : List String) (g : Game) (c : String) (hc : c ∈ page)
    (hturn : g.isUserTurn = true) (hpre : g.userSequence <+: g.sequence)
    (_hlt : g.userSequence.length < g.sequence.length) :
    clickButton page c g = handleUser page c g ∧
    (handleUser page c g).threw = false ∧
    (g.sequence[g.userSequence.length]? ≠ some c →
      (handleUser page c g).game.isUserTurn = false ∧
      (handleUser page c g).game.roundsScheduled = g.roundsScheduled) ∧
    (g.sequence[g.userSequence.length]? = some c →
      (handleUser page c g).game.userSequence = g.userSequence ++ [c] ∧
      (handleUser page c g).game.isUserTurn = true ∧
      (handleUser page c g).game.userSequence <+: (handleUser page c g).game.sequence ∧
      ((handleUser page c g).game.roundsScheduled = g.roundsScheduled + 1 ↔
        (handleUser page c g).game.userSequence.length = g.sequence.length) ∧
      ((handleUser page c g).game.roundsScheduled = g.roundsScheduled ∨
        (handleUser page c g).game.roundsScheduled = g.roundsScheduled + 1)) ∧
    ((handleUser page c g).game.roundsScheduled ≠ g.roundsScheduled →
      (handleUser page c g).game.userSequence = g.sequence) ∧
    (handleUser page c g).game.sequence = g.sequence := by
  have hclick : clickButton page c g = handleUser page c g := by simp [clickButton, hturn]
  by_cases hmatch : some c ≠ g.sequence[g.userSequence.length]?
  · have h : handleUser page c g
        = { game := { g with userSequence := g.userSequence ++ [c], isUserTurn := false },
            threw := false } := by
      rw [handleUser_eq page c g hc, if_pos hmatch]
    rw [h]
    refine ⟨hclick.trans h, rfl, fun _ => ⟨rfl, rfl⟩, ?_, fun hne => absurd rfl hne, rfl⟩
    intro heq
    exact absurd heq.symm hmatch
  · have heq : g.sequence[g.userSequence.length]? = some c := by
      by_contra h
      exact hmatch (fun h' => h h'.symm)
    have hsnoc := prefix_snoc _ _ _ hpre heq
    by_cases hfull : g.userSequence.length + 1 = g.sequence.length
    · have h : handleUser page c g
          = { game := { g with userSequence := g.userSequence ++ [c],
                               roundsScheduled := g.roundsScheduled + 1 },
              threw := false } := by
        rw [handleUser_eq page c g hc, if_neg hmatch, if_pos hfull]
      have hlen : (g.userSequence ++ [c]).length = g.sequence.length := by simpa using hfull
      rw [h]
      refine ⟨hclick.trans h, rfl, fun hne => absurd heq hne, ?_, ?_, rfl⟩
      · intro _
        exact ⟨rfl, hturn, hsnoc, ⟨fun _ => hlen, fun _ => rfl⟩, Or.inr rfl⟩
      · intro _
        exact List.IsPrefix.eq_of_length hsnoc hlen
    · have h : handleUser page c g
          = { game := { g with userSequence := g.userSequence ++ [c] }, threw := false } := by
        rw [handleUser_eq page c g hc, if_neg hmatch, if_neg hfull]
      have hlen : (g.userSequence ++ [c]).length ≠ g.sequence.length := by simpa using hfull
      rw [h]
      refine ⟨hclick.trans h, rfl, fun hne => absurd heq hne, ?_, fun hne => absurd rfl hne,
        rfl⟩
      intro _
      refine ⟨rfl, hturn, hsnoc, ⟨fun hs => ?_, fun hl => absurd hl hlen⟩, Or.inl rfl⟩
      have hs' : g.roundsScheduled = g.roundsScheduled + 1 := hs
      omega

theorem handleUser_turn_witness :
    clickButton fourButtonPage "gold" sampleGame = handleUser fourButtonPage "gold" sampleGame ∧
    (handleUser fourButtonPage "gold" sampleGame).threw = false ∧
    (sampleGame.sequence[sampleGame.userSequence.length]? ≠ some "gold" →
      (handleUser fourButtonPage "gold" sampleGame).game.isUserTurn = false ∧
      (handleUser fourButtonPage "gold" sampleGame).game.roundsScheduled
        = sampleGame.roundsScheduled) ∧
    (sampleGame.sequence[sampleGame.userSequence.length]? = some "gold" →
      (handleUser fourButtonPage "gold" sampleGame).game.userSequence
        = sampleGame.userSequence ++ ["gold"] ∧
      (handleUser fourButtonPage "gold" sampleGame).game.isUserTurn = true ∧
      (handleUser fourButtonPage "gold" sampleGame).game.userSequence
        <+: (handleUser fourButtonPage "gold" sampleGame).game.sequence ∧
      ((handleUser fourButtonPage "gold" sampleGame).game.roundsScheduled
          = sampleGame.roundsScheduled + 1 ↔
        (handleUser fourButtonPage "gold" sampleGame).game.userSequence.length
          = sampleGame.sequence.length) ∧
      ((handleUser fourButtonPage "gold" sampleGame).game.roundsScheduled
          = sampleGame.roundsScheduled ∨
        (handleUser fourButtonPage "gold" sampleGame).game.roundsScheduled
          = sampleGame.roundsScheduled + 1)) ∧
    ((handleUser fourButtonPage "gold" sampleGame).game.roundsScheduled
        ≠ sampleGame.roundsScheduled →
      (handleUser fourButtonPage "gold" sampleGame).game.userSequence = sampleGame.sequence) ∧
    (handleUser fourButtonPage "gold" sampleGame).game.sequence = sampleGame.sequence :=
  handleUser_turn fourButtonPage sampleGame "gold" (by decide) (by decide)
    ⟨["gold"], by decide⟩ (by decide)

end MemoryGame
